import Mathlib

/-!
# camera_access : a verification development for the Windows camera manager

Shallow embedding of `plugins/camera_access/windows/camera_manager.{h,cpp}`.

* `float` and `double` are modelled by `Flt`: NaN, the two infinities, or a finite
  rational.  Every arithmetic operation computes the exact rational result and rounds
  it to the target format (binary32 or binary64) with round-to-nearest, ties-to-even,
  gradual underflow and overflow to infinity.  The two signed zeros are identified.
* `UINT` arithmetic is on `Nat` with an explicit reduction modulo `2^32`.
* `BYTE` is `Fin 256`; a frame buffer is a `List Byte` addressed by byte offset.
* Calls into Media Foundation / Direct3D are replaced by records holding their results.
-/

namespace camera_access

/-! ## Floating point -/

/-- An IEEE-754 value: NaN, an infinity, or a finite number. -/
inductive Flt where
  | nan : Flt
  | pinf : Flt
  | ninf : Flt
  | fin (q : ℚ) : Flt
deriving DecidableEq

/-- A binary floating-point format: precision in bits and exponent range. -/
structure Fmt where
  prec : Nat
  emin : Int
  emax : Int

/-- The C++ type `float`. -/
def binary32 : Fmt := ⟨24, -126, 127⟩

/-- The C++ type `double`. -/
def binary64 : Fmt := ⟨53, -1022, 1023⟩

def bitLenAux : Nat → Nat → Nat
  | 0, _ => 0
  | fuel + 1, n => if n = 0 then 0 else bitLenAux fuel (n / 2) + 1

/-- Number of binary digits of `n`. -/
def bitLen (n : Nat) : Nat := bitLenAux n n

/-- For positive `n` and `d`: the integer `e` with `2^e ≤ n/d < 2^(e+1)`. -/
def floorLog2 (n d : Nat) : Int :=
  let k : Int := (bitLen n : Int) - (bitLen d : Int)
  if 0 ≤ k then (if d * 2 ^ k.toNat ≤ n then k else k - 1)
  else (if d ≤ n * 2 ^ (-k).toNat then k else k - 1)

/-- The quotient `N/D` rounded to the nearest integer, ties to the even one. -/
def roundNearestEven (N D : Nat) : Nat :=
  let q := N / D
  let r := N % D
  if 2 * r < D then q else if D < 2 * r then q + 1 else if q % 2 = 0 then q else q + 1

/-- The rational `m * 2^e`. -/
def scaleb (m : Nat) (e : Int) : ℚ :=
  if 0 ≤ e then ((m * 2 ^ e.toNat : Nat) : ℚ) else mkRat m (2 ^ (-e).toNat)

/-- Round the positive rational `n/d` to the format, magnitude only:
`none` stands for overflow. -/
def Fmt.roundPos (F : Fmt) (n d : Nat) : Option ℚ :=
  let e := floorLog2 n d
  let ue : Int := max (e - ((F.prec : Int) - 1)) (F.emin - ((F.prec : Int) - 1))
  let m := if 0 ≤ ue then roundNearestEven n (d * 2 ^ ue.toNat)
           else roundNearestEven (n * 2 ^ (-ue).toNat) d
  if F.emax + 1 < ue then none
  else if 2 ^ (F.emax + 1 - ue).toNat ≤ m then none
  else some (scaleb m ue)

/-- Round an exact rational result to the format. -/
def Fmt.round (F : Fmt) (q : ℚ) : Flt :=
  if q = 0 then Flt.fin 0
  else if 0 < q then
    match F.roundPos q.num.toNat q.den with
    | some r => Flt.fin r
    | none => Flt.pinf
  else
    match F.roundPos (-q).num.toNat q.den with
    | some r => Flt.fin (-r)
    | none => Flt.ninf

namespace Flt

/-- The C++ comparison `a < b` (false when either side is NaN). -/
def lt : Flt → Flt → Bool
  | nan, _ => false
  | _, nan => false
  | pinf, _ => false
  | _, pinf => true
  | _, ninf => false
  | ninf, _ => true
  | fin a, fin b => decide (a < b)

/-- The C++ comparison `a <= b`. -/
def le : Flt → Flt → Bool
  | nan, _ => false
  | _, nan => false
  | _, pinf => true
  | pinf, _ => false
  | ninf, _ => true
  | _, ninf => false
  | fin a, fin b => decide (a ≤ b)

/-- The C++ comparison `a == b`. -/
def eq : Flt → Flt → Bool
  | nan, _ => false
  | _, nan => false
  | pinf, pinf => true
  | ninf, ninf => true
  | fin a, fin b => decide (a = b)
  | _, _ => false

/-- The C++ comparison `a != b`. -/
def ne (a b : Flt) : Bool := !(eq a b)

/-- The template `std::min(a, b)`, which is `(b < a) ? b : a`. -/
def stdMin (a b : Flt) : Flt := if lt b a then b else a

/-- The template `std::max(a, b)`, which is `(a < b) ? b : a`. -/
def stdMax (a b : Flt) : Flt := if lt a b then b else a

def neg : Flt → Flt
  | nan => nan
  | pinf => ninf
  | ninf => pinf
  | fin q => fin (-q)

def add (F : Fmt) : Flt → Flt → Flt
  | nan, _ => nan
  | _, nan => nan
  | pinf, ninf => nan
  | ninf, pinf => nan
  | pinf, _ => pinf
  | _, pinf => pinf
  | ninf, _ => ninf
  | _, ninf => ninf
  | fin a, fin b => F.round (a + b)

def sub (F : Fmt) (a b : Flt) : Flt := add F a (neg b)

/-- Sign-directed infinity. -/
def infOfSign (positive : Bool) : Flt := if positive then pinf else ninf

def mul (F : Fmt) : Flt → Flt → Flt
  | nan, _ => nan
  | _, nan => nan
  | pinf, pinf => pinf
  | pinf, ninf => ninf
  | ninf, pinf => ninf
  | ninf, ninf => pinf
  | pinf, fin b => if b = 0 then nan else infOfSign (decide (0 < b))
  | ninf, fin b => if b = 0 then nan else infOfSign (decide (b < 0))
  | fin a, pinf => if a = 0 then nan else infOfSign (decide (0 < a))
  | fin a, ninf => if a = 0 then nan else infOfSign (decide (a < 0))
  | fin a, fin b => F.round (a * b)

def div (F : Fmt) : Flt → Flt → Flt
  | nan, _ => nan
  | _, nan => nan
  | pinf, pinf => nan
  | pinf, ninf => nan
  | ninf, pinf => nan
  | ninf, ninf => nan
  | pinf, fin b => infOfSign (decide (0 ≤ b))
  | ninf, fin b => infOfSign (decide (b < 0))
  | fin _, pinf => fin 0
  | fin _, ninf => fin 0
  | fin a, fin b =>
    if b = 0 then (if a = 0 then nan else infOfSign (decide (0 < a)))
    else F.round (a / b)

/-- Conversion of a finite or infinite value to another format (`static_cast`). -/
def cast (F : Fmt) : Flt → Flt
  | fin q => F.round q
  | x => x

/-- Truncation toward zero of a non-negative value to an unsigned integer, as in
`static_cast<UINT>(x)`; values the C++ conversion leaves undefined give 0. -/
def truncNat : Flt → Nat
  | fin q => if 0 ≤ q then (q.num / (q.den : Int)).toNat else 0
  | _ => 0

/-- Truncation toward zero to a signed integer, as in `static_cast<int>(x)`. -/
def truncInt : Flt → Int
  | fin q => if 0 ≤ q then q.num / (q.den : Int) else -((-q).num / (q.den : Int))
  | _ => 0

end Flt

/-- A `float` literal or an integer converted to `float`. -/
def f32 (q : ℚ) : Flt := binary32.round q

/-- A `double` literal or an integer converted to `double`. -/
def f64 (q : ℚ) : Flt := binary64.round q


/-! ## Machine integers, bytes and buffers -/

/-- Reduction of an unsigned 32-bit (`UINT`, `uint32_t`, `DWORD`) result. -/
def u32 (n : Nat) : Nat := n % 4294967296

/-- Unsigned 32-bit subtraction `a - b`. -/
def u32sub (a b : Nat) : Nat := (a + 4294967296 - b % 4294967296) % 4294967296

/-- The C++ type `BYTE` / `uint8_t`. -/
abbrev Byte := Fin 256

/-- Conversion of an integer result to `BYTE`. -/
def byteOfNat (n : Nat) : Byte := ⟨n % 256, Nat.mod_lt n (by decide)⟩

/-- A byte buffer addressed by offset (`BYTE*`, `std::vector<uint8_t>`). -/
abbrev Buf := List Byte

/-- The read `d[i]`; a read past the end of the modelled buffer gives 0. -/
def rd (d : Buf) (i : Nat) : Byte := d.getD i 0

/-- The write `d[i] = v`; a write past the end of the modelled buffer is dropped. -/
def wr (d : Buf) (i : Nat) (v : Byte) : Buf := d.set i v

/-- A `BYTE` converted to `float` (always exact). -/
def Flt.ofByte (b : Byte) : Flt := Flt.fin (b.val : ℚ)

/-- The conversion `static_cast<BYTE>(x)` of a `float`: truncation, then reduction. -/
def Flt.toByte (x : Flt) : Byte := byteOfNat x.truncNat

/-! ## Data model (camera_manager.h) -/

/-- The value type `flutter::EncodableValue`. -/
inductive EncodableValue where
  | null : EncodableValue
  | bool (b : Bool) : EncodableValue
  | int (i : Int) : EncodableValue
  | double (d : Flt) : EncodableValue
  | string (s : String) : EncodableValue
deriving DecidableEq

/-- The map type `flutter::EncodableMap`, as an association list. -/
abbrev EncodableMap := List (EncodableValue × EncodableValue)

/-- The lookup `map.find(key)`; `none` is `map.end()`. -/
def EncodableMap.find (m : EncodableMap) (key : EncodableValue) : Option EncodableValue :=
  match m with
  | [] => none
  | (k, v) :: rest => if k = key then some v else EncodableMap.find rest key

structure CameraResolution where
  width : Nat := 640
  height : Nat := 480
deriving DecidableEq

structure ImageAdjustments where
  brightness : Flt := Flt.fin 0
  contrast : Flt := Flt.fin 0
  saturation : Flt := Flt.fin 0
  sharpness : Flt := Flt.fin 0
  exposure : Flt := Flt.fin 0
  gain : Flt := Flt.fin 1
  filter : String := ""
  use_hardware_acceleration : Bool := true
deriving DecidableEq

namespace ImageAdjustments

/-- The body of `ImageAdjustments::Clamp` for one field:
`std::max(lo, std::min(hi, x))`. -/
def clampField (lo hi x : Flt) : Flt := Flt.stdMax lo (Flt.stdMin hi x)

def Clamp (a : ImageAdjustments) : ImageAdjustments :=
  { a with
    brightness := clampField (f32 (-1)) (f32 1) a.brightness
    contrast := clampField (f32 (-1)) (f32 1) a.contrast
    saturation := clampField (f32 (-1)) (f32 1) a.saturation
    sharpness := clampField (f32 0) (f32 1) a.sharpness
    exposure := clampField (f32 (-1)) (f32 1) a.exposure
    gain := clampField (f32 0) (f32 2) a.gain }

/-- The lambda `get_double_value` of `FromEncodableMap`. -/
def get_double_value (map : EncodableMap) (key : String) (default_value : Flt) : Flt :=
  match map.find (EncodableValue.string key) with
  | some (EncodableValue.double d) => Flt.cast binary32 d
  | _ => default_value

def FromEncodableMap (map : EncodableMap) : ImageAdjustments :=
  let adj : ImageAdjustments := {}
  let adj := { adj with brightness := get_double_value map "brightness" (f32 0) }
  let adj := { adj with contrast := get_double_value map "contrast" (f32 0) }
  let adj := { adj with saturation := get_double_value map "saturation" (f32 0) }
  let adj := { adj with sharpness := get_double_value map "sharpness" (f32 0) }
  let adj := { adj with exposure := get_double_value map "exposure" (f32 0) }
  let adj := { adj with gain := get_double_value map "gain" (f32 1) }
  let adj :=
    match map.find (EncodableValue.string "filter") with
    | some (EncodableValue.string s) => { adj with filter := s }
    | _ => adj
  let adj :=
    match map.find (EncodableValue.string "useHardwareAcceleration") with
    | some (EncodableValue.bool b) => { adj with use_hardware_acceleration := b }
    | _ => adj
  adj.Clamp

end ImageAdjustments

/-- A value is finite and lies in the closed rational interval. -/
def Flt.inRange (lo hi : ℚ) : Flt → Prop
  | Flt.fin q => lo ≤ q ∧ q ≤ hi
  | _ => False

structure CameraDevice where
  id : String
  name : String
  is_default : Bool
  position : String
deriving DecidableEq

structure FrameData where
  data : Buf := []
  width : Nat := 0
  height : Nat := 0
  /-- Capture time on the steady clock, in milliseconds. -/
  timestamp : Nat := 0
deriving DecidableEq

/-- Capacity declared for the frame ring. -/
def kRingBufferSize : Nat := 3

/-- The state of a `CameraManager` object.  A COM pointer is modelled by a flag that
tells whether it is non-null, the capture thread by whether it is joinable.  Text is
modelled as Unicode strings, on which `Utf8ToWide` and `WideToUtf8` are the identity. -/
structure CameraManager where
  source_reader_ : Bool := false
  devices_ : List CameraDevice := []
  supported_resolutions_ : List CameraResolution := []
  capture_thread_ : Bool := false
  thread_running_ : Bool := false
  new_frame_available_ : Bool := false
  session_active_ : Bool := false
  frame_ring_buffer_ : List FrameData := []
  frame_interval_ : Int := 33
  adaptive_quality_ : Bool := true
  processing_times_ : List Flt := []
  consecutive_slow_frames_ : Int := 0
  mf_initialized_ : Bool := false
  current_resolution_ : CameraResolution := ⟨1280, 720⟩
  current_adjustments_ : ImageAdjustments := {}
  hardware_acceleration_initialized_ : Bool := false
  d3d_device_ : Bool := false
  d3d_context_ : Bool := false
  wic_factory_ : Bool := false
  staging_texture_ : Bool := false
  current_zoom_level_ : Flt := Flt.fin 1
  max_zoom_level_ : Flt := Flt.fin 10
  current_white_balance_ : String := "auto"
  white_balance_red_gain_ : Flt := Flt.fin 1
  white_balance_green_gain_ : Flt := Flt.fin 1
  white_balance_blue_gain_ : Flt := Flt.fin 1
  current_frame_ : Buf := []
  current_camera_id_ : String := ""
deriving DecidableEq

namespace CameraManager

/-! ## Quality controller -/

def AdaptQualityDown (s : CameraManager) : CameraManager :=
  let s :=
    if s.frame_interval_ < 66 then
      { s with frame_interval_ :=
          (Flt.mul binary64 (f64 s.frame_interval_) (f64 (12 / 10))).truncInt }
    else s
  { s with processing_times_ := [] }

def TryAdaptQualityUp (s : CameraManager) : CameraManager :=
  let s :=
    if 17 < s.frame_interval_ then
      { s with frame_interval_ :=
          (Flt.mul binary64 (f64 s.frame_interval_) (f64 (9 / 10))).truncInt }
    else s
  { s with processing_times_ := [] }

def TrackProcessingTime (s : CameraManager) (processing_time : Flt) : CameraManager :=
  let times := s.processing_times_ ++ [processing_time]
  let times := if 30 < times.length then times.tail else times
  let s := { s with processing_times_ := times }
  if 5 ≤ times.length ∧ s.adaptive_quality_ = true then
    let avg_time := times.foldl (Flt.add binary64) (f64 0)
    let avg_time := Flt.div binary64 avg_time (f64 times.length)
    let target_time := Flt.mul binary64 (f64 s.frame_interval_) (f64 (7 / 10))
    if Flt.lt target_time avg_time then
      let s := { s with consecutive_slow_frames_ := s.consecutive_slow_frames_ + 1 }
      if 3 ≤ s.consecutive_slow_frames_ then
        AdaptQualityDown { s with consecutive_slow_frames_ := 0 }
      else s
    else if Flt.lt avg_time (Flt.mul binary64 target_time (f64 (5 / 10))) then
      TryAdaptQualityUp s
    else
      { s with consecutive_slow_frames_ := 0 }
  else s

/-! ## Zoom -/

def GetZoomLevel (s : CameraManager) : Flt := s.current_zoom_level_

def GetMaxZoomLevel (s : CameraManager) : Flt := s.max_zoom_level_

def SetZoomLevel (s : CameraManager) (zoom_level : Flt) : Bool × CameraManager :=
  let zoom_level := if Flt.lt zoom_level (f64 1) then f64 1 else zoom_level
  let zoom_level := if Flt.lt s.max_zoom_level_ zoom_level then s.max_zoom_level_ else zoom_level
  (true, { s with current_zoom_level_ := zoom_level })

/-! ## Session life cycle -/

def StopCameraSession (s : CameraManager) : Bool × CameraManager :=
  if s.session_active_ = false then (true, s)
  else
    let s := { s with thread_running_ := false }
    let s := if s.capture_thread_ then { s with capture_thread_ := false } else s
    let s := if s.source_reader_ then { s with source_reader_ := false } else s
    let s := { s with session_active_ := false, current_camera_id_ := "" }
    let s := { s with current_frame_ := [], new_frame_available_ := false }
    (true, s)

end CameraManager

/-- Results of the Media Foundation calls made by `StartCameraSession`
(`true` is `SUCCEEDED(hr)`). -/
structure MFResults where
  MFCreateAttributes : Bool
  SetUINT32 : Bool
  MFCreateDeviceSource : Bool
  MFCreateSourceReaderFromMediaSource : Bool
  MFCreateMediaType : Bool
  SetGUID_major : Bool
  SetGUID_subtype : Bool
  SetCurrentMediaType : Bool
deriving DecidableEq

namespace CameraManager

def StartCameraSession (mf : MFResults) (s : CameraManager) (camera_id : String) :
    Bool × CameraManager :=
  let s := if s.session_active_ then (StopCameraSession s).2 else s
  if s.mf_initialized_ = false then (false, s)
  else
    let wide_camera_id := camera_id
    let device_found := s.devices_.any (fun device => decide (device.id = wide_camera_id))
    if device_found = false then (false, s)
    else if mf.MFCreateAttributes = false then (false, s)
    else if mf.SetUINT32 = false then (false, s)
    else if mf.MFCreateDeviceSource = false then (false, s)
    else
      let s := { s with source_reader_ := mf.MFCreateSourceReaderFromMediaSource }
      if mf.MFCreateSourceReaderFromMediaSource = false then (false, s)
      else if mf.MFCreateMediaType = false then (false, { s with source_reader_ := false })
      else
        let hr := mf.SetGUID_major
        let hr := if hr then mf.SetGUID_subtype else hr
        let hr := if hr then mf.SetCurrentMediaType else hr
        if hr = false then (false, { s with source_reader_ := false })
        else
          (true, { s with current_camera_id_ := wide_camera_id, session_active_ := true,
                          thread_running_ := true, capture_thread_ := true })

def GetLastFrameFromBuffer (s : CameraManager) : Buf :=
  match s.frame_ring_buffer_.getLast? with
  | none => []
  | some frame => frame.data

end CameraManager

/-! ## Frame processing -/

/-- The C library function `powf`.  Its implementation is not part of the program; the only
fact used is the one the C standard fixes for every argument: `powf(x, 0) = 1`. -/
structure LibM where
  powf : Flt → Flt → Flt
  powf_zero : ∀ x, powf x (Flt.fin 0) = Flt.fin 1

/-- A `powf` that is right at exponent zero and at the exponents `1` and `-1` of base 2,
used to run the model on concrete frames. -/
def LibM.sample : LibM where
  powf := fun x y =>
    if y = Flt.fin 0 then Flt.fin 1
    else if x = Flt.fin 2 ∧ y = Flt.fin 1 then Flt.fin 2
    else if x = Flt.fin 2 ∧ y = Flt.fin (-1) then Flt.fin (1 / 2)
    else Flt.nan
  powf_zero := fun x => by simp

/-- `a + b` on `float`. -/
abbrev fadd (a b : Flt) : Flt := Flt.add binary32 a b

/-- `a - b` on `float`. -/
abbrev fsub (a b : Flt) : Flt := Flt.sub binary32 a b

/-- `a * b` on `float`. -/
abbrev fmul (a b : Flt) : Flt := Flt.mul binary32 a b

/-- `a / b` on `float`. -/
abbrev fdiv (a b : Flt) : Flt := Flt.div binary32 a b

/-- The nested loop `for y < height: pixel = data + y * stride; for x < width: body; pixel += 4`. -/
def forEachPixel (body : Buf → Nat → Buf) (width height stride : Nat) (data : Buf) : Buf :=
  (List.range height).foldl
    (fun d y => (List.range width).foldl (fun d x => body d (u32 (y * stride) + 4 * x)) d) data

/-- One destination pixel of the zoom loop. -/
def zoomPixel (temp_buffer : Buf) (width height stride crop_x crop_y crop_width crop_height : Nat)
    (data : Buf) (y x : Nat) : Buf :=
  let src_x := fadd (f32 crop_x) (fmul (fdiv (f32 x) (f32 width)) (f32 crop_width))
  let src_y := fadd (f32 crop_y) (fmul (fdiv (f32 y) (f32 height)) (f32 crop_height))
  let src_x_int := u32 src_x.truncNat
  let src_y_int := u32 src_y.truncNat
  if width ≤ u32 (src_x_int + 1) ∨ height ≤ u32 (src_y_int + 1) then data
  else
    let weight_x := fsub src_x (f32 src_x_int)
    let weight_y := fsub src_y (f32 src_y_int)
    let idx_tl := u32 (src_y_int * stride + src_x_int * 4)
    let idx_tr := u32 (src_y_int * stride + (src_x_int + 1) * 4)
    let idx_bl := u32 ((src_y_int + 1) * stride + src_x_int * 4)
    let idx_br := u32 ((src_y_int + 1) * stride + (src_x_int + 1) * 4)
    let dst_pixel := u32 (y * stride) + u32 (x * 4)
    let channel (c : Nat) : Byte :=
      let tl := Flt.ofByte (rd temp_buffer (u32 (idx_tl + c)))
      let tr := Flt.ofByte (rd temp_buffer (u32 (idx_tr + c)))
      let bl := Flt.ofByte (rd temp_buffer (u32 (idx_bl + c)))
      let br := Flt.ofByte (rd temp_buffer (u32 (idx_br + c)))
      let top := fadd (fmul tl (fsub (f32 1) weight_x)) (fmul tr weight_x)
      let bottom := fadd (fmul bl (fsub (f32 1) weight_x)) (fmul br weight_x)
      let result := fadd (fmul top (fsub (f32 1) weight_y)) (fmul bottom weight_y)
      result.toByte
    let data := wr data dst_pixel (channel 0)
    let data := wr data (dst_pixel + 1) (channel 1)
    let data := wr data (dst_pixel + 2) (channel 2)
    wr data (dst_pixel + 3) (rd temp_buffer (u32 (idx_tl + 3)))

/-- The zoom block of `ApplyImageAdjustmentsSoftware` (entered when the level exceeds 1.01). -/
def zoomStage (current_zoom_level_ : Flt) (data : Buf) (width height stride : Nat) : Buf :=
  let size := u32 (stride * height)
  let temp_buffer : Buf := (List.range size).map (rd data)
  let zoom := Flt.cast binary32 current_zoom_level_
  let crop_width := u32 (fdiv (f32 width) zoom).truncNat
  let crop_height := u32 (fdiv (f32 height) zoom).truncNat
  let crop_x := u32sub width crop_width / 2
  let crop_y := u32sub height crop_height / 2
  let crop_width := if crop_width < 1 then 1 else crop_width
  let crop_height := if crop_height < 1 then 1 else crop_height
  let crop_x := if width < u32 (crop_x + crop_width) then u32sub width crop_width else crop_x
  let crop_y := if height < u32 (crop_y + crop_height) then u32sub height crop_height else crop_y
  let data := (List.range size).foldl (fun d i => wr d i 0) data
  (List.range height).foldl
    (fun d y => (List.range width).foldl
      (fun d x => zoomPixel temp_buffer width height stride crop_x crop_y crop_width crop_height d y x)
      d) data

/-- The saturation block of the tone loop, on the three channel values `(b, g, r)`. -/
def saturatePixel (saturation : Flt) (b g r : Flt) : Flt × Flt × Flt :=
  let max_val := Flt.stdMax (Flt.stdMax r g) b
  let min_val := Flt.stdMin (Flt.stdMin r g) b
  let lum := fdiv (fadd max_val min_val) (f32 2)
  if Flt.ne max_val min_val then
    let sat :=
      if Flt.le lum (f32 (255 / 2)) then fdiv (fsub max_val min_val) (fadd max_val min_val)
      else fdiv (fsub max_val min_val) (fsub (fsub (f32 510) max_val) min_val)
    let sat := fmul sat saturation
    let sat := Flt.stdMin (f32 1) (Flt.stdMax (f32 0) sat)
    let min_new := fmul lum (fsub (f32 1) sat)
    let max_new := fmul lum (fadd (f32 1) sat)
    let mid (v : Flt) : Flt :=
      fadd min_new (fdiv (fmul (fsub v min_val) (fsub max_new min_new)) (fsub max_val min_val))
    if Flt.eq r max_val then
      if Flt.eq g min_val then (mid b, min_new, max_new) else (min_new, mid g, max_new)
    else if Flt.eq g max_val then
      if Flt.eq r min_val then (mid b, max_new, min_new) else (min_new, max_new, mid r)
    else
      if Flt.eq r min_val then (max_new, mid g, min_new) else (max_new, min_new, mid r)
  else (b, g, r)

/-- Brightness, contrast, clamp to `[0, 255]` and conversion back to `BYTE`, for one channel. -/
def finishChannel (brightness contrast v : Flt) : Byte :=
  let v := fadd v brightness
  let v := fadd (fmul (fsub v (f32 (255 / 2))) contrast) (f32 (255 / 2))
  (Flt.stdMin (f32 255) (Flt.stdMax (f32 0) v)).toByte

/-- One iteration of the tone loop on the pixel bytes `(b, g, r)`. -/
def tonePixel (brightness contrast saturation exposure gain : Flt) (pb pg pr : Byte) :
    Byte × Byte × Byte :=
  let b := Flt.ofByte pb
  let g := Flt.ofByte pg
  let r := Flt.ofByte pr
  let r := fmul r (fmul exposure gain)
  let g := fmul g (fmul exposure gain)
  let b := fmul b (fmul exposure gain)
  let bgr := if Flt.ne saturation (f32 1) then saturatePixel saturation b g r else (b, g, r)
  (finishChannel brightness contrast bgr.1,
   finishChannel brightness contrast bgr.2.1,
   finishChannel brightness contrast bgr.2.2)

/-- The tone loop body at the pixel that starts at offset `p`. -/
def toneAt (brightness contrast saturation exposure gain : Flt) (data : Buf) (p : Nat) : Buf :=
  let out := tonePixel brightness contrast saturation exposure gain
    (rd data p) (rd data (p + 1)) (rd data (p + 2))
  let data := wr data p out.1
  let data := wr data (p + 1) out.2.1
  wr data (p + 2) out.2.2

/-- The expression `static_cast<BYTE>(0.299f * r + 0.587f * g + 0.114f * b)`. -/
def grayValue (b g r : Byte) : Byte :=
  (fadd (fadd (fmul (f32 (299 / 1000)) (Flt.ofByte r))
    (fmul (f32 (587 / 1000)) (Flt.ofByte g))) (fmul (f32 (114 / 1000)) (Flt.ofByte b))).toByte

/-- The grayscale loop body at the pixel that starts at offset `p`. -/
def grayscaleAt (data : Buf) (p : Nat) : Buf :=
  let b := rd data p
  let g := rd data (p + 1)
  let r := rd data (p + 2)
  let gray := grayValue b g r
  let data := wr data p gray
  let data := wr data (p + 1) gray
  wr data (p + 2) gray

/-- The sepia loop body at the pixel that starts at offset `p`. -/
def sepiaAt (data : Buf) (p : Nat) : Buf :=
  let b := Flt.ofByte (rd data p)
  let g := Flt.ofByte (rd data (p + 1))
  let r := Flt.ofByte (rd data (p + 2))
  let new_r := Flt.stdMin (f32 255) (fadd (fadd (fmul r (f32 (393 / 1000)))
    (fmul g (f32 (769 / 1000)))) (fmul b (f32 (189 / 1000))))
  let new_g := Flt.stdMin (f32 255) (fadd (fadd (fmul r (f32 (349 / 1000)))
    (fmul g (f32 (686 / 1000)))) (fmul b (f32 (168 / 1000))))
  let new_b := Flt.stdMin (f32 255) (fadd (fadd (fmul r (f32 (272 / 1000)))
    (fmul g (f32 (534 / 1000)))) (fmul b (f32 (131 / 1000))))
  let data := wr data p new_b.toByte
  let data := wr data (p + 1) new_g.toByte
  wr data (p + 2) new_r.toByte

/-- The expression `255 - v` on a `BYTE`, stored back into a `BYTE`. -/
def invertByte (v : Byte) : Byte := byteOfNat (255 - v.val)

/-- The invert loop body at the pixel that starts at offset `p`. -/
def invertAt (data : Buf) (p : Nat) : Buf :=
  let data := wr data p (invertByte (rd data p))
  let data := wr data (p + 1) (invertByte (rd data (p + 1)))
  wr data (p + 2) (invertByte (rd data (p + 2)))

/-- Results of the Direct3D calls made by `ApplyImageAdjustmentsHardware`. -/
structure D3DResults where
  CreateTexture2D_src : Bool
  CreateTexture2D_dst : Bool
  CreateTexture2D_staging : Bool
  Map : Bool
deriving DecidableEq

namespace CameraManager

def ApplyImageFilter (s : CameraManager) (data : Buf) (width height stride : Nat) : Bool × Buf :=
  let filter := s.current_adjustments_.filter
  if filter = "grayscale" ∨ filter = "blackandwhite" then
    (true, forEachPixel grayscaleAt width height stride data)
  else if filter = "sepia" then
    (true, forEachPixel sepiaAt width height stride data)
  else if filter = "inverted" ∨ filter = "negative" then
    (true, forEachPixel invertAt width height stride data)
  else (true, data)

def ApplyImageAdjustmentsSoftware (L : LibM) (s : CameraManager) (data : Buf)
    (width height stride : Nat) : Bool × Buf :=
  if width = 0 ∨ height = 0 ∨ stride = 0 then (false, data)
  else
    let data :=
      if Flt.lt (f64 (101 / 100)) s.current_zoom_level_ then
        zoomStage s.current_zoom_level_ data width height stride
      else data
    let adj := s.current_adjustments_
    if Flt.eq adj.brightness (f32 0) ∧ Flt.eq adj.contrast (f32 0) ∧
        Flt.eq adj.saturation (f32 0) ∧ Flt.eq adj.exposure (f32 0) ∧
        Flt.eq adj.gain (f32 1) ∧ adj.filter = "" then (true, data)
    else
      let brightness := fmul adj.brightness (f32 255)
      let contrast := fadd adj.contrast (f32 1)
      let saturation := fadd adj.saturation (f32 1)
      let exposure := L.powf (f32 2) adj.exposure
      let gain := adj.gain
      let data := forEachPixel (toneAt brightness contrast saturation exposure gain)
        width height stride data
      let data :=
        if adj.filter ≠ "" then (ApplyImageFilter s data width height stride).2 else data
      (true, data)

/-- The Direct3D path: the frame is uploaded to a texture, copied texture to texture, and
the same rows are copied back, so the bytes of the frame are what they were. -/
def ApplyImageAdjustmentsHardware (d3d : D3DResults) (s : CameraManager) (data : Buf)
    (_width _height _stride : Nat) : Bool × Buf × CameraManager :=
  if s.d3d_device_ = false ∨ s.d3d_context_ = false ∨ s.wic_factory_ = false then
    (false, data, s)
  else if d3d.CreateTexture2D_src = false then (false, data, s)
  else if d3d.CreateTexture2D_dst = false then (false, data, s)
  else if s.staging_texture_ = false ∧ d3d.CreateTexture2D_staging = false then (false, data, s)
  else
    let s := { s with staging_texture_ := true }
    if d3d.Map = false then (false, data, s)
    else (true, data, s)

def ApplyImageAdjustments (L : LibM) (d3d : D3DResults) (s : CameraManager) (data : Buf)
    (width height stride : Nat) : Bool × Buf × CameraManager :=
  if s.current_adjustments_.use_hardware_acceleration = false ∨
      s.hardware_acceleration_initialized_ = false then
    let r := ApplyImageAdjustmentsSoftware L s data width height stride
    (r.1, r.2, s)
  else ApplyImageAdjustmentsHardware d3d s data width height stride

end CameraManager

/-! ## Frame publication -/

/-- The little-endian store `*(UINT32*)(d + off) = v`. -/
def put32 (d : Buf) (off v : Nat) : Buf :=
  let d := wr d off (byteOfNat v)
  let d := wr d (off + 1) (byteOfNat (v / 256))
  let d := wr d (off + 2) (byteOfNat (v / 65536))
  wr d (off + 3) (byteOfNat (v / 16777216))

/-- The little-endian store `*(UINT16*)(d + off) = v`. -/
def put16 (d : Buf) (off v : Nat) : Buf :=
  let d := wr d off (byteOfNat v)
  wr d (off + 1) (byteOfNat (v / 256))

/-- The call `v.resize(n)` on a byte vector: truncate, or pad with zero bytes. -/
def resize (v : Buf) (n : Nat) : Buf := v.take n ++ List.replicate (n - v.length) 0

/-- The function `FrameToBMP`; `bmpData` is the vector passed by reference, the second
component of the result its value on return. -/
def FrameToBMP (data : Buf) (width height stride : Nat) (bmpData : Buf) : Bool × Buf :=
  if width = 0 ∨ height = 0 then (false, bmpData)
  else
    let header_size := 54
    let row_size := u32 (u32 (width * 3) + 3) / 4 * 4
    let data_size := u32 (row_size * height)
    let file_size := u32 (header_size + data_size)
    let bmp := resize bmpData file_size
    let bmp := wr bmp 0 66
    let bmp := wr bmp 1 77
    let bmp := put32 bmp 2 file_size
    let bmp := put32 bmp 6 0
    let bmp := put32 bmp 10 header_size
    let bmp := put32 bmp 14 40
    let bmp := put32 bmp 18 width
    let bmp := put32 bmp 22 (u32sub 0 height)
    let bmp := put16 bmp 26 1
    let bmp := put16 bmp 28 24
    let bmp := put32 bmp 30 0
    let bmp := put32 bmp 34 data_size
    let bmp := put32 bmp 38 0
    let bmp := put32 bmp 42 0
    let bmp := put32 bmp 46 0
    let bmp := put32 bmp 50 0
    let bmp := (List.range height).foldl
      (fun out y => (List.range width).foldl
        (fun out x =>
          let src := u32 (y * stride) + 4 * x
          let dst := header_size + u32 (y * row_size) + 3 * x
          let out := wr out dst (rd data src)
          let out := wr out (dst + 1) (rd data (src + 1))
          wr out (dst + 2) (rd data (src + 2)))
        out) bmp
    (true, bmp)

/-- What the capture worker gets from Media Foundation for one sample handed to
`ProcessFrame`: which calls succeed, the locked bytes and the negotiated frame size. -/
structure SampleIO where
  sample : Bool
  GetBufferByIndex : Bool
  Lock : Bool
  data : Buf
  GetCurrentMediaType : Bool
  MFGetAttributeSize : Bool
  width : Nat
  height : Nat
  d3d : D3DResults
deriving DecidableEq

namespace CameraManager

def ProcessFrame (L : LibM) (io : SampleIO) (s : CameraManager) : Bool × CameraManager :=
  if io.sample = false then (false, s)
  else if io.GetBufferByIndex = false then (false, s)
  else if io.Lock = false then (false, s)
  else if io.GetCurrentMediaType = false then (false, s)
  else if io.MFGetAttributeSize = false then (false, s)
  else
    let width := io.width
    let height := io.height
    let stride := u32 (width * 4)
    let adjusted := ApplyImageAdjustments L io.d3d s io.data width height stride
    let data := adjusted.2.1
    let s := adjusted.2.2
    let bmp := FrameToBMP data width height stride []
    if bmp.1 = false then (false, s)
    else
      (true, { s with current_frame_ := bmp.2, new_frame_available_ := true })

end CameraManager

/-! ## Concrete inputs used in the evaluations below -/

/-- A buffer given by its byte values. -/
def bytes (l : List Nat) : Buf := l.map byteOfNat

/-- Forty processing-time samples in milliseconds: five fast ones, then thirty-five slow ones. -/
def slowRun : List Flt := List.replicate 5 (f64 1) ++ List.replicate 35 (f64 100)

/-- A manager right after construction on a machine with one camera. -/
def freshManager : CameraManager :=
  { mf_initialized_ := true
    devices_ := [⟨"cam0", "USB Camera", true, "external"⟩] }

/-- The manager `freshManager` with a capture session running on its camera. -/
def activeManager : CameraManager :=
  { freshManager with
    source_reader_ := true, capture_thread_ := true, thread_running_ := true,
    session_active_ := true, current_camera_id_ := "cam0" }

/-- A Media Foundation on which every call succeeds. -/
def mfAllOk : MFResults := ⟨true, true, true, true, true, true, true, true⟩

/-- A sample holding one 1x1 frame whose pixel is (B, G, R, A) = (30, 20, 10, 255). -/
def onePixelSample : SampleIO :=
  { sample := true, GetBufferByIndex := true, Lock := true, data := bytes [30, 20, 10, 255],
    GetCurrentMediaType := true, MFGetAttributeSize := true, width := 1, height := 1,
    d3d := ⟨true, true, true, true⟩ }

/-! ## Predicates used in the statements -/

/-- The numeric adjustments are the neutral ones: no brightness, contrast, saturation or
exposure change and unit gain. -/
def ImageAdjustments.NeutralTone (a : ImageAdjustments) : Prop :=
  a.brightness = Flt.fin 0 ∧ a.contrast = Flt.fin 0 ∧ a.saturation = Flt.fin 0 ∧
    a.exposure = Flt.fin 0 ∧ a.gain = Flt.fin 1

/-- The clamp of the zoom specification, `min(max(z, lo), hi)`, with the `min` and `max`
of the C++ library. -/
def clampSpec (z lo hi : Flt) : Flt := Flt.stdMin (Flt.stdMax z lo) hi

/-- The session is idle: not active, no source reader, no capture thread. -/
def CameraManager.Idle (s : CameraManager) : Prop :=
  s.session_active_ = false ∧ s.source_reader_ = false ∧ s.capture_thread_ = false ∧
    s.thread_running_ = false

/-- Consistency of the session fields between two public calls: an inactive session
holds no reader and has no capture thread. -/
def CameraManager.SessionWF (s : CameraManager) : Prop :=
  s.session_active_ = false →
    s.source_reader_ = false ∧ s.capture_thread_ = false ∧ s.thread_running_ = false

/-- A frame of `width x height` pixels of 4 bytes, rows `stride` bytes apart, stored in
`data`, whose size fits the 32-bit offset arithmetic. -/
def FrameLayout (data : Buf) (width height stride : Nat) : Prop :=
  0 < width ∧ 0 < height ∧ 4 * width ≤ stride ∧ stride * height ≤ data.length ∧
    stride * height < 4294967296

instance (data : Buf) (width height stride : Nat) :
    Decidable (FrameLayout data width height stride) := by
  unfold FrameLayout
  infer_instance

/-- The luma of the specification, `0.299 R + 0.587 G + 0.114 B`, in exact arithmetic and
truncated to an integer. -/
def lumaExact (b g r : Byte) : Nat :=
  (⌊(299 / 1000 : ℚ) * r.val + 587 / 1000 * g.val + 114 / 1000 * b.val⌋).toNat

/-- A pixel body that reads the three colour bytes at `p` and stores `f` of them. -/
def applyAt (f : Byte → Byte → Byte → Byte × Byte × Byte) (d : Buf) (p : Nat) : Buf :=
  let out := f (rd d p) (rd d (p + 1)) (rd d (p + 2))
  wr (wr (wr d p out.1) (p + 1) out.2.1) (p + 2) out.2.2

/-- Component `c` (0, 1, or anything else for the last) of a triple of bytes. -/
def chan (c : Nat) (t : Byte × Byte × Byte) : Byte :=
  if c = 0 then t.1 else if c = 1 then t.2.1 else t.2.2

/-- The buffer transformer `F` inverts exactly the bytes selected by `k` and leaves the
others as they are. -/
def Flips (F : Buf → Buf) (k : Nat → Bool) : Prop :=
  ∀ (d : Buf) (i : Nat), (F d)[i]? = if k i then (d[i]?).map invertByte else d[i]?

/-- The manager `freshManager` with the given filter selected. -/
def withFilter (filter : String) : CameraManager :=
  { freshManager with current_adjustments_ := { filter := filter } }

/-! ## Inputs and predicates for the controller, clamp and filter statements -/

/-- A processing-time sample equal to twice the target of a fresh controller, the target
being 70% of the 33 ms interval, computed in `double` as the controller computes it. -/
def doubleTargetSample : Flt :=
  Flt.mul binary64 (f64 2) (Flt.mul binary64 (f64 33) (f64 (7 / 10)))

/-- The controller fields after each sample of a sequence: pacing interval, slow counter,
window length. -/
def controllerTrace : CameraManager → List Flt → List (Int × Int × Nat)
  | _, [] => []
  | s, t :: rest =>
    let s := CameraManager.TrackProcessingTime s t
    (s.frame_interval_, s.consecutive_slow_frames_, s.processing_times_.length)
      :: controllerTrace s rest

/-- Every numeric field lies in its documented range. -/
def ImageAdjustments.InRange (a : ImageAdjustments) : Prop :=
  a.brightness.inRange (-1) 1 ∧ a.contrast.inRange (-1) 1 ∧ a.saturation.inRange (-1) 1 ∧
    a.sharpness.inRange 0 1 ∧ a.exposure.inRange (-1) 1 ∧ a.gain.inRange 0 2

/-- The filter name is not empty and is none of the five names `ApplyImageFilter` knows. -/
def UnknownFilter (filter : String) : Prop :=
  filter ≠ "" ∧ filter ≠ "grayscale" ∧ filter ≠ "blackandwhite" ∧ filter ≠ "sepia" ∧
    filter ≠ "inverted" ∧ filter ≠ "negative"

instance (filter : String) : Decidable (UnknownFilter filter) := by
  unfold UnknownFilter
  infer_instance

/-- The three bytes the sepia loop body stores for the pixel bytes `(b, g, r)`. -/
def sepiaPixel (pb pg pr : Byte) : Byte × Byte × Byte :=
  let b := Flt.ofByte pb
  let g := Flt.ofByte pg
  let r := Flt.ofByte pr
  let new_r := Flt.stdMin (f32 255) (fadd (fadd (fmul r (f32 (393 / 1000)))
    (fmul g (f32 (769 / 1000)))) (fmul b (f32 (189 / 1000))))
  let new_g := Flt.stdMin (f32 255) (fadd (fadd (fmul r (f32 (349 / 1000)))
    (fmul g (f32 (686 / 1000)))) (fmul b (f32 (168 / 1000))))
  let new_b := Flt.stdMin (f32 255) (fadd (fadd (fmul r (f32 (272 / 1000)))
    (fmul g (f32 (534 / 1000)))) (fmul b (f32 (131 / 1000))))
  (new_b.toByte, new_g.toByte, new_r.toByte)

/-! ## Retrieval operations -/

/-- A blocking operation of a retrieval call, with its deadline in milliseconds where the
source gives one. -/
inductive Blocking where
  /-- The call `lock.try_lock_for(ms)` on the buffer lock. -/
  | try_lock_for (ms : Nat) : Blocking
  /-- A plain acquisition of the buffer lock (`std::lock_guard`). -/
  | lock_buffer_mutex : Blocking
  /-- A plain acquisition of the notification lock (`std::unique_lock`). -/
  | lock_frame_mutex : Blocking
  /-- The call `wait_for(lock, ms, predicate)` on a condition variable. -/
  | wait_for (ms : Nat) : Blocking
  /-- The call `std::this_thread::sleep_for(ms)`. -/
  | sleep_for (ms : Nat) : Blocking
  /-- The call `capture_thread_.join()`. -/
  | join : Blocking
deriving DecidableEq

/-- What a retrieval call meets while it runs: whether the timed lock attempt succeeds, the
steady clock (ms) at the staleness test, the samples the capture worker processes while the
call waits for a notification, the measured duration of the call (ms, a `double`), and the
Direct3D results for a call that adjusts a frame itself. -/
structure CaptureIO where
  try_lock_for : Bool
  now : Nat
  arrivals : List SampleIO
  elapsed : Flt
  d3d : D3DResults
deriving DecidableEq

/-- The outcome of a retrieval call: the bytes returned (empty also when the call ends by an
exception, which `threw` records), the manager state afterwards and the blocking operations
performed, in order. -/
structure Retrieval where
  frame : Buf
  threw : Bool := false
  state : CameraManager
  waits : List Blocking
deriving DecidableEq

namespace CameraManager

/-- The capture worker processing the given samples one after the other. -/
def workerRuns (L : LibM) (arrivals : List SampleIO) (s : CameraManager) : CameraManager :=
  arrivals.foldl (fun s sample => (ProcessFrame L sample s).2) s

/-- The deadline of the timed attempt on the buffer lock, `force_capture ? 50 : 5`. -/
def lockDeadline (force_capture : Bool) : Nat := if force_capture then 50 else 5

/-- The deadline of the wait for a notification, `force_capture ? 200 : 50`. -/
def waitDeadline (force_capture : Bool) : Nat := if force_capture then 200 else 50

/-- The test made under the buffer lock: the latest buffered frame, when the ring is not
empty and `age < 100 || !force_capture` holds for it. -/
def freshFrame (io : CaptureIO) (s : CameraManager) (force_capture : Bool) :
    Option FrameData :=
  match s.frame_ring_buffer_.getLast? with
  | none => none
  | some latest_frame =>
    let age : Int := (io.now : Int) - (latest_frame.timestamp : Int)
    if age < 100 ∨ force_capture = false then some latest_frame else none

def CaptureFrame (L : LibM) (io : CaptureIO) (s : CameraManager) (force_capture : Bool) :
    Retrieval :=
  if s.session_active_ = false ∨ s.source_reader_ = false then
    { frame := [], state := s, waits := [] }
  else if io.try_lock_for = false then
    { frame := [], state := s, waits := [Blocking.try_lock_for (lockDeadline force_capture)] }
  else
    match freshFrame io s force_capture with
    | some latest_frame =>
      { frame := latest_frame.data, state := s,
        waits := [Blocking.try_lock_for (lockDeadline force_capture)] }
    | none =>
      let waits := [Blocking.try_lock_for (lockDeadline force_capture),
        Blocking.lock_frame_mutex, Blocking.wait_for (waitDeadline force_capture),
        Blocking.lock_buffer_mutex]
      let s := workerRuns L io.arrivals { s with new_frame_available_ := false }
      if s.new_frame_available_ = false then
        { frame := GetLastFrameFromBuffer s, state := s, waits := waits }
      else
        match s.frame_ring_buffer_.getLast? with
        | none => { frame := [], state := s, waits := waits }
        | some latest_frame =>
          { frame := latest_frame.data, state := TrackProcessingTime s io.elapsed,
            waits := waits }

def CaptureFrameWithAdjustments (L : LibM) (io : CaptureIO) (s : CameraManager)
    (adjustments : ImageAdjustments) (force_capture : Bool) : Retrieval :=
  if s.session_active_ = false ∨ s.source_reader_ = false then
    { frame := [], state := s, waits := [] }
  else
    let original_adjustments := s.current_adjustments_
    let s := { s with current_adjustments_ := adjustments }
    if io.try_lock_for = false then
      { frame := [], state := { s with current_adjustments_ := original_adjustments },
        waits := [Blocking.try_lock_for (lockDeadline force_capture)] }
    else
      match freshFrame io s force_capture with
      | some latest_frame =>
        -- the buffer lock is released here, before the size test
        if u32 (latest_frame.width * latest_frame.height * 4) ≤ latest_frame.data.length then
          let stride := u32 (latest_frame.width * 4)
          let adjusted := ApplyImageAdjustments L io.d3d s latest_frame.data
            latest_frame.width latest_frame.height stride
          let s := { adjusted.2.2 with current_adjustments_ := original_adjustments }
          { frame := adjusted.2.1, state := TrackProcessingTime s io.elapsed,
            waits := [Blocking.try_lock_for (lockDeadline force_capture)] }
        else
          -- the second `lock.unlock()` finds the lock not owned and throws
          -- `std::system_error`; nothing after it runs
          { frame := [], threw := true, state := s,
            waits := [Blocking.try_lock_for (lockDeadline force_capture)] }
      | none =>
        let waits := [Blocking.try_lock_for (lockDeadline force_capture),
          Blocking.lock_frame_mutex, Blocking.wait_for (waitDeadline force_capture),
          Blocking.lock_buffer_mutex]
        let s := workerRuns L io.arrivals { s with new_frame_available_ := false }
        if s.new_frame_available_ = false then
          let emergency_frame := GetLastFrameFromBuffer s
          { frame := emergency_frame,
            state := { s with current_adjustments_ := original_adjustments }, waits := waits }
        else
          match s.frame_ring_buffer_.getLast? with
          | none =>
            { frame := [], state := { s with current_adjustments_ := original_adjustments },
              waits := waits }
          | some latest_frame =>
            let s := { s with current_adjustments_ := original_adjustments }
            { frame := latest_frame.data, state := TrackProcessingTime s io.elapsed,
              waits := waits }

/-- The restart-based capture; `mf` answers the Media Foundation calls of the restart and
`arrivals` are the samples the new worker processes before the wait ends. -/
def CaptureFrameAlternative (L : LibM) (mf : MFResults) (arrivals : List SampleIO)
    (s : CameraManager) (_high_quality : Bool) : Retrieval :=
  if s.session_active_ = false then { frame := [], state := s, waits := [] }
  else
    let current_id := s.current_camera_id_
    let waits := (if s.capture_thread_ then [Blocking.join] else []) ++ [Blocking.sleep_for 500]
    let s := (StopCameraSession s).2
    let started := StartCameraSession mf s current_id
    let s := started.2
    if started.1 = false then { frame := [], state := s, waits := waits }
    else
      let waits := waits ++ [Blocking.sleep_for 500, Blocking.lock_frame_mutex,
        Blocking.wait_for 2000]
      let s := workerRuns L arrivals s
      if s.new_frame_available_ = false then { frame := [], state := s, waits := waits }
      else
        { frame := s.current_frame_, state := { s with new_frame_available_ := false },
          waits := waits }

def StartCameraSessionWithConfig (mf : MFResults) (s : CameraManager) (camera_id : String)
    (resolution : CameraResolution) (adjustments : ImageAdjustments) : Bool × CameraManager :=
  let s := (StopCameraSession s).2
  let s := { s with current_resolution_ := resolution, current_adjustments_ := adjustments }
  StartCameraSession mf s camera_id

def SetImageAdjustments (s : CameraManager) (adjustments_map : EncodableMap) :
    Bool × CameraManager :=
  (true, { s with current_adjustments_ := ImageAdjustments.FromEncodableMap adjustments_map })

/-! ## Resolution -/

/-- The function `FindClosestResolution`; the second component is the pair
`(width, height)` passed by reference, on return. -/
def FindClosestResolution (s : CameraManager) (width height : Nat) : Bool × Nat × Nat :=
  if s.supported_resolutions_ = [] then (false, width, height)
  else
    let target_pixels := u32 (width * height)
    let best : Nat × Nat :=
      (List.range s.supported_resolutions_.length).foldl
        (fun (acc : Nat × Nat) i =>
          let res := s.supported_resolutions_.getD i {}
          let res_pixels := u32 (res.width * res.height)
          let diff := if target_pixels < res_pixels then res_pixels - target_pixels
                      else target_pixels - res_pixels
          if diff < acc.2 then (i, diff) else acc)
        (0, 4294967295)
    let closest := s.supported_resolutions_.getD best.1 {}
    (true, closest.width, closest.height)

end CameraManager

/-- Results of the Media Foundation calls made by `SetResolution`. -/
structure MFFormatResults where
  MFCreateMediaType : Bool
  SetGUID_major : Bool
  SetGUID_subtype : Bool
  MFSetAttributeSize : Bool
  MFSetAttributeRatio : Bool
  SetCurrentMediaType : Bool
deriving DecidableEq

namespace CameraManager

def SetResolution (mf : MFFormatResults) (s : CameraManager) (width height : Nat) :
    Bool × CameraManager :=
  if s.session_active_ = false ∨ s.source_reader_ = false then
    (false, { s with current_resolution_ := ⟨width, height⟩ })
  else
    let resolution_supported :=
      s.supported_resolutions_.any (fun res => decide (res.width = width ∧ res.height = height))
    let found := if resolution_supported then (true, width, height)
                 else FindClosestResolution s width height
    if found.1 = false then (false, s)
    else
      let width := found.2.1
      let height := found.2.2
      if mf.MFCreateMediaType = false then (false, s)
      else
        let hr := mf.SetGUID_major
        let hr := if hr then mf.SetGUID_subtype else hr
        let hr := if hr then mf.MFSetAttributeSize else hr
        let hr := if hr then mf.MFSetAttributeRatio else hr
        let hr := if hr then mf.SetCurrentMediaType else hr
        if hr then (true, { s with current_resolution_ := ⟨width, height⟩ })
        else (false, s)

/-- The function `EnumerateSupportedResolutions`; `native` lists the native media types of
the reader in index order, `none` for one whose frame size cannot be read.  The final
`std::sort` orders by pixel count; the order it gives to entries of equal pixel count is
not fixed by the library and is here the one of an insertion sort. -/
def EnumerateSupportedResolutions (native : List (Option CameraResolution))
    (s : CameraManager) : Bool × CameraManager :=
  if s.session_active_ = false ∨ s.source_reader_ = false then (false, s)
  else
    let common : List CameraResolution := [⟨640, 480⟩, ⟨1280, 720⟩, ⟨1920, 1080⟩]
    let all := native.foldl
      (fun (acc : List CameraResolution) entry =>
        match entry with
        | some res => if res ∈ acc then acc else acc ++ [res]
        | none => acc)
      common
    let sorted := all.insertionSort
      (fun a b => u32 (a.width * a.height) ≤ u32 (b.width * b.height))
    (!sorted.isEmpty, { s with supported_resolutions_ := sorted })

def GetAvailableResolutions (native : List (Option CameraResolution)) (s : CameraManager) :
    List CameraResolution × CameraManager :=
  if s.session_active_ = false then ([⟨640, 480⟩, ⟨1280, 720⟩, ⟨1920, 1080⟩], s)
  else
    let s := if s.supported_resolutions_ = [] then (EnumerateSupportedResolutions native s).2
             else s
    (s.supported_resolutions_, s)

/-! ## White balance -/

def SetWhiteBalance (s : CameraManager) (mode : String) : Bool × CameraManager :=
  if s.session_active_ = false ∨ s.source_reader_ = false then (false, s)
  else
    let s := { s with current_white_balance_ := mode }
    if mode = "auto" then (true, s)
    else
      let temperature : Option Flt :=
        if mode = "daylight" ∨ mode = "sunny" then some (f32 5500)
        else if mode = "cloudy" then some (f32 6500)
        else if mode = "fluorescent" then some (f32 4000)
        else if mode = "incandescent" ∨ mode = "tungsten" then some (f32 2700)
        else none
      match temperature with
      | none => (true, { s with current_white_balance_ := "auto" })
      | some temperature =>
        if Flt.le temperature (f32 5000) then
          (true, { s with
            white_balance_red_gain_ := f32 1
            white_balance_green_gain_ := fadd (f32 (7 / 10)) (fdiv temperature (f32 12000))
            white_balance_blue_gain_ := fadd (f32 (1 / 2)) (fdiv temperature (f32 10000)) })
        else
          (true, { s with
            white_balance_red_gain_ := fdiv (f32 10000) temperature
            white_balance_green_gain_ := f32 (9 / 10)
            white_balance_blue_gain_ := f32 1 })

end CameraManager

/-! ## Construction and reachable states -/

/-- The manager as the constructor leaves it: Media Foundation started or not, the devices
found by `EnumerateDevices` (none when Media Foundation did not start), and the outcome of
`InitializeHardwareAcceleration` (device creation, then the imaging factory). -/
def CameraManager.construct (mf_ok : Bool) (devices : List CameraDevice)
    (d3d_ok wic_ok : Bool) : CameraManager :=
  { mf_initialized_ := mf_ok
    devices_ := if mf_ok then devices else []
    d3d_device_ := d3d_ok
    d3d_context_ := d3d_ok
    wic_factory_ := d3d_ok && wic_ok
    hardware_acceleration_initialized_ := d3d_ok && wic_ok }

/-- The manager states reachable from construction by the public operations and by the
capture worker's `ProcessFrame`, whatever the platform calls answer. -/
inductive Reachable (L : LibM) : CameraManager → Prop
  | construct (mf_ok : Bool) (devices : List CameraDevice) (d3d_ok wic_ok : Bool) :
      Reachable L (CameraManager.construct mf_ok devices d3d_ok wic_ok)
  | StartCameraSession {s : CameraManager} (mf : MFResults) (camera_id : String) :
      Reachable L s → Reachable L (CameraManager.StartCameraSession mf s camera_id).2
  | StartCameraSessionWithConfig {s : CameraManager} (mf : MFResults) (camera_id : String)
      (resolution : CameraResolution) (adjustments : ImageAdjustments) :
      Reachable L s →
      Reachable L
        (CameraManager.StartCameraSessionWithConfig mf s camera_id resolution adjustments).2
  | StopCameraSession {s : CameraManager} :
      Reachable L s → Reachable L (CameraManager.StopCameraSession s).2
  | CaptureFrame {s : CameraManager} (io : CaptureIO) (force_capture : Bool) :
      Reachable L s → Reachable L (CameraManager.CaptureFrame L io s force_capture).state
  | CaptureFrameAlternative {s : CameraManager} (mf : MFResults) (arrivals : List SampleIO)
      (high_quality : Bool) :
      Reachable L s →
      Reachable L (CameraManager.CaptureFrameAlternative L mf arrivals s high_quality).state
  | CaptureFrameWithAdjustments {s : CameraManager} (io : CaptureIO)
      (adjustments : ImageAdjustments) (force_capture : Bool) :
      Reachable L s →
      Reachable L
        (CameraManager.CaptureFrameWithAdjustments L io s adjustments force_capture).state
  | SetResolution {s : CameraManager} (mf : MFFormatResults) (width height : Nat) :
      Reachable L s → Reachable L (CameraManager.SetResolution mf s width height).2
  | GetAvailableResolutions {s : CameraManager} (native : List (Option CameraResolution)) :
      Reachable L s → Reachable L (CameraManager.GetAvailableResolutions native s).2
  | SetImageAdjustments {s : CameraManager} (adjustments_map : EncodableMap) :
      Reachable L s → Reachable L (CameraManager.SetImageAdjustments s adjustments_map).2
  | SetZoomLevel {s : CameraManager} (zoom_level : Flt) :
      Reachable L s → Reachable L (CameraManager.SetZoomLevel s zoom_level).2
  | SetWhiteBalance {s : CameraManager} (mode : String) :
      Reachable L s → Reachable L (CameraManager.SetWhiteBalance s mode).2
  | ProcessFrame {s : CameraManager} (io : SampleIO) :
      Reachable L s → Reachable L (CameraManager.ProcessFrame L io s).2

/-- A manager together with the number of capture threads that have been started and not
yet joined. -/
structure Session where
  mgr : CameraManager
  live_threads : Nat

/-- The threads ended by `StopCameraSession` on `s`: the one joined when the session is
active and `capture_thread_` is joinable. -/
def joinedByStop (s : CameraManager) : Nat :=
  if s.session_active_ = true ∧ s.capture_thread_ = true then 1 else 0

/-- The call `StopCameraSession` with the thread count kept. -/
def Session.stop (σ : Session) : Session :=
  { mgr := (CameraManager.StopCameraSession σ.mgr).2
    live_threads := σ.live_threads - joinedByStop σ.mgr }

/-- The call `StartCameraSession` with the thread count kept: the stop it performs on an
active session joins, and the one statement that constructs a `std::thread` is reached
exactly when the call returns true. -/
def Session.start (mf : MFResults) (camera_id : String) (σ : Session) : Session :=
  { mgr := (CameraManager.StartCameraSession mf σ.mgr camera_id).2
    live_threads := σ.live_threads - joinedByStop σ.mgr
      + (if (CameraManager.StartCameraSession mf σ.mgr camera_id).1 then 1 else 0) }

/-- The sessions reachable from a constructed manager (no thread yet) by `StartCameraSession`
and `StopCameraSession` calls made one after the other. -/
inductive Session.Reachable : Session → Prop
  | construct (mf_ok : Bool) (devices : List CameraDevice) (d3d_ok wic_ok : Bool) :
      Session.Reachable ⟨CameraManager.construct mf_ok devices d3d_ok wic_ok, 0⟩
  | start {σ : Session} (mf : MFResults) (camera_id : String) :
      Session.Reachable σ → Session.Reachable (σ.start mf camera_id)
  | stop {σ : Session} : Session.Reachable σ → Session.Reachable σ.stop

/-- An active manager whose ring holds one 1x1 frame with no pixel data. -/
def undersizedRingManager : CameraManager :=
  { activeManager with frame_ring_buffer_ := [{ data := [], width := 1, height := 1 }] }

/-- A retrieval environment: the lock is obtained, no sample arrives during a wait. -/
def quietIO : CaptureIO :=
  { try_lock_for := true, now := 0, arrivals := [], elapsed := f64 1,
    d3d := ⟨true, true, true, true⟩ }

/-- Adjustments a caller may pass: brighter by one half. -/
def brighter : ImageAdjustments := { brightness := Flt.fin (1 / 2) }

/-! ## Statement vocabulary for the zoom stage -/

/-- The store of the four bytes of a pixel at offset `p`. -/
def put4 (d : Buf) (p : Nat) (t : Byte × Byte × Byte × Byte) : Buf :=
  wr (wr (wr (wr d p t.1) (p + 1) t.2.1) (p + 2) t.2.2.1) (p + 3) t.2.2.2

/-- The store of a pixel the zoom loop may skip: nothing is written for `none`. -/
def putOpt (d : Buf) (p : Nat) : Option (Byte × Byte × Byte × Byte) → Buf
  | none => d
  | some t => put4 d p t

/-- The shape of the zoom loop: rows top to bottom, pixels left to right, each destination
pixel receiving what `W y x` prescribes. -/
def storeLoop (W : Nat → Nat → Option (Byte × Byte × Byte × Byte)) (width height stride : Nat)
    (d : Buf) : Buf :=
  (List.range height).foldl
    (fun d y => (List.range width).foldl
      (fun d x => putOpt d (u32 (y * stride) + u32 (x * 4)) (W y x)) d) d

/-- Component `c` (0, 1, 2, or anything else for the last) of four bytes. -/
def chan4 (c : Nat) (t : Byte × Byte × Byte × Byte) : Byte :=
  if c = 0 then t.1 else if c = 1 then t.2.1 else if c = 2 then t.2.2.1 else t.2.2.2

/-- The body of the channel loop of the zoom stage (`for c < 3`): the value stored for
channel `c` from the four neighbours at the given offsets and the two weights. -/
def zoomChannel (temp_buffer : Buf) (idx_tl idx_tr idx_bl idx_br : Nat)
    (weight_x weight_y : Flt) (c : Nat) : Byte :=
  let tl := Flt.ofByte (rd temp_buffer (u32 (idx_tl + c)))
  let tr := Flt.ofByte (rd temp_buffer (u32 (idx_tr + c)))
  let bl := Flt.ofByte (rd temp_buffer (u32 (idx_bl + c)))
  let br := Flt.ofByte (rd temp_buffer (u32 (idx_br + c)))
  let top := fadd (fmul tl (fsub (f32 1) weight_x)) (fmul tr weight_x)
  let bottom := fadd (fmul bl (fsub (f32 1) weight_x)) (fmul br weight_x)
  let result := fadd (fmul top (fsub (f32 1) weight_y)) (fmul bottom weight_y)
  result.toByte

/-- What the zoom loop stores for destination pixel `(x, y)`: `none` when the bounds guard
skips the pixel, else the three interpolated colour bytes and the alpha byte of the
top-left sample. -/
def zoomSample (temp_buffer : Buf)
    (width height stride crop_x crop_y crop_width crop_height : Nat) (y x : Nat) :
    Option (Byte × Byte × Byte × Byte) :=
  let src_x := fadd (f32 crop_x) (fmul (fdiv (f32 x) (f32 width)) (f32 crop_width))
  let src_y := fadd (f32 crop_y) (fmul (fdiv (f32 y) (f32 height)) (f32 crop_height))
  let src_x_int := u32 src_x.truncNat
  let src_y_int := u32 src_y.truncNat
  if width ≤ u32 (src_x_int + 1) ∨ height ≤ u32 (src_y_int + 1) then none
  else
    let weight_x := fsub src_x (f32 src_x_int)
    let weight_y := fsub src_y (f32 src_y_int)
    let idx_tl := u32 (src_y_int * stride + src_x_int * 4)
    let idx_tr := u32 (src_y_int * stride + (src_x_int + 1) * 4)
    let idx_bl := u32 ((src_y_int + 1) * stride + src_x_int * 4)
    let idx_br := u32 ((src_y_int + 1) * stride + (src_x_int + 1) * 4)
    let channel := zoomChannel temp_buffer idx_tl idx_tr idx_bl idx_br weight_x weight_y
    some (channel 0, channel 1, channel 2, rd temp_buffer (u32 (idx_tl + 3)))

/-- The crop rectangle computed at the head of the zoom block, after its safety limits:
`(crop_x, crop_y, crop_width, crop_height)`. -/
def cropRect (current_zoom_level_ : Flt) (width height : Nat) : Nat × Nat × Nat × Nat :=
  let zoom := Flt.cast binary32 current_zoom_level_
  let crop_width := u32 (fdiv (f32 width) zoom).truncNat
  let crop_height := u32 (fdiv (f32 height) zoom).truncNat
  let crop_x := u32sub width crop_width / 2
  let crop_y := u32sub height crop_height / 2
  let crop_width := if crop_width < 1 then 1 else crop_width
  let crop_height := if crop_height < 1 then 1 else crop_height
  let crop_x := if width < u32 (crop_x + crop_width) then u32sub width crop_width else crop_x
  let crop_y := if height < u32 (crop_y + crop_height) then u32sub height crop_height else crop_y
  (crop_x, crop_y, crop_width, crop_height)

/-- The bilinear blend of the specification, in exact arithmetic and truncated: the four
samples weighted by the horizontal weight `wx` and the vertical weight `wy`. -/
def bilinearExact (tl tr bl br : Byte) (wx wy : ℚ) : Nat :=
  (⌊((tl.val : ℚ) * (1 - wx) + (tr.val : ℚ) * wx) * (1 - wy)
    + ((bl.val : ℚ) * (1 - wx) + (br.val : ℚ) * wx) * wy⌋).toNat

/-- Offset of the first byte of pixel `(x, y)` in a frame of the given stride. -/
def pixelAt (stride x y : Nat) : Nat := y * stride + 4 * x

/-- What the specification says of destination pixel `(x, y)` of a 640x480 frame (stride
2560) at zoom level 2: its colour bytes are the truncated bilinear blend of the four source
pixels around `(160 + x/2, 120 + y/2)`, with horizontal weight `(x mod 2)/2` and vertical
weight `(y mod 2)/2`; its alpha byte is that of the top-left one of them; and when `x` and
`y` are even all four bytes are those of source pixel `(160 + x/2, 120 + y/2)`. -/
def ZoomTwoPixel (data out : Buf) (x y : Nat) : Prop :=
  let sx := 160 + x / 2
  let sy := 120 + y / 2
  (∀ c, c < 3 → (rd out (pixelAt 2560 x y + c)).val
      = bilinearExact (rd data (pixelAt 2560 sx sy + c)) (rd data (pixelAt 2560 (sx + 1) sy + c))
          (rd data (pixelAt 2560 sx (sy + 1) + c)) (rd data (pixelAt 2560 (sx + 1) (sy + 1) + c))
          (((x % 2 : ℕ) : ℚ) / 2) (((y % 2 : ℕ) : ℚ) / 2)) ∧
    rd out (pixelAt 2560 x y + 3) = rd data (pixelAt 2560 sx sy + 3) ∧
    (x % 2 = 0 → y % 2 = 0 → ∀ c, c < 4 →
      rd out (pixelAt 2560 x y + c) = rd data (pixelAt 2560 sx sy + c))

/-- A manager at the given zoom level, everything else as after construction. -/
def zoomedManager (zoom : Flt) : CameraManager :=
  { freshManager with current_zoom_level_ := zoom }

/-! ## White balance and the pixel pipeline -/

/-- A manager that differs from `s` in the white-balance mode and the three white-balance
gains only. -/
def withWhiteBalance (s : CameraManager) (mode : String) (red green blue : Flt) :
    CameraManager :=
  { s with
    current_white_balance_ := mode
    white_balance_red_gain_ := red
    white_balance_green_gain_ := green
    white_balance_blue_gain_ := blue }
/-! ## An instrumented view of the quality controller -/

/-- The three zones in which the mean of the window can fall at an evaluation. -/
inductive Zone where
  | slow : Zone
  | fast : Zone
  | acceptable : Zone
deriving DecidableEq

namespace CameraManager

/-- The window after the `push_back` and the trimming to 30 samples with which
`TrackProcessingTime` begins. -/
def windowAfterPush (s : CameraManager) (processing_time : Flt) : List Flt :=
  let times := s.processing_times_ ++ [processing_time]
  if 30 < times.length then times.tail else times

/-- The branch taken by the call `TrackProcessingTime(processing_time)`: `none` when the
call does not evaluate (fewer than 5 samples in the window, or adaptation switched off),
else the zone in which the tests of the function place the mean. -/
def evaluation (s : CameraManager) (processing_time : Flt) : Option Zone :=
  let times := windowAfterPush s processing_time
  if 5 ≤ times.length ∧ s.adaptive_quality_ = true then
    let avg_time := times.foldl (Flt.add binary64) (f64 0)
    let avg_time := Flt.div binary64 avg_time (f64 times.length)
    let target_time := Flt.mul binary64 (f64 s.frame_interval_) (f64 (7 / 10))
    if Flt.lt target_time avg_time then some Zone.slow
    else if Flt.lt avg_time (Flt.mul binary64 target_time (f64 (5 / 10))) then some Zone.fast
    else some Zone.acceptable
  else none

/-- Whether the call `TrackProcessingTime(processing_time)` reaches the call of
`AdaptQualityDown`: a slow evaluation that brings the counter to 3 or more. -/
def invokesAdaptQualityDown (s : CameraManager) (processing_time : Flt) : Bool :=
  decide (evaluation s processing_time = some Zone.slow ∧ 3 ≤ s.consecutive_slow_frames_ + 1)

end CameraManager

/-- The evaluations made while a sequence of samples is fed to the controller, in order:
the zone of each evaluation and whether it invoked `AdaptQualityDown` (calls that do not
evaluate are left out). -/
def evaluationLog : CameraManager → List Flt → List (Zone × Bool)
  | _, [] => []
  | s, t :: rest =>
    match CameraManager.evaluation s t with
    | none => evaluationLog (CameraManager.TrackProcessingTime s t) rest
    | some z =>
      (z, CameraManager.invokesAdaptQualityDown s t)
        :: evaluationLog (CameraManager.TrackProcessingTime s t) rest

/-- Processing times (ms) on which a fast evaluation falls between slow ones: thirty
samples of 12, one of 350, twenty-eight of 0, one of 345, one of 0, then six of 100. -/
def hysteresisRun : List Flt :=
  List.replicate 30 (f64 12) ++ [f64 350] ++ List.replicate 28 (f64 0)
    ++ [f64 345, f64 0] ++ List.replicate 6 (f64 100)
/-- A fresh controller after four samples of twice its target: the next call is the first
evaluation. -/
def fourSamplesIn : CameraManager :=
  (List.replicate 4 doubleTargetSample).foldl CameraManager.TrackProcessingTime freshManager
/-! ## The capture loop -/

/-- What one iteration of the `while` loop of `FrameCaptureThread` does. -/
inductive LoopAction where
  | ReadSample : LoopAction
  | sleep_for (ms : Int) : LoopAction
  | nothing : LoopAction
deriving DecidableEq

namespace CameraManager

/-- One iteration of the `while` loop of `FrameCaptureThread`, entered with the loop
condition true.  `elapsed` is `now - last_frame_time` in whole milliseconds, `ReadSample`
tells whether the read succeeds and `io` is what `ProcessFrame` then gets.  The result is
the action taken, the manager afterwards and whether `last_frame_time` is set to `now`. -/
def FrameCaptureThread.iteration (L : LibM) (ReadSample : Bool) (io : SampleIO)
    (s : CameraManager) (elapsed : Int) : LoopAction × CameraManager × Bool :=
  let frame_interval : Int := 33
  if frame_interval ≤ elapsed then
    if ReadSample = true ∧ io.sample = true then
      (LoopAction.ReadSample, (ProcessFrame L io s).2, true)
    else (LoopAction.ReadSample, s, false)
  else
    let sleep_time := frame_interval - elapsed
    if 0 < sleep_time then (LoopAction.sleep_for sleep_time, s, false)
    else (LoopAction.nothing, s, false)

end CameraManager

/-- The pacing decision of the specification: read when the elapsed time has reached the
pacing interval, else sleep for the remainder. -/
def pacedDecision (interval elapsed : Int) : LoopAction :=
  if interval ≤ elapsed then LoopAction.ReadSample else LoopAction.sleep_for (interval - elapsed)
/-! ## Statement vocabulary for the resolution search -/

/-- The distance in pixel count between a resolution and a requested size,
`|w*h - width*height|`, in exact arithmetic. -/
def pixelDiff (r : CameraResolution) (width height : Nat) : Nat :=
  (r.width * r.height - width * height) + (width * height - r.width * r.height)

/-- A manager with the given list of supported resolutions. -/
def withResolutions (l : List CameraResolution) : CameraManager :=
  { freshManager with supported_resolutions_ := l }
/-! ## The bounds guard of the zoom loop -/

/-- The bounds guard of the zoom loop for destination pixel `(x, y)`: true when the loop
executes `continue` and stores nothing for the pixel. -/
def zoomSkips (current_zoom_level_ : Flt) (width height y x : Nat) : Bool :=
  let crop_x := (cropRect current_zoom_level_ width height).1
  let crop_y := (cropRect current_zoom_level_ width height).2.1
  let crop_width := (cropRect current_zoom_level_ width height).2.2.1
  let crop_height := (cropRect current_zoom_level_ width height).2.2.2
  let src_x := fadd (f32 crop_x) (fmul (fdiv (f32 x) (f32 width)) (f32 crop_width))
  let src_y := fadd (f32 crop_y) (fmul (fdiv (f32 y) (f32 height)) (f32 crop_height))
  let src_x_int := u32 src_x.truncNat
  let src_y_int := u32 src_y.truncNat
  decide (width ≤ u32 (src_x_int + 1) ∨ height ≤ u32 (src_y_int + 1))

/-- The statement of the memset that clears the frame before the zoom loop. -/
def clearFrame (data : Buf) (size : Nat) : Buf :=
  (List.range size).foldl (fun d i => wr d i 0) data
/-- A 640x480 frame of stride 2560 in which every byte is 200. -/
def uniformFrame : Buf := List.replicate 1228800 200
/-! ## Statement vocabulary for the bitmap encoder -/

/-- The store of the three colour bytes of a pixel at offset `p`. -/
def put3 (d : Buf) (p : Nat) (t : Byte × Byte × Byte) : Buf :=
  wr (wr (wr d p t.1) (p + 1) t.2.1) (p + 2) t.2.2

/-- The shape of the copy loop of `FrameToBMP`: rows top to bottom, pixels left to right,
three bytes stored per pixel, rows `row_size` bytes apart from offset `base` on. -/
def copyLoop (G : Nat → Nat → Byte × Byte × Byte) (base row_size width height : Nat)
    (out : Buf) : Buf :=
  (List.range height).foldl
    (fun out y => (List.range width).foldl
      (fun out x => put3 out (base + u32 (y * row_size) + 3 * x) (G y x)) out) out

/-- The row size of the specification: `3 * width` rounded up to a multiple of 4. -/
def bmpRowSize (width : Nat) : Nat := (3 * width + 3) / 4 * 4

/-- The little-endian 32-bit value stored at offset `off`. -/
def le32 (d : Buf) (off : Nat) : Nat :=
  (rd d off).val + 256 * (rd d (off + 1)).val + 65536 * (rd d (off + 2)).val
    + 16777216 * (rd d (off + 3)).val
/-! ## Statement vocabulary for full desaturation -/

/-- The gray level of the specification for a pixel `(b, g, r)`:
`floor((max(R,G,B) + min(R,G,B)) / 2)`. -/
def midGray (b g r : Byte) : Nat :=
  (max (max r.val g.val) b.val + min (min r.val g.val) b.val) / 2

/-- A manager with saturation -1 and every other adjustment neutral. -/
def desaturatingManager : CameraManager :=
  { freshManager with current_adjustments_ := { saturation := Flt.fin (-1) } }
/-! ## The offsets used by the zoom loop -/

/-- The offsets into the copy that the zoom loop reads for destination pixel `(x, y)`, in
the order of the reads (channels 0, 1, 2, then the alpha of the top-left sample); no offset
when the guard skips the pixel. -/
def zoomReads (width height stride crop_x crop_y crop_width crop_height y x : Nat) :
    List Nat :=
  let src_x := fadd (f32 crop_x) (fmul (fdiv (f32 x) (f32 width)) (f32 crop_width))
  let src_y := fadd (f32 crop_y) (fmul (fdiv (f32 y) (f32 height)) (f32 crop_height))
  let src_x_int := u32 src_x.truncNat
  let src_y_int := u32 src_y.truncNat
  if width ≤ u32 (src_x_int + 1) ∨ height ≤ u32 (src_y_int + 1) then []
  else
    let idx_tl := u32 (src_y_int * stride + src_x_int * 4)
    let idx_tr := u32 (src_y_int * stride + (src_x_int + 1) * 4)
    let idx_bl := u32 ((src_y_int + 1) * stride + src_x_int * 4)
    let idx_br := u32 ((src_y_int + 1) * stride + (src_x_int + 1) * 4)
    [u32 (idx_tl + 0), u32 (idx_tr + 0), u32 (idx_bl + 0), u32 (idx_br + 0),
     u32 (idx_tl + 1), u32 (idx_tr + 1), u32 (idx_bl + 1), u32 (idx_br + 1),
     u32 (idx_tl + 2), u32 (idx_tr + 2), u32 (idx_bl + 2), u32 (idx_br + 2),
     u32 (idx_tl + 3)]

/-- The offsets into the frame that the zoom loop writes for destination pixel `(x, y)`. -/
def zoomWrites (stride y x : Nat) : List Nat :=
  let dst_pixel := u32 (y * stride) + u32 (x * 4)
  [dst_pixel, dst_pixel + 1, dst_pixel + 2, dst_pixel + 3]
/-! ## The zoom geometry in exact arithmetic -/

/-- The crop rectangle of the zoom block with its float operations read as exact
operations on rationals and its unsigned operations as operations on naturals:
`(crop_x, crop_y, crop_width, crop_height)`. -/
def cropRectExact (zoom : ℚ) (width height : Nat) : Nat × Nat × Nat × Nat :=
  let crop_width := ⌊(width : ℚ) / zoom⌋.toNat
  let crop_height := ⌊(height : ℚ) / zoom⌋.toNat
  let crop_x := (width - crop_width) / 2
  let crop_y := (height - crop_height) / 2
  let crop_width := if crop_width < 1 then 1 else crop_width
  let crop_height := if crop_height < 1 then 1 else crop_height
  let crop_x := if width < crop_x + crop_width then width - crop_width else crop_x
  let crop_y := if height < crop_y + crop_height then height - crop_height else crop_y
  (crop_x, crop_y, crop_width, crop_height)

/-- The source coordinates `(src_x, src_y)` of destination pixel `(x, y)` in exact
arithmetic. -/
def zoomSourceExact (zoom : ℚ) (width height y x : Nat) : ℚ × ℚ :=
  let crop_x := (cropRectExact zoom width height).1
  let crop_y := (cropRectExact zoom width height).2.1
  let crop_width := (cropRectExact zoom width height).2.2.1
  let crop_height := (cropRectExact zoom width height).2.2.2
  ((crop_x : ℚ) + ((x : ℚ) / (width : ℚ)) * (crop_width : ℚ),
   (crop_y : ℚ) + ((y : ℚ) / (height : ℚ)) * (crop_height : ℚ))

/-- The bounds guard of the zoom loop for destination pixel `(x, y)` in exact arithmetic. -/
def zoomSkipsExact (zoom : ℚ) (width height y x : Nat) : Bool :=
  let src_x_int := ⌊(zoomSourceExact zoom width height y x).1⌋.toNat
  let src_y_int := ⌊(zoomSourceExact zoom width height y x).2⌋.toNat
  decide (width ≤ src_x_int + 1 ∨ height ≤ src_y_int + 1)

/-! # Theorems -/

open CameraManager

/-! ## Constants of the two formats -/

theorem f32_zero : f32 0 = Flt.fin 0 := by decide!

theorem f32_one : f32 1 = Flt.fin 1 := by decide!

theorem f32_neg_one : f32 (-1) = Flt.fin (-1) := by decide!

theorem f32_two : f32 2 = Flt.fin 2 := by decide!

theorem f64_one : f64 1 = Flt.fin 1 := by decide!

/-! ## Quality controller -/

/-- C1: from the initial controller state (interval 33 ms, empty window, counter 0), the
forty samples of `slowRun` (five of 1 ms, then thirty-five of 100 ms) drive the pacing
interval through 29, 34, 40, 48 and 57 to 68 ms, above the 66 ms bound. -/
theorem TrackProcessingTime_interval_reaches_68 :
    freshManager.frame_interval_ = 33 ∧ freshManager.processing_times_ = [] ∧
    freshManager.consecutive_slow_frames_ = 0 ∧
    (slowRun.foldl TrackProcessingTime freshManager).frame_interval_ = 68 := by
  decide!

/-! ## Image adjustments -/

theorem stdMax_fin_inRange (lo hi q : ℚ) (h : lo ≤ hi) (hq : q ≤ hi) :
    (Flt.stdMax (Flt.fin lo) (Flt.fin q)).inRange lo hi := by
  unfold Flt.stdMax
  by_cases h1 : lo < q
  · simp [Flt.lt, Flt.inRange, h1, hq, le_of_lt]
  · simp [Flt.lt, Flt.inRange, h1, h]

theorem clampField_inRange (lo hi : ℚ) (h : lo ≤ hi) (x : Flt) :
    (ImageAdjustments.clampField (Flt.fin lo) (Flt.fin hi) x).inRange lo hi := by
  unfold ImageAdjustments.clampField
  cases x with
  | nan => simpa [Flt.stdMin, Flt.lt] using stdMax_fin_inRange lo hi hi h le_rfl
  | pinf => simpa [Flt.stdMin, Flt.lt] using stdMax_fin_inRange lo hi hi h le_rfl
  | ninf => simp [Flt.stdMin, Flt.stdMax, Flt.lt, Flt.inRange, h]
  | fin q =>
    by_cases h1 : q < hi
    · simpa [Flt.stdMin, Flt.lt, h1] using stdMax_fin_inRange lo hi q h (le_of_lt h1)
    · simpa [Flt.stdMin, Flt.lt, h1] using stdMax_fin_inRange lo hi hi h le_rfl

/-- C2: whatever the input map holds, the adjustments built by `FromEncodableMap` have
brightness, contrast, saturation and exposure in [-1, 1], gain in [0, 2] and sharpness in
[0, 1]; in particular none of them is NaN or infinite. -/
theorem FromEncodableMap_fields_in_range (map : EncodableMap) :
    (ImageAdjustments.FromEncodableMap map).brightness.inRange (-1) 1 ∧
    (ImageAdjustments.FromEncodableMap map).contrast.inRange (-1) 1 ∧
    (ImageAdjustments.FromEncodableMap map).saturation.inRange (-1) 1 ∧
    (ImageAdjustments.FromEncodableMap map).exposure.inRange (-1) 1 ∧
    (ImageAdjustments.FromEncodableMap map).gain.inRange 0 2 ∧
    (ImageAdjustments.FromEncodableMap map).sharpness.inRange 0 1 := by
  simp only [ImageAdjustments.FromEncodableMap, ImageAdjustments.Clamp, f32_zero, f32_one,
    f32_neg_one, f32_two]
  exact ⟨clampField_inRange _ _ (by norm_num) _, clampField_inRange _ _ (by norm_num) _,
    clampField_inRange _ _ (by norm_num) _, clampField_inRange _ _ (by norm_num) _,
    clampField_inRange _ _ (by norm_num) _, clampField_inRange _ _ (by norm_num) _⟩

/-! ## Frame publication -/

/-- The capture worker never touches the frame ring. -/
theorem ProcessFrame_ring_unchanged (L : LibM) (io : SampleIO) (s : CameraManager) :
    (ProcessFrame L io s).2.frame_ring_buffer_ = s.frame_ring_buffer_ := by
  have hw : ∀ (d : Buf) (w h st : Nat),
      (ApplyImageAdjustments L io.d3d s d w h st).2.2.frame_ring_buffer_
        = s.frame_ring_buffer_ := by
    intro d w h st
    unfold ApplyImageAdjustments ApplyImageAdjustmentsHardware
    split_ifs <;> rfl
  unfold ProcessFrame
  dsimp only
  split_ifs <;> first | rfl | exact hw _ _ _ _

/-- C3: on an active session the worker processes the one-pixel sample successfully
(`ProcessFrame` returns true and stores the 58-byte bitmap in `current_frame_`, raising
`new_frame_available_`), yet `GetLastFrameFromBuffer` still returns the empty vector. -/
theorem ProcessFrame_then_GetLastFrameFromBuffer_empty :
    (ProcessFrame LibM.sample onePixelSample activeManager).1 = true ∧
    (ProcessFrame LibM.sample onePixelSample activeManager).2.current_frame_.length = 58 ∧
    (ProcessFrame LibM.sample onePixelSample activeManager).2.new_frame_available_ = true ∧
    GetLastFrameFromBuffer (ProcessFrame LibM.sample onePixelSample activeManager).2 = [] := by
  decide!

/-- C4: at zoom level 1.0, with neutral numeric adjustments and no filter,
`ApplyImageAdjustmentsSoftware` returns true and hands back the buffer of every non-empty
frame (width, height, stride > 0) exactly as it received it. -/
theorem ApplyImageAdjustmentsSoftware_neutral_identity (L : LibM) (s : CameraManager)
    (data : Buf) (width height stride : Nat)
    (hw : 0 < width) (hh : 0 < height) (hs : 0 < stride)
    (hz : s.current_zoom_level_ = Flt.fin 1)
    (hn : s.current_adjustments_.NeutralTone)
    (hf : s.current_adjustments_.filter = "") :
    ApplyImageAdjustmentsSoftware L s data width height stride = (true, data) := by
  obtain ⟨h1, h2, h3, h4, h5⟩ := hn
  have hzoom : Flt.lt (f64 (101 / 100)) (Flt.fin 1) = false := by decide!
  unfold ApplyImageAdjustmentsSoftware
  rw [if_neg (by omega), hz, hzoom]
  simp [h1, h2, h3, h4, h5, hf, f32_zero, f32_one, Flt.eq]

theorem ApplyImageAdjustmentsSoftware_neutral_identity_witness :
    ApplyImageAdjustmentsSoftware LibM.sample freshManager (bytes [30, 20, 10, 255]) 1 1 4
      = (true, bytes [30, 20, 10, 255]) :=
  ApplyImageAdjustmentsSoftware_neutral_identity LibM.sample freshManager
    (bytes [30, 20, 10, 255]) 1 1 4 (by decide) (by decide) (by decide) rfl
    ⟨rfl, rfl, rfl, rfl, rfl⟩ rfl

/-! ## Zoom -/

/-- C8: for every requested zoom `z`, `SetZoomLevel` returns true and `GetZoomLevel` then
gives `min(max(z, 1.0), max-zoom)`; with the default max-zoom 10.0 this is `min(max(z, 1.0),
10.0)`, which lies in [1, 10] unless `z` is NaN (then both sides are NaN), and a `z` that is
already in [1, 10] is stored unchanged. -/
theorem SetZoomLevel_clamps (s : CameraManager) (z : Flt) :
    (SetZoomLevel s z).1 = true ∧
    GetZoomLevel (SetZoomLevel s z).2 = clampSpec z (Flt.fin 1) s.max_zoom_level_ ∧
    (s.max_zoom_level_ = Flt.fin 10 →
      GetZoomLevel (SetZoomLevel s z).2 = clampSpec z (Flt.fin 1) (Flt.fin 10) ∧
      (z ≠ Flt.nan → (GetZoomLevel (SetZoomLevel s z).2).inRange 1 10) ∧
      (z.inRange 1 10 → GetZoomLevel (SetZoomLevel s z).2 = z)) := by
  have hval : GetZoomLevel (SetZoomLevel s z).2 = clampSpec z (Flt.fin 1) s.max_zoom_level_ := by
    simp only [SetZoomLevel, GetZoomLevel, clampSpec, Flt.stdMin, Flt.stdMax, f64_one]
  refine ⟨rfl, hval, ?_⟩
  intro hmax
  rw [hval, hmax]
  refine ⟨rfl, ?_, ?_⟩
  · intro hz
    cases z with
    | nan => exact absurd rfl hz
    | pinf => simp [clampSpec, Flt.stdMin, Flt.stdMax, Flt.lt, Flt.inRange]
    | ninf => simp [clampSpec, Flt.stdMin, Flt.stdMax, Flt.lt, Flt.inRange]
    | fin q =>
      by_cases h1 : q < 1
      · simp [clampSpec, Flt.stdMin, Flt.stdMax, Flt.lt, Flt.inRange, h1]
      · by_cases h2 : 10 < q
        · simp [clampSpec, Flt.stdMin, Flt.stdMax, Flt.lt, Flt.inRange, h1, h2]
        · simp [clampSpec, Flt.stdMin, Flt.stdMax, Flt.lt, Flt.inRange, h1, h2]
          exact ⟨not_lt.mp h1, not_lt.mp h2⟩
  · intro hz
    cases z with
    | nan => exact absurd hz (by simp [Flt.inRange])
    | pinf => exact absurd hz (by simp [Flt.inRange])
    | ninf => exact absurd hz (by simp [Flt.inRange])
    | fin q =>
      obtain ⟨h1, h2⟩ := hz
      simp [clampSpec, Flt.stdMin, Flt.stdMax, Flt.lt, not_lt.mpr h1, not_lt.mpr h2]

theorem SetZoomLevel_clamps_witness :
    GetZoomLevel (SetZoomLevel freshManager (Flt.fin 25)).2 = Flt.fin 10 ∧
    GetZoomLevel (SetZoomLevel freshManager (Flt.fin (5 / 2))).2 = Flt.fin (5 / 2) := by
  refine ⟨?_, ?_⟩
  · rw [((SetZoomLevel_clamps freshManager (Flt.fin 25)).2.2 rfl).1]
    decide!
  · exact ((SetZoomLevel_clamps freshManager (Flt.fin (5 / 2))).2.2 rfl).2.2
      (by simp [Flt.inRange]; norm_num)

/-! ## Session life cycle -/

theorem StopCameraSession_of_inactive (s : CameraManager) (h : s.session_active_ = false) :
    StopCameraSession s = (true, s) := by
  simp [StopCameraSession, h]

theorem StopCameraSession_of_active (s : CameraManager) (h : s.session_active_ = true) :
    (StopCameraSession s).2.Idle ∧ (StopCameraSession s).2.devices_ = s.devices_ ∧
    (StopCameraSession s).2.mf_initialized_ = s.mf_initialized_ := by
  unfold StopCameraSession Idle
  rw [if_neg (by simp [h])]
  cases s.source_reader_ <;> cases s.capture_thread_ <;> simp

theorem Idle_of_inactive (s : CameraManager) (h : s.session_active_ = false)
    (hwf : s.SessionWF) : s.Idle :=
  ⟨h, hwf h⟩

theorem SessionWF_of_Idle (s : CameraManager) (h : s.Idle) : s.SessionWF :=
  fun _ => h.2

/-- An active session is stopped first: the call continues from the stopped state. -/
theorem StartCameraSession_of_active (mf : MFResults) (s : CameraManager) (camera_id : String)
    (h : s.session_active_ = true) :
    StartCameraSession mf s camera_id
      = StartCameraSession mf (StopCameraSession s).2 camera_id := by
  have h2 : (StopCameraSession s).2.session_active_ = false :=
    (StopCameraSession_of_active s h).1.1
  rw [StartCameraSession, StartCameraSession, h, h2]
  rfl

theorem StartCameraSession_unknown_id_idle (mf : MFResults) (t : CameraManager)
    (camera_id : String) (hidle : t.Idle)
    (hid : ∀ device ∈ t.devices_, device.id ≠ camera_id) :
    (StartCameraSession mf t camera_id).1 = false ∧
    (StartCameraSession mf t camera_id).2.Idle := by
  have hnot : (t.devices_.any fun device => decide (device.id = camera_id)) = false := by
    rw [List.any_eq_false]
    intro d hd
    simpa using hid d hd
  rw [StartCameraSession, hidle.1]
  simp only [Bool.false_eq_true, if_false, hnot, if_true]
  split_ifs <;> exact ⟨rfl, hidle⟩

theorem StartCameraSession_idle_SessionWF (mf : MFResults) (t : CameraManager)
    (camera_id : String) (hidle : t.Idle) :
    (StartCameraSession mf t camera_id).2.SessionWF := by
  obtain ⟨h1, h2, h3, h4⟩ := hidle
  rw [StartCameraSession, h1]
  simp only [Bool.false_eq_true, if_false]
  generalize (if (if mf.SetGUID_major = true then mf.SetGUID_subtype else mf.SetGUID_major) = true
    then mf.SetCurrentMediaType
    else if mf.SetGUID_major = true then mf.SetGUID_subtype else mf.SetGUID_major) = hr
  by_cases c1 : t.mf_initialized_ = false
  · rw [if_pos c1]
    exact fun _ => ⟨h2, h3, h4⟩
  rw [if_neg c1]
  by_cases c2 : (t.devices_.any fun device => decide (device.id = camera_id)) = false
  · rw [if_pos c2]
    exact fun _ => ⟨h2, h3, h4⟩
  rw [if_neg c2]
  by_cases c3 : mf.MFCreateAttributes = false
  · rw [if_pos c3]
    exact fun _ => ⟨h2, h3, h4⟩
  rw [if_neg c3]
  by_cases c4 : mf.SetUINT32 = false
  · rw [if_pos c4]
    exact fun _ => ⟨h2, h3, h4⟩
  rw [if_neg c4]
  by_cases c5 : mf.MFCreateDeviceSource = false
  · rw [if_pos c5]
    exact fun _ => ⟨h2, h3, h4⟩
  rw [if_neg c5]
  by_cases c6 : mf.MFCreateSourceReaderFromMediaSource = false
  · rw [if_pos c6]
    exact fun _ => ⟨c6, h3, h4⟩
  rw [if_neg c6]
  by_cases c7 : mf.MFCreateMediaType = false
  · rw [if_pos c7]
    exact fun _ => ⟨rfl, h3, h4⟩
  rw [if_neg c7]
  by_cases c8 : hr = false
  · rw [if_pos c8]
    exact fun _ => ⟨rfl, h3, h4⟩
  rw [if_neg c8]
  exact fun hact => Bool.noConfusion hact

/-- The consistency of the session fields holds after construction and is kept by
`StopCameraSession` and `StartCameraSession`. -/
theorem SessionWF_invariant :
    freshManager.SessionWF ∧
    (∀ s : CameraManager, s.SessionWF → (StopCameraSession s).2.SessionWF) ∧
    (∀ (mf : MFResults) (s : CameraManager) (camera_id : String), s.SessionWF →
      (StartCameraSession mf s camera_id).2.SessionWF) := by
  refine ⟨fun _ => ⟨rfl, rfl, rfl⟩, ?_, ?_⟩
  · intro s h
    cases ha : s.session_active_
    · rw [StopCameraSession_of_inactive s ha]
      exact h
    · exact SessionWF_of_Idle _ (StopCameraSession_of_active s ha).1
  · intro mf s camera_id h
    cases ha : s.session_active_
    · exact StartCameraSession_idle_SessionWF mf s camera_id (Idle_of_inactive s ha h)
    · rw [StartCameraSession_of_active mf s camera_id ha]
      exact StartCameraSession_idle_SessionWF mf _ camera_id (StopCameraSession_of_active s ha).1

/-- C9: on a manager whose session fields are consistent, `StartCameraSession` with a
camera id that no device of the registry carries returns false and leaves the session idle:
`session_active_` is false, no source reader is held and no capture thread is running
(whatever the Media Foundation calls would have answered, and whether or not a session was
active before the call). -/
theorem StartCameraSession_unknown_id (mf : MFResults) (s : CameraManager)
    (camera_id : String) (hwf : s.SessionWF)
    (hid : ∀ device ∈ s.devices_, device.id ≠ camera_id) :
    (StartCameraSession mf s camera_id).1 = false ∧
    (StartCameraSession mf s camera_id).2.Idle := by
  cases ha : s.session_active_
  · exact StartCameraSession_unknown_id_idle mf s camera_id (Idle_of_inactive s ha hwf) hid
  · rw [StartCameraSession_of_active mf s camera_id ha]
    obtain ⟨h1, h2, _⟩ := StopCameraSession_of_active s ha
    exact StartCameraSession_unknown_id_idle mf _ camera_id h1 (by rw [h2]; exact hid)

theorem StartCameraSession_unknown_id_witness :
    (StartCameraSession mfAllOk activeManager "cam7").1 = false ∧
    (StartCameraSession mfAllOk activeManager "cam7").2.Idle :=
  StartCameraSession_unknown_id mfAllOk activeManager "cam7"
    (by intro h; exact absurd h (by decide)) (by decide)

/-- C10: `StopCameraSession` on an idle session (`session_active_` false) returns true and
leaves the whole manager state as it was; and for any state a second `StopCameraSession`
right after a first one returns true and changes nothing more. -/
theorem StopCameraSession_idle_noop (s : CameraManager) :
    (s.session_active_ = false → StopCameraSession s = (true, s)) ∧
    StopCameraSession (StopCameraSession s).2 = (true, (StopCameraSession s).2) := by
  refine ⟨StopCameraSession_of_inactive s, StopCameraSession_of_inactive _ ?_⟩
  cases ha : s.session_active_
  · rw [StopCameraSession_of_inactive s ha]
    exact ha
  · exact (StopCameraSession_of_active s ha).1.1

theorem StopCameraSession_idle_noop_witness :
    StopCameraSession freshManager = (true, freshManager) ∧
    StopCameraSession (StopCameraSession activeManager).2
      = (true, (StopCameraSession activeManager).2) :=
  ⟨(StopCameraSession_idle_noop freshManager).1 rfl,
    (StopCameraSession_idle_noop activeManager).2⟩

/-! ## Buffers -/

theorem length_wr (d : Buf) (i : Nat) (v : Byte) : (wr d i v).length = d.length := by
  simp [wr]

theorem rd_wr_ne (d : Buf) (i j : Nat) (v : Byte) (h : i ≠ j) : rd (wr d i v) j = rd d j := by
  simp [rd, wr, List.getD_eq_getElem?_getD, List.getElem?_set_ne h]

theorem rd_wr_same (d : Buf) (i : Nat) (v : Byte) (h : i < d.length) :
    rd (wr d i v) i = v := by
  simp [rd, wr, List.getD_eq_getElem?_getD, List.getElem?_set, h]

theorem wr_rd_self (d : Buf) (i : Nat) : wr d i (rd d i) = d := by
  apply List.ext_getElem?
  intro n
  simp only [wr, rd, List.getElem?_set, List.getD_eq_getElem?_getD]
  by_cases h : i = n
  · subst h
    by_cases h2 : i < d.length
    · simp [h2, List.getElem?_eq_getElem h2]
    · simp [h2, List.getElem?_eq_none (not_lt.mp h2)]
  · simp [h]

/-! ## The invert filter -/

theorem invertByte_invertByte (v : Byte) : invertByte (invertByte v) = v := by
  apply Fin.ext
  simp only [invertByte, byteOfNat]
  omega

theorem Flips_id : Flips (fun d => d) (fun _ => false) := by
  intro d i
  simp

theorem Flips_comp (F G : Buf → Buf) (k1 k2 : Nat → Bool) (hF : Flips F k1) (hG : Flips G k2) :
    Flips (fun d => G (F d)) (fun i => xor (k1 i) (k2 i)) := by
  intro d i
  rw [hG (F d) i, hF d i]
  beta_reduce
  generalize k1 i = a
  generalize k2 i = b
  cases a <;> cases b <;> cases d[i]? <;> simp [invertByte_invertByte]

theorem Flips_invert_one (p : Nat) :
    Flips (fun d => wr d p (invertByte (rd d p))) (fun i => decide (i = p)) := by
  intro d i
  simp only [wr, rd, List.getElem?_set, List.getD_eq_getElem?_getD]
  by_cases h : p = i
  · subst h
    by_cases h2 : p < d.length
    · simp [h2, List.getElem?_eq_getElem h2]
    · simp [h2, List.getElem?_eq_none (not_lt.mp h2)]
  · have h3 : ¬ i = p := fun e => h e.symm
    simp [h, h3]

theorem Flips_invertAt (p : Nat) : ∃ k, Flips (fun d => invertAt d p) k :=
  ⟨_, Flips_comp _ _ _ _ (Flips_comp _ _ _ _ (Flips_invert_one p) (Flips_invert_one (p + 1)))
    (Flips_invert_one (p + 2))⟩

theorem Flips_foldl {α : Type} (G : α → Buf → Buf) (hG : ∀ a, ∃ k, Flips (G a) k)
    (l : List α) : ∃ k, Flips (fun d => l.foldl (fun d a => G a d) d) k := by
  induction l with
  | nil => exact ⟨_, Flips_id⟩
  | cons a l ih =>
    obtain ⟨k1, h1⟩ := hG a
    obtain ⟨k2, h2⟩ := ih
    exact ⟨_, Flips_comp _ _ _ _ h1 h2⟩

theorem Flips_forEachPixel_invertAt (width height stride : Nat) :
    ∃ k, Flips (forEachPixel invertAt width height stride) k :=
  Flips_foldl (fun y d => (List.range width).foldl
      (fun d x => invertAt d (u32 (y * stride) + 4 * x)) d)
    (fun y => Flips_foldl (fun x d => invertAt d (u32 (y * stride) + 4 * x))
      (fun _ => Flips_invertAt _) (List.range width))
    (List.range height)

theorem Flips_involutive (F : Buf → Buf) (k : Nat → Bool) (h : Flips F k) (d : Buf) :
    F (F d) = d := by
  apply List.ext_getElem?
  intro i
  rw [h (F d) i, h d i]
  cases k i <;> simp
  cases d[i]? <;> simp [invertByte_invertByte]

/-- C5: with the filter "inverted" or "negative", applying `ApplyImageFilter` twice gives
back the buffer it started from, byte for byte, for every buffer, width, height and stride;
and on one channel `255 - (255 - x) = x` for every byte `x`. -/
theorem ApplyImageFilter_invert_involution (s : CameraManager) (data : Buf)
    (width height stride : Nat)
    (hf : s.current_adjustments_.filter = "inverted" ∨
      s.current_adjustments_.filter = "negative") :
    (ApplyImageFilter s data width height stride).1 = true ∧
    (ApplyImageFilter s (ApplyImageFilter s data width height stride).2
      width height stride).2 = data ∧
    ∀ x : Byte, invertByte (invertByte x) = x ∧ (invertByte x).val = 255 - x.val := by
  have hrun : ∀ d : Buf, ApplyImageFilter s d width height stride
      = (true, forEachPixel invertAt width height stride d) := by
    intro d
    unfold ApplyImageFilter
    rcases hf with h | h <;> simp [h]
  obtain ⟨k, hk⟩ := Flips_forEachPixel_invertAt width height stride
  refine ⟨by rw [hrun], ?_, ?_⟩
  · rw [hrun, hrun]
    exact Flips_involutive _ k hk data
  · intro x
    refine ⟨invertByte_invertByte x, ?_⟩
    simp only [invertByte, byteOfNat]
    omega

theorem ApplyImageFilter_invert_involution_witness :
    (ApplyImageFilter (withFilter "inverted")
      (ApplyImageFilter (withFilter "inverted") (bytes [30, 20, 10, 255]) 1 1 4).2 1 1 4).2
      = bytes [30, 20, 10, 255] :=
  (ApplyImageFilter_invert_involution (withFilter "inverted") (bytes [30, 20, 10, 255]) 1 1 4
    (Or.inl rfl)).2.1

/-! ## Pixel loops -/

theorem finishChannel_neutral :
    ∀ v : Byte, finishChannel (Flt.fin 0) (Flt.fin 1) (fmul (Flt.ofByte v) (Flt.fin 1)) = v := by
  decide!

theorem tonePixel_neutral (L : LibM) (b g r : Byte) :
    tonePixel (fmul (Flt.fin 0) (f32 255)) (fadd (Flt.fin 0) (f32 1)) (fadd (Flt.fin 0) (f32 1))
      (L.powf (f32 2) (Flt.fin 0)) (Flt.fin 1) b g r = (b, g, r) := by
  have e1 : fmul (Flt.fin 0) (f32 255) = Flt.fin 0 := by decide!
  have e2 : fadd (Flt.fin 0) (f32 1) = Flt.fin 1 := by decide!
  have e3 : Flt.ne (Flt.fin 1) (f32 1) = false := by decide!
  have e4 : fmul (Flt.fin 1) (Flt.fin 1) = Flt.fin 1 := by decide!
  simp only [tonePixel, e1, e2, L.powf_zero, e3, e4]
  simp only [Bool.false_eq_true, if_false, finishChannel_neutral]


theorem length_applyAt (f : Byte → Byte → Byte → Byte × Byte × Byte) (d : Buf) (p : Nat) :
    (applyAt f d p).length = d.length := by
  simp [applyAt, length_wr]

theorem rd_applyAt_other (f : Byte → Byte → Byte → Byte × Byte × Byte) (d : Buf) (p i : Nat)
    (h0 : i ≠ p) (h1 : i ≠ p + 1) (h2 : i ≠ p + 2) : rd (applyAt f d p) i = rd d i := by
  simp only [applyAt]
  rw [rd_wr_ne _ _ _ _ (Ne.symm h2), rd_wr_ne _ _ _ _ (Ne.symm h1), rd_wr_ne _ _ _ _ (Ne.symm h0)]

theorem rd_applyAt_chan (f : Byte → Byte → Byte → Byte × Byte × Byte) (d : Buf) (p c : Nat)
    (hp : p + 2 < d.length) (hc : c < 3) :
    rd (applyAt f d p) (p + c) = chan c (f (rd d p) (rd d (p + 1)) (rd d (p + 2))) := by
  simp only [applyAt]
  have hc3 : c = 0 ∨ c = 1 ∨ c = 2 := by omega
  have n01 : p ≠ p + 1 := by omega
  have n02 : p ≠ p + 2 := by omega
  have n12 : p + 1 ≠ p + 2 := by omega
  rcases hc3 with h | h | h <;> subst h
  · show rd _ p = _
    rw [rd_wr_ne _ _ _ _ n02.symm, rd_wr_ne _ _ _ _ n01.symm, rd_wr_same _ _ _ (by omega)]
    rfl
  · rw [rd_wr_ne _ _ _ _ n12.symm, rd_wr_same _ _ _ (by rw [length_wr]; omega)]
    rfl
  · rw [rd_wr_same _ _ _ (by rw [length_wr, length_wr]; omega)]
    rfl

theorem grayscaleAt_eq : grayscaleAt
    = applyAt (fun b g r => (grayValue b g r, grayValue b g r, grayValue b g r)) := rfl

theorem invertAt_eq : invertAt
    = applyAt (fun b g r => (invertByte b, invertByte g, invertByte r)) := by
  funext d p
  have n01 : p ≠ p + 1 := by omega
  have n02 : p ≠ p + 2 := by omega
  have n12 : p + 1 ≠ p + 2 := by omega
  simp only [invertAt, applyAt]
  rw [rd_wr_ne _ _ _ _ n12, rd_wr_ne _ _ _ _ n02, rd_wr_ne _ _ _ _ n01]

theorem toneAt_eq (br co sa ex ga : Flt) :
    toneAt br co sa ex ga = applyAt (tonePixel br co sa ex ga) := rfl

theorem applyAt_id (f : Byte → Byte → Byte → Byte × Byte × Byte)
    (hf : ∀ b g r, f b g r = (b, g, r)) (d : Buf) (p : Nat) : applyAt f d p = d := by
  simp only [applyAt, hf, wr_rd_self]

theorem rowLoop_length (f : Byte → Byte → Byte → Byte × Byte × Byte) (base k : Nat) (d : Buf) :
    ((List.range k).foldl (fun d x => applyAt f d (base + 4 * x)) d).length = d.length := by
  induction k with
  | zero => rfl
  | succ k ih =>
    rw [List.range_succ, List.foldl_append, List.foldl_cons, List.foldl_nil, length_applyAt, ih]

theorem rowLoop_untouched (f : Byte → Byte → Byte → Byte × Byte × Byte) (base k : Nat)
    (d : Buf) (i : Nat) (h : ¬ (base ≤ i ∧ i < base + 4 * k ∧ (i - base) % 4 < 3)) :
    rd ((List.range k).foldl (fun d x => applyAt f d (base + 4 * x)) d) i = rd d i := by
  induction k with
  | zero => rfl
  | succ k ih =>
    rw [List.range_succ, List.foldl_append, List.foldl_cons, List.foldl_nil,
      rd_applyAt_other _ _ _ _ (by omega) (by omega) (by omega)]
    exact ih (by omega)

theorem rowLoop_pixel (f : Byte → Byte → Byte → Byte × Byte × Byte) (base k : Nat) (d : Buf)
    (hlen : base + 4 * k ≤ d.length) (px c : Nat) (hpx : px < k) (hc : c < 3) :
    rd ((List.range k).foldl (fun d x => applyAt f d (base + 4 * x)) d) (base + 4 * px + c)
      = chan c (f (rd d (base + 4 * px)) (rd d (base + 4 * px + 1))
          (rd d (base + 4 * px + 2))) := by
  induction k with
  | zero => omega
  | succ k ih =>
    rw [List.range_succ, List.foldl_append, List.foldl_cons, List.foldl_nil]
    by_cases hk : px < k
    · rw [rd_applyAt_other _ _ _ _ (by omega) (by omega) (by omega)]
      exact ih (by omega) hk
    · have hpk : px = k := by omega
      subst hpk
      rw [rd_applyAt_chan _ _ _ _ (by rw [rowLoop_length]; omega) hc,
        rowLoop_untouched _ _ _ _ _ (by omega), rowLoop_untouched _ _ _ _ _ (by omega),
        rowLoop_untouched _ _ _ _ _ (by omega)]

theorem forEachPixel_succ (body : Buf → Nat → Buf) (w k stride : Nat) (d : Buf) :
    forEachPixel body w (k + 1) stride d
      = (List.range w).foldl (fun d x => body d (u32 (k * stride) + 4 * x))
          (forEachPixel body w k stride d) := by
  simp [forEachPixel, List.range_succ, List.foldl_append]

theorem forEachPixel_length (f : Byte → Byte → Byte → Byte × Byte × Byte) (w k stride : Nat)
    (d : Buf) : (forEachPixel (applyAt f) w k stride d).length = d.length := by
  induction k with
  | zero => rfl
  | succ k ih => rw [forEachPixel_succ, rowLoop_length, ih]

theorem forEachPixel_id (body : Buf → Nat → Buf) (hb : ∀ d p, body d p = d) (w k stride : Nat)
    (d : Buf) : forEachPixel body w k stride d = d := by
  have hrow : ∀ (base n : Nat) (d : Buf),
      (List.range n).foldl (fun d x => body d (base + 4 * x)) d = d := by
    intro base n d
    induction n with
    | zero => rfl
    | succ n ih => rw [List.range_succ, List.foldl_append, List.foldl_cons, List.foldl_nil, ih, hb]
  induction k with
  | zero => rfl
  | succ k ih => rw [forEachPixel_succ, hrow, ih]

theorem forEachPixel_untouched (f : Byte → Byte → Byte → Byte × Byte × Byte) (w stride k : Nat)
    (d : Buf) (i : Nat) (hk : stride * k < 4294967296)
    (h : ∀ y, y < k → ¬ (y * stride ≤ i ∧ i < y * stride + 4 * w ∧ (i - y * stride) % 4 < 3)) :
    rd (forEachPixel (applyAt f) w k stride d) i = rd d i := by
  induction k with
  | zero => rfl
  | succ k ih =>
    have e1 : stride * (k + 1) = k * stride + stride := by ring
    have e2 : stride * k = k * stride := by ring
    have hu : u32 (k * stride) = k * stride := Nat.mod_eq_of_lt (by omega)
    rw [forEachPixel_succ, hu, rowLoop_untouched _ _ _ _ _ (h k (by omega))]
    exact ih (by omega) (fun y hy => h y (by omega))

theorem forEachPixel_pixel (f : Byte → Byte → Byte → Byte × Byte × Byte) (w stride k : Nat)
    (d : Buf) (hs : 4 * w ≤ stride) (hlen : stride * k ≤ d.length)
    (hk : stride * k < 4294967296) (x y c : Nat) (hx : x < w) (hy : y < k) (hc : c < 3) :
    rd (forEachPixel (applyAt f) w k stride d) (y * stride + 4 * x + c)
      = chan c (f (rd d (y * stride + 4 * x)) (rd d (y * stride + 4 * x + 1))
          (rd d (y * stride + 4 * x + 2))) := by
  induction k with
  | zero => omega
  | succ k ih =>
    have e1 : stride * (k + 1) = k * stride + stride := by ring
    have e2 : stride * k = k * stride := by ring
    have hu : u32 (k * stride) = k * stride := Nat.mod_eq_of_lt (by omega)
    rw [forEachPixel_succ, hu]
    by_cases hyk : y < k
    · have e3 : (y + 1) * stride ≤ k * stride := Nat.mul_le_mul_right stride hyk
      rw [Nat.succ_mul] at e3
      rw [rowLoop_untouched _ _ _ _ _ (by omega)]
      exact ih (by omega) (by omega) hyk
    · have hyk2 : y = k := by omega
      subst hyk2
      have hsep : ∀ j, y * stride ≤ j → ∀ y2, y2 < y →
          ¬ (y2 * stride ≤ j ∧ j < y2 * stride + 4 * w ∧ (j - y2 * stride) % 4 < 3) := by
        intro j hj y2 hy2
        have e3 : (y2 + 1) * stride ≤ y * stride := Nat.mul_le_mul_right stride hy2
        rw [Nat.succ_mul] at e3
        omega
      rw [rowLoop_pixel _ _ _ _ (by rw [forEachPixel_length]; omega) _ _ hx hc,
        forEachPixel_untouched _ _ _ _ _ _ (by omega) (hsep _ (by omega)),
        forEachPixel_untouched _ _ _ _ _ _ (by omega) (hsep _ (by omega)),
        forEachPixel_untouched _ _ _ _ _ _ (by omega) (hsep _ (by omega))]

theorem forEachPixel_alpha (f : Byte → Byte → Byte → Byte × Byte × Byte) (w stride k : Nat)
    (d : Buf) (hs : 4 * w ≤ stride) (hk : stride * k < 4294967296) (x y : Nat) (hx : x < w)
    (hy : y < k) :
    rd (forEachPixel (applyAt f) w k stride d) (y * stride + 4 * x + 3)
      = rd d (y * stride + 4 * x + 3) := by
  apply forEachPixel_untouched _ _ _ _ _ _ hk
  intro y2 hy2
  rcases Nat.lt_trichotomy y2 y with h | h | h
  · have e3 : (y2 + 1) * stride ≤ y * stride := Nat.mul_le_mul_right stride h
    rw [Nat.succ_mul] at e3
    omega
  · subst h
    omega
  · have e3 : (y + 1) * stride ≤ y2 * stride := Nat.mul_le_mul_right stride h
    rw [Nat.succ_mul] at e3
    omega

/-! ## The grayscale filter -/

/-- C6, as stated, fails: on the 1x1 frame whose pixel has B = G = R = 37 the grayscale
filter stores 36 in the three colour bytes, while the exact value of
`0.299*37 + 0.587*37 + 0.114*37` is 37, whose truncation is 37. -/
theorem ApplyImageFilter_grayscale_not_exact :
    (ApplyImageFilter (withFilter "grayscale") (bytes [37, 37, 37, 255]) 1 1 4).2
      = bytes [36, 36, 36, 255] ∧
    lumaExact 37 37 37 = 37 ∧
    rd (ApplyImageFilter (withFilter "grayscale") (bytes [37, 37, 37, 255]) 1 1 4).2 2
      ≠ byteOfNat (lumaExact 37 37 37) := by
  decide!

/-- C6, amended: after `ApplyImageFilter` with the filter "grayscale" or "blackandwhite",
every pixel of the frame has equal B, G and R bytes, each the truncation of
`0.299f*R + 0.587f*G + 0.114f*B` of the input pixel evaluated in single precision
(`grayValue`), and its alpha byte is unchanged. -/
theorem ApplyImageFilter_grayscale_pixels (s : CameraManager) (data : Buf)
    (width height stride : Nat)
    (hf : s.current_adjustments_.filter = "grayscale" ∨
      s.current_adjustments_.filter = "blackandwhite")
    (hl : FrameLayout data width height stride) (x y : Nat) (hx : x < width) (hy : y < height) :
    rd (ApplyImageFilter s data width height stride).2 (y * stride + 4 * x)
      = grayValue (rd data (y * stride + 4 * x)) (rd data (y * stride + 4 * x + 1))
          (rd data (y * stride + 4 * x + 2)) ∧
    rd (ApplyImageFilter s data width height stride).2 (y * stride + 4 * x + 1)
      = rd (ApplyImageFilter s data width height stride).2 (y * stride + 4 * x) ∧
    rd (ApplyImageFilter s data width height stride).2 (y * stride + 4 * x + 2)
      = rd (ApplyImageFilter s data width height stride).2 (y * stride + 4 * x) ∧
    rd (ApplyImageFilter s data width height stride).2 (y * stride + 4 * x + 3)
      = rd data (y * stride + 4 * x + 3) := by
  obtain ⟨_, _, h4, hlen, hsz⟩ := hl
  have hrun : (ApplyImageFilter s data width height stride).2
      = forEachPixel grayscaleAt width height stride data := by
    unfold ApplyImageFilter
    rcases hf with h | h <;> simp [h]
  rw [hrun, grayscaleAt_eq]
  have h0 := forEachPixel_pixel (fun b g r => (grayValue b g r, grayValue b g r, grayValue b g r))
    width stride height data h4 hlen hsz x y 0 hx hy (by omega)
  have h1 := forEachPixel_pixel (fun b g r => (grayValue b g r, grayValue b g r, grayValue b g r))
    width stride height data h4 hlen hsz x y 1 hx hy (by omega)
  have h2 := forEachPixel_pixel (fun b g r => (grayValue b g r, grayValue b g r, grayValue b g r))
    width stride height data h4 hlen hsz x y 2 hx hy (by omega)
  have h3 := forEachPixel_alpha (fun b g r => (grayValue b g r, grayValue b g r, grayValue b g r))
    width stride height data h4 hsz x y hx hy
  rw [Nat.add_zero] at h0
  exact ⟨h0, by rw [h1, h0]; rfl, by rw [h2, h0]; rfl, h3⟩

theorem ApplyImageFilter_grayscale_pixels_witness :
    rd (ApplyImageFilter (withFilter "grayscale") (bytes [30, 20, 10, 255]) 1 1 4).2 0
      = grayValue 30 20 10 :=
  (ApplyImageFilter_grayscale_pixels (withFilter "grayscale") (bytes [30, 20, 10, 255]) 1 1 4
    (Or.inl rfl) (by decide) 0 0 (by decide) (by decide)).1

/-! ## The invert filter behind the whole software path -/

/-- C7: at zoom 1.0, with neutral numeric adjustments and the filter "inverted",
`ApplyImageAdjustmentsSoftware` returns true and turns every pixel (B, G, R, A) of the
frame into (255-B, 255-G, 255-R, A); so the pixel with R, G, B = (10, 20, 30) becomes
R, G, B = (245, 235, 225) and keeps its alpha. -/
theorem ApplyImageAdjustmentsSoftware_inverted_pixels (L : LibM) (s : CameraManager)
    (data : Buf) (width height stride : Nat)
    (hz : s.current_zoom_level_ = Flt.fin 1)
    (hn : s.current_adjustments_.NeutralTone)
    (hf : s.current_adjustments_.filter = "inverted")
    (hl : FrameLayout data width height stride) :
    (ApplyImageAdjustmentsSoftware L s data width height stride).1 = true ∧
    (∀ x y, x < width → y < height →
      ∀ out, out = (ApplyImageAdjustmentsSoftware L s data width height stride).2 →
      (rd out (y * stride + 4 * x)).val = 255 - (rd data (y * stride + 4 * x)).val ∧
      (rd out (y * stride + 4 * x + 1)).val = 255 - (rd data (y * stride + 4 * x + 1)).val ∧
      (rd out (y * stride + 4 * x + 2)).val = 255 - (rd data (y * stride + 4 * x + 2)).val ∧
      rd out (y * stride + 4 * x + 3) = rd data (y * stride + 4 * x + 3)) ∧
    (∀ x y, x < width → y < height →
      rd data (y * stride + 4 * x) = 30 → rd data (y * stride + 4 * x + 1) = 20 →
      rd data (y * stride + 4 * x + 2) = 10 →
      ∀ out, out = (ApplyImageAdjustmentsSoftware L s data width height stride).2 →
      rd out (y * stride + 4 * x + 2) = 245 ∧ rd out (y * stride + 4 * x + 1) = 235 ∧
      rd out (y * stride + 4 * x) = 225 ∧
      rd out (y * stride + 4 * x + 3) = rd data (y * stride + 4 * x + 3)) := by
  obtain ⟨h1, h2, h3, h4, h5⟩ := hn
  obtain ⟨hw, hh, hs4, hlen, hsz⟩ := hl
  have hzoom : Flt.lt (f64 (101 / 100)) (Flt.fin 1) = false := by decide!
  have hinv : ∀ v : Byte, (invertByte v).val = 255 - v.val := by
    intro v
    simp only [invertByte, byteOfNat]
    omega
  have hrun : ApplyImageAdjustmentsSoftware L s data width height stride
      = (true, forEachPixel invertAt width height stride data) := by
    have htone : forEachPixel (toneAt (fmul (Flt.fin 0) (f32 255)) (fadd (Flt.fin 0) (f32 1))
        (fadd (Flt.fin 0) (f32 1)) (L.powf (f32 2) (Flt.fin 0)) (Flt.fin 1))
        width height stride data = data :=
      forEachPixel_id _ (fun d p => by
        rw [toneAt_eq]; exact applyAt_id _ (tonePixel_neutral L) d p) _ _ _ _
    unfold ApplyImageAdjustmentsSoftware
    rw [if_neg (by omega), hz, hzoom]
    simp [h1, h2, h3, h4, h5, hf, ApplyImageFilter, htone]
  have hpix : ∀ x y, x < width → y < height →
      ∀ out, out = (ApplyImageAdjustmentsSoftware L s data width height stride).2 →
      (rd out (y * stride + 4 * x)).val = 255 - (rd data (y * stride + 4 * x)).val ∧
      (rd out (y * stride + 4 * x + 1)).val = 255 - (rd data (y * stride + 4 * x + 1)).val ∧
      (rd out (y * stride + 4 * x + 2)).val = 255 - (rd data (y * stride + 4 * x + 2)).val ∧
      rd out (y * stride + 4 * x + 3) = rd data (y * stride + 4 * x + 3) := by
    intro x y hx hy out hout
    rw [hout, hrun, invertAt_eq]
    have p0 := forEachPixel_pixel (fun b g r => (invertByte b, invertByte g, invertByte r))
      width stride height data hs4 hlen hsz x y 0 hx hy (by omega)
    have p1 := forEachPixel_pixel (fun b g r => (invertByte b, invertByte g, invertByte r))
      width stride height data hs4 hlen hsz x y 1 hx hy (by omega)
    have p2 := forEachPixel_pixel (fun b g r => (invertByte b, invertByte g, invertByte r))
      width stride height data hs4 hlen hsz x y 2 hx hy (by omega)
    have p3 := forEachPixel_alpha (fun b g r => (invertByte b, invertByte g, invertByte r))
      width stride height data hs4 hsz x y hx hy
    rw [Nat.add_zero] at p0
    refine ⟨?_, ?_, ?_, p3⟩
    · rw [p0]; exact hinv _
    · rw [p1]; exact hinv _
    · rw [p2]; exact hinv _
  refine ⟨by rw [hrun], hpix, ?_⟩
  intro x y hx hy d0 d1 d2 out hout
  obtain ⟨q0, q1, q2, q3⟩ := hpix x y hx hy out hout
  rw [d0] at q0
  rw [d1] at q1
  rw [d2] at q2
  exact ⟨Fin.ext q2, Fin.ext q1, Fin.ext q0, q3⟩

theorem ApplyImageAdjustmentsSoftware_inverted_pixels_witness :
    (ApplyImageAdjustmentsSoftware LibM.sample (withFilter "inverted")
      (bytes [30, 20, 10, 255]) 1 1 4).1 = true ∧
    rd (ApplyImageAdjustmentsSoftware LibM.sample (withFilter "inverted")
      (bytes [30, 20, 10, 255]) 1 1 4).2 2 = 245 :=
  ⟨(ApplyImageAdjustmentsSoftware_inverted_pixels LibM.sample (withFilter "inverted")
      (bytes [30, 20, 10, 255]) 1 1 4 rfl ⟨rfl, rfl, rfl, rfl, rfl⟩ rfl (by decide)).1,
   ((ApplyImageAdjustmentsSoftware_inverted_pixels LibM.sample (withFilter "inverted")
      (bytes [30, 20, 10, 255]) 1 1 4 rfl ⟨rfl, rfl, rfl, rfl, rfl⟩ rfl (by decide)).2.2
      0 0 (by decide) (by decide) (by decide) (by decide) (by decide) _ rfl).1⟩

/-! ## The controller on slow samples -/

/-- C13: a fresh controller (interval 33 ms, empty window, counter 0) fed samples equal to
twice its target does nothing but fill the window for four samples, evaluates from the fifth
sample on, keeps the interval at 33 ms through the first two slow evaluations (counter 1,
then 2), and at the third slow evaluation sets the interval to 39 ms (1.2 x 33 truncated),
the counter to 0 and the window to empty. -/
theorem TrackProcessingTime_three_slow_evaluations :
    freshManager.frame_interval_ = 33 ∧ freshManager.processing_times_ = [] ∧
    freshManager.consecutive_slow_frames_ = 0 ∧
    controllerTrace freshManager (List.replicate 7 doubleTargetSample)
      = [(33, 0, 1), (33, 0, 2), (33, 0, 3), (33, 0, 4), (33, 1, 5), (33, 2, 6), (39, 0, 0)] ∧
    (Flt.mul binary64 (f64 33) (f64 (12 / 10))).truncInt = 39 := by
  decide!

/-! ## Clamp -/

theorem clampField_of_inRange (lo hi : ℚ) (x : Flt) (h : x.inRange lo hi) :
    ImageAdjustments.clampField (Flt.fin lo) (Flt.fin hi) x = x := by
  cases x with
  | nan => exact absurd h (by simp [Flt.inRange])
  | pinf => exact absurd h (by simp [Flt.inRange])
  | ninf => exact absurd h (by simp [Flt.inRange])
  | fin q =>
    obtain ⟨h1, h2⟩ := h
    unfold ImageAdjustments.clampField Flt.stdMin Flt.stdMax
    rcases lt_or_eq_of_le h2 with h3 | h3
    · rcases lt_or_eq_of_le h1 with h4 | h4
      · simp [Flt.lt, h3, h4]
      · simp [Flt.lt, h3, h4]
    · subst h3
      rcases lt_or_eq_of_le h1 with h4 | h4
      · simp [Flt.lt, h4]
      · simp [Flt.lt, h4]

/-- C18: `Clamp` is idempotent, `Clamp (Clamp a) = Clamp a` for every `a`; it is the
identity on adjustments whose numeric fields are already in range; and it never changes the
filter name or the use-hardware flag. -/
theorem Clamp_idempotent (a : ImageAdjustments) :
    a.Clamp.Clamp = a.Clamp ∧ (a.InRange → a.Clamp = a) ∧
    a.Clamp.filter = a.filter ∧
    a.Clamp.use_hardware_acceleration = a.use_hardware_acceleration := by
  have hid : ∀ b : ImageAdjustments, b.InRange → b.Clamp = b := by
    intro b hb
    obtain ⟨h1, h2, h3, h4, h5, h6⟩ := hb
    cases b
    simp only [ImageAdjustments.Clamp, f32_zero, f32_one, f32_neg_one, f32_two] at *
    rw [clampField_of_inRange _ _ _ h1, clampField_of_inRange _ _ _ h2,
      clampField_of_inRange _ _ _ h3, clampField_of_inRange _ _ _ h4,
      clampField_of_inRange _ _ _ h5, clampField_of_inRange _ _ _ h6]
  have hrange : a.Clamp.InRange := by
    simp only [ImageAdjustments.InRange, ImageAdjustments.Clamp, f32_zero, f32_one,
      f32_neg_one, f32_two]
    exact ⟨clampField_inRange _ _ (by norm_num) _, clampField_inRange _ _ (by norm_num) _,
      clampField_inRange _ _ (by norm_num) _, clampField_inRange _ _ (by norm_num) _,
      clampField_inRange _ _ (by norm_num) _, clampField_inRange _ _ (by norm_num) _⟩
  exact ⟨hid _ hrange, hid a, rfl, rfl⟩

theorem Clamp_idempotent_witness :
    ({ brightness := Flt.fin (1 / 2), gain := Flt.fin 2 } : ImageAdjustments).Clamp
      = { brightness := Flt.fin (1 / 2), gain := Flt.fin 2 } :=
  (Clamp_idempotent { brightness := Flt.fin (1 / 2), gain := Flt.fin 2 }).2.1
    (by simp [ImageAdjustments.InRange, Flt.inRange]; norm_num)

/-! ## Unknown filter names -/

/-- C20: for a filter name that is not empty and is none of "grayscale", "blackandwhite",
"sepia", "inverted", "negative", `ApplyImageFilter` returns true and hands back the buffer
unchanged; and at zoom 1.0 with neutral numeric adjustments the whole
`ApplyImageAdjustmentsSoftware` call with such a filter hands back the buffer unchanged
(returning true on every non-empty frame). -/
theorem ApplyImageFilter_unknown_noop (L : LibM) (s : CameraManager) (data : Buf)
    (width height stride : Nat) (hf : UnknownFilter s.current_adjustments_.filter) :
    ApplyImageFilter s data width height stride = (true, data) ∧
    (s.current_zoom_level_ = Flt.fin 1 → s.current_adjustments_.NeutralTone →
      (ApplyImageAdjustmentsSoftware L s data width height stride).2 = data ∧
      (0 < width → 0 < height → 0 < stride →
        (ApplyImageAdjustmentsSoftware L s data width height stride).1 = true)) := by
  obtain ⟨f0, f1, f2, f3, f4, f5⟩ := hf
  have hfilter : ∀ d : Buf, ApplyImageFilter s d width height stride = (true, d) := by
    intro d
    simp [ApplyImageFilter, f1, f2, f3, f4, f5]
  refine ⟨hfilter data, ?_⟩
  intro hz hn
  obtain ⟨h1, h2, h3, h4, h5⟩ := hn
  have hzoom : Flt.lt (f64 (101 / 100)) (Flt.fin 1) = false := by decide!
  have htone : forEachPixel (toneAt (fmul (Flt.fin 0) (f32 255)) (fadd (Flt.fin 0) (f32 1))
      (fadd (Flt.fin 0) (f32 1)) (L.powf (f32 2) (Flt.fin 0)) (Flt.fin 1))
      width height stride data = data :=
    forEachPixel_id _ (fun d p => by
      rw [toneAt_eq]; exact applyAt_id _ (tonePixel_neutral L) d p) _ _ _ _
  by_cases hdim : width = 0 ∨ height = 0 ∨ stride = 0
  · refine ⟨by simp [ApplyImageAdjustmentsSoftware, hdim], ?_⟩
    intro hw hh hs
    omega
  · have hrun : ApplyImageAdjustmentsSoftware L s data width height stride = (true, data) := by
      unfold ApplyImageAdjustmentsSoftware
      rw [if_neg hdim, hz, hzoom]
      simp [h1, h2, h3, h4, h5, f0, htone, hfilter]
    exact ⟨by rw [hrun], fun _ _ _ => by rw [hrun]⟩

theorem ApplyImageFilter_unknown_noop_witness :
    ApplyImageFilter (withFilter "vivid") (bytes [30, 20, 10, 255]) 1 1 4
      = (true, bytes [30, 20, 10, 255]) ∧
    (ApplyImageAdjustmentsSoftware LibM.sample (withFilter "vivid")
      (bytes [30, 20, 10, 255]) 1 1 4).2 = bytes [30, 20, 10, 255] :=
  ⟨(ApplyImageFilter_unknown_noop LibM.sample (withFilter "vivid")
      (bytes [30, 20, 10, 255]) 1 1 4 (by decide)).1,
   ((ApplyImageFilter_unknown_noop LibM.sample (withFilter "vivid")
      (bytes [30, 20, 10, 255]) 1 1 4 (by decide)).2 rfl ⟨rfl, rfl, rfl, rfl, rfl⟩).1⟩

/-! ## Alpha bytes and buffer size through the software path -/

theorem sepiaAt_eq : sepiaAt = applyAt sepiaPixel := rfl

theorem filter_body_cases (s : CameraManager) (d : Buf) (width height stride : Nat) :
    (ApplyImageFilter s d width height stride).2 = d ∨
    ∃ f, (ApplyImageFilter s d width height stride).2
      = forEachPixel (applyAt f) width height stride d := by
  unfold ApplyImageFilter
  dsimp only
  split_ifs
  · exact Or.inr ⟨_, by rw [grayscaleAt_eq]⟩
  · exact Or.inr ⟨_, by rw [sepiaAt_eq]⟩
  · exact Or.inr ⟨_, by rw [invertAt_eq]⟩
  · exact Or.inl rfl

theorem software_tone_filter_cases (L : LibM) (s : CameraManager) (d : Buf)
    (width height stride : Nat) (hz : Flt.lt (f64 (101 / 100)) s.current_zoom_level_ = false) :
    (ApplyImageAdjustmentsSoftware L s d width height stride).2 = d ∨
    (∃ f, (ApplyImageAdjustmentsSoftware L s d width height stride).2
      = forEachPixel (applyAt f) width height stride d) ∨
    (∃ f g, (ApplyImageAdjustmentsSoftware L s d width height stride).2
      = forEachPixel (applyAt g) width height stride
          (forEachPixel (applyAt f) width height stride d)) := by
  unfold ApplyImageAdjustmentsSoftware
  simp only [hz, Bool.false_eq_true, if_false, toneAt_eq]
  by_cases h1 : width = 0 ∨ height = 0 ∨ stride = 0
  · rw [if_pos h1]
    exact Or.inl rfl
  rw [if_neg h1]
  split_ifs with h2 h3
  · exact Or.inl rfl
  · rcases filter_body_cases s (forEachPixel (applyAt (tonePixel
        (fmul s.current_adjustments_.brightness (f32 255))
        (fadd s.current_adjustments_.contrast (f32 1))
        (fadd s.current_adjustments_.saturation (f32 1))
        (L.powf (f32 2) s.current_adjustments_.exposure)
        s.current_adjustments_.gain)) width height stride d) width height stride with h | ⟨g, h⟩
    · exact Or.inr (Or.inl ⟨_, h⟩)
    · exact Or.inr (Or.inr ⟨_, g, h⟩)
  · exact Or.inr (Or.inl ⟨_, rfl⟩)

/-- C19: when the zoom block is not entered (zoom level at most 1.01), then for every
brightness, contrast, saturation, exposure, gain and filter name,
`ApplyImageAdjustmentsSoftware` leaves the alpha byte (byte 3) of every pixel of the frame
equal to its input value. -/
theorem ApplyImageAdjustmentsSoftware_alpha_unchanged (L : LibM) (s : CameraManager)
    (data : Buf) (width height stride : Nat) (hl : FrameLayout data width height stride)
    (hz : Flt.lt (f64 (101 / 100)) s.current_zoom_level_ = false)
    (x y : Nat) (hx : x < width) (hy : y < height) :
    rd (ApplyImageAdjustmentsSoftware L s data width height stride).2 (y * stride + 4 * x + 3)
      = rd data (y * stride + 4 * x + 3) := by
  obtain ⟨_, _, h4, _, hsz⟩ := hl
  rcases software_tone_filter_cases L s data width height stride hz with h | ⟨f, h⟩ | ⟨f, g, h⟩
  · rw [h]
  · rw [h, forEachPixel_alpha f width stride height data h4 hsz x y hx hy]
  · rw [h, forEachPixel_alpha g width stride height _ h4 hsz x y hx hy,
      forEachPixel_alpha f width stride height data h4 hsz x y hx hy]

theorem ApplyImageAdjustmentsSoftware_alpha_unchanged_witness :
    rd (ApplyImageAdjustmentsSoftware LibM.sample (withFilter "sepia")
      (bytes [30, 20, 10, 255]) 1 1 4).2 3 = rd (bytes [30, 20, 10, 255]) 3 :=
  ApplyImageAdjustmentsSoftware_alpha_unchanged LibM.sample (withFilter "sepia")
    (bytes [30, 20, 10, 255]) 1 1 4 (by decide) (by decide!) 0 0 (by decide) (by decide)

theorem foldl_length_preserving {α : Type} (f : Buf → α → Buf)
    (hf : ∀ d a, (f d a).length = d.length) (l : List α) (d : Buf) :
    (l.foldl f d).length = d.length := by
  induction l generalizing d with
  | nil => rfl
  | cons a l ih => rw [List.foldl_cons, ih, hf]

theorem zoomPixel_length (temp : Buf) (w h stride cx cy cw ch : Nat) (d : Buf) (y x : Nat) :
    (zoomPixel temp w h stride cx cy cw ch d y x).length = d.length := by
  unfold zoomPixel
  dsimp only
  split_ifs
  · rfl
  · simp only [length_wr]

theorem zoomStage_length (z : Flt) (d : Buf) (w h stride : Nat) :
    (zoomStage z d w h stride).length = d.length := by
  unfold zoomStage
  dsimp only
  rw [foldl_length_preserving _ (fun d y => foldl_length_preserving _
    (fun d x => zoomPixel_length _ _ _ _ _ _ _ _ d y x) _ d)]
  exact foldl_length_preserving _ (fun d i => length_wr d i 0) _ d

theorem ApplyImageFilter_length (s : CameraManager) (d : Buf) (width height stride : Nat) :
    (ApplyImageFilter s d width height stride).2.length = d.length := by
  rcases filter_body_cases s d width height stride with h | ⟨f, h⟩
  · rw [h]
  · rw [h, forEachPixel_length]

/-- C17: for every zoom level (in particular every Z > 1), every adjustment setting and
every frame of width w, height h and stride s, `ApplyImageAdjustmentsSoftware` works on the
buffer it is given and hands it back with the size it had; the dimensions w, h and s are
inputs the function cannot change, so a frame of s*h bytes comes back as a frame of the same
w, h, s and exactly s*h bytes. -/
theorem ApplyImageAdjustmentsSoftware_same_size (L : LibM) (s : CameraManager) (data : Buf)
    (width height stride : Nat) :
    (ApplyImageAdjustmentsSoftware L s data width height stride).2.length = data.length ∧
    (data.length = stride * height →
      (ApplyImageAdjustmentsSoftware L s data width height stride).2.length
        = stride * height) := by
  have hlen : (ApplyImageAdjustmentsSoftware L s data width height stride).2.length
      = data.length := by
    have hz : (if Flt.lt (f64 (101 / 100)) s.current_zoom_level_ = true then
        zoomStage s.current_zoom_level_ data width height stride else data).length
        = data.length := by
      split_ifs
      · exact zoomStage_length _ _ _ _ _
      · rfl
    unfold ApplyImageAdjustmentsSoftware
    simp only [toneAt_eq]
    generalize (if Flt.lt (f64 (101 / 100)) s.current_zoom_level_ = true then
        zoomStage s.current_zoom_level_ data width height stride else data) = d at hz ⊢
    by_cases h1 : width = 0 ∨ height = 0 ∨ stride = 0
    · rw [if_pos h1]
    rw [if_neg h1]
    split_ifs
    · exact hz
    · show (ApplyImageFilter s _ width height stride).2.length = _
      rw [ApplyImageFilter_length, forEachPixel_length, hz]
    · show (forEachPixel _ width height stride d).length = _
      rw [forEachPixel_length, hz]
  exact ⟨hlen, fun h => by rw [hlen, h]⟩

theorem ApplyImageAdjustmentsSoftware_same_size_witness :
    (ApplyImageAdjustmentsSoftware LibM.sample
      { freshManager with current_zoom_level_ := Flt.fin 2 }
      (bytes [1, 2, 3, 4, 5, 6, 7, 8, 9, 10, 11, 12, 13, 14, 15, 16]) 2 2 8).2.length = 8 * 2 :=
  (ApplyImageAdjustmentsSoftware_same_size LibM.sample
    { freshManager with current_zoom_level_ := Flt.fin 2 }
    (bytes [1, 2, 3, 4, 5, 6, 7, 8, 9, 10, 11, 12, 13, 14, 15, 16]) 2 2 8).2 (by decide)

/-! ## Fields the operations leave alone -/

theorem TrackProcessingTime_keeps (s : CameraManager) (t : Flt) :
    (TrackProcessingTime s t).frame_ring_buffer_ = s.frame_ring_buffer_ ∧
    (TrackProcessingTime s t).current_adjustments_ = s.current_adjustments_ := by
  unfold TrackProcessingTime AdaptQualityDown TryAdaptQualityUp
  dsimp only
  split_ifs <;> exact ⟨rfl, rfl⟩

theorem ApplyImageAdjustments_keeps (L : LibM) (d3d : D3DResults) (s : CameraManager)
    (d : Buf) (w h st : Nat) :
    (ApplyImageAdjustments L d3d s d w h st).2.2.frame_ring_buffer_ = s.frame_ring_buffer_ ∧
    (ApplyImageAdjustments L d3d s d w h st).2.2.current_adjustments_
      = s.current_adjustments_ := by
  unfold ApplyImageAdjustments ApplyImageAdjustmentsHardware
  split_ifs <;> exact ⟨rfl, rfl⟩

theorem ProcessFrame_keeps (L : LibM) (io : SampleIO) (s : CameraManager) :
    (ProcessFrame L io s).2.frame_ring_buffer_ = s.frame_ring_buffer_ ∧
    (ProcessFrame L io s).2.current_adjustments_ = s.current_adjustments_ := by
  unfold ProcessFrame
  dsimp only
  split_ifs <;> first | exact ⟨rfl, rfl⟩ | exact ApplyImageAdjustments_keeps _ _ _ _ _ _ _

theorem workerRuns_keeps (L : LibM) (arrivals : List SampleIO) (s : CameraManager) :
    (workerRuns L arrivals s).frame_ring_buffer_ = s.frame_ring_buffer_ ∧
    (workerRuns L arrivals s).current_adjustments_ = s.current_adjustments_ := by
  unfold workerRuns
  induction arrivals generalizing s with
  | nil => exact ⟨rfl, rfl⟩
  | cons a l ih =>
    rw [List.foldl_cons]
    obtain ⟨h1, h2⟩ := ih (ProcessFrame L a s).2
    obtain ⟨h3, h4⟩ := ProcessFrame_keeps L a s
    exact ⟨h1.trans h3, h2.trans h4⟩

/-! ## CaptureFrameWithAdjustments -/

/-- The exception path of `CaptureFrameWithAdjustments` lies outside the reachable states:
it needs a frame in the ring, and no operation stores one (`Reachable_ring_empty`). On a
state built by hand, an active session whose ring holds a 1x1 frame without pixel data, with
the lock obtained and `force_capture` false, the call ends by the exception of the second
`lock.unlock()` and `current_adjustments_` is left at the caller's value. -/
theorem CaptureFrameWithAdjustments_undersized_not_restored :
    (CaptureFrameWithAdjustments LibM.sample quietIO undersizedRingManager brighter
      false).threw = true ∧
    (CaptureFrameWithAdjustments LibM.sample quietIO undersizedRingManager brighter
      false).state.current_adjustments_ = brighter ∧
    (CaptureFrameWithAdjustments LibM.sample quietIO undersizedRingManager brighter
      false).state.current_adjustments_ ≠ undersizedRingManager.current_adjustments_ := by
  decide!

/-! ## The frame ring in reachable states -/

theorem StopCameraSession_ring (s : CameraManager) :
    (StopCameraSession s).2.frame_ring_buffer_ = s.frame_ring_buffer_ := by
  unfold StopCameraSession
  dsimp only
  split_ifs <;> rfl

/-- What `StartCameraSession` does on a manager whose session is not active: it fails and
leaves the state unchanged, or fails and leaves it without reader, or succeeds with a
running session on the requested camera. -/
theorem StartCameraSession_inactive_shape (mf : MFResults) (t : CameraManager)
    (camera_id : String) (h1 : t.session_active_ = false) :
    StartCameraSession mf t camera_id = (false, t) ∨
    StartCameraSession mf t camera_id = (false, { t with source_reader_ := false }) ∨
    StartCameraSession mf t camera_id
      = (true,
          { t with
            source_reader_ := true, current_camera_id_ := camera_id, session_active_ := true,
            thread_running_ := true, capture_thread_ := true }) := by
  have hs : (if t.session_active_ = true then (StopCameraSession t).2 else t) = t := by
    simp [h1]
  unfold StartCameraSession
  simp only [hs]
  generalize (if (if mf.SetGUID_major = true then mf.SetGUID_subtype else mf.SetGUID_major) = true
    then mf.SetCurrentMediaType
    else if mf.SetGUID_major = true then mf.SetGUID_subtype else mf.SetGUID_major) = hr
  by_cases c1 : t.mf_initialized_ = false
  · rw [if_pos c1]
    exact Or.inl rfl
  rw [if_neg c1]
  by_cases c2 : (t.devices_.any fun device => decide (device.id = camera_id)) = false
  · rw [if_pos c2]
    exact Or.inl rfl
  rw [if_neg c2]
  by_cases c3 : mf.MFCreateAttributes = false
  · rw [if_pos c3]
    exact Or.inl rfl
  rw [if_neg c3]
  by_cases c4 : mf.SetUINT32 = false
  · rw [if_pos c4]
    exact Or.inl rfl
  rw [if_neg c4]
  by_cases c5 : mf.MFCreateDeviceSource = false
  · rw [if_pos c5]
    exact Or.inl rfl
  rw [if_neg c5]
  by_cases c6 : mf.MFCreateSourceReaderFromMediaSource = false
  · rw [if_pos c6, c6]
    exact Or.inr (Or.inl rfl)
  rw [if_neg c6]
  by_cases c7 : mf.MFCreateMediaType = false
  · rw [if_pos c7]
    exact Or.inr (Or.inl rfl)
  rw [if_neg c7]
  by_cases c8 : hr = false
  · rw [if_pos c8]
    exact Or.inr (Or.inl rfl)
  have c6t : mf.MFCreateSourceReaderFromMediaSource = true := by
    cases hm : mf.MFCreateSourceReaderFromMediaSource
    · exact absurd hm c6
    · rfl
  rw [if_neg c8, c6t]
  exact Or.inr (Or.inr rfl)

theorem StartCameraSession_ring (mf : MFResults) (s : CameraManager) (camera_id : String) :
    (StartCameraSession mf s camera_id).2.frame_ring_buffer_ = s.frame_ring_buffer_ := by
  have hidle : ∀ t : CameraManager, t.session_active_ = false →
      (StartCameraSession mf t camera_id).2.frame_ring_buffer_ = t.frame_ring_buffer_ := by
    intro t ht
    rcases StartCameraSession_inactive_shape mf t camera_id ht with h | h | h <;> rw [h]
  cases ha : s.session_active_
  · exact hidle s ha
  · rw [StartCameraSession_of_active mf s camera_id ha,
      hidle _ (StopCameraSession_of_active s ha).1.1, StopCameraSession_ring]

theorem StartCameraSessionWithConfig_ring (mf : MFResults) (s : CameraManager)
    (camera_id : String) (resolution : CameraResolution) (adjustments : ImageAdjustments) :
    (StartCameraSessionWithConfig mf s camera_id resolution adjustments
      ).2.frame_ring_buffer_ = s.frame_ring_buffer_ := by
  unfold StartCameraSessionWithConfig
  dsimp only
  rw [StartCameraSession_ring]
  exact StopCameraSession_ring s

theorem CaptureFrame_ring (L : LibM) (io : CaptureIO) (s : CameraManager)
    (force_capture : Bool) :
    (CaptureFrame L io s force_capture).state.frame_ring_buffer_ = s.frame_ring_buffer_ := by
  unfold CaptureFrame
  dsimp only
  by_cases c1 : s.session_active_ = false ∨ s.source_reader_ = false
  · rw [if_pos c1]
  rw [if_neg c1]
  by_cases c2 : io.try_lock_for = false
  · rw [if_pos c2]
  rw [if_neg c2]
  cases freshFrame io s force_capture with
  | some latest_frame => rfl
  | none =>
    dsimp only
    have hw := (workerRuns_keeps L io.arrivals { s with new_frame_available_ := false }).1
    by_cases c4 : (workerRuns L io.arrivals
        { s with new_frame_available_ := false }).new_frame_available_ = false
    · rw [if_pos c4]
      exact hw
    rw [if_neg c4]
    cases (workerRuns L io.arrivals
        { s with new_frame_available_ := false }).frame_ring_buffer_.getLast? with
    | none => exact hw
    | some latest_frame => exact ((TrackProcessingTime_keeps _ _).1).trans hw

theorem CaptureFrameWithAdjustments_ring (L : LibM) (io : CaptureIO) (s : CameraManager)
    (adjustments : ImageAdjustments) (force_capture : Bool) :
    (CaptureFrameWithAdjustments L io s adjustments force_capture).state.frame_ring_buffer_
      = s.frame_ring_buffer_ := by
  unfold CaptureFrameWithAdjustments
  dsimp only
  by_cases c1 : s.session_active_ = false ∨ s.source_reader_ = false
  · rw [if_pos c1]
  rw [if_neg c1]
  by_cases c2 : io.try_lock_for = false
  · rw [if_pos c2]
  rw [if_neg c2]
  cases freshFrame io { s with current_adjustments_ := adjustments } force_capture with
  | some latest_frame =>
    dsimp only
    by_cases c3 : u32 (latest_frame.width * latest_frame.height * 4) ≤ latest_frame.data.length
    · rw [if_pos c3]
      exact ((TrackProcessingTime_keeps _ _).1).trans (ApplyImageAdjustments_keeps _ _ _ _ _ _ _).1
    · rw [if_neg c3]
  | none =>
    dsimp only
    have hw := (workerRuns_keeps L io.arrivals
      { s with current_adjustments_ := adjustments, new_frame_available_ := false }).1
    by_cases c4 : (workerRuns L io.arrivals
        { s with current_adjustments_ := adjustments, new_frame_available_ := false }
        ).new_frame_available_ = false
    · rw [if_pos c4]
      exact hw
    rw [if_neg c4]
    cases (workerRuns L io.arrivals
        { s with current_adjustments_ := adjustments, new_frame_available_ := false }
        ).frame_ring_buffer_.getLast? with
    | none => exact hw
    | some latest_frame => exact ((TrackProcessingTime_keeps _ _).1).trans hw

theorem CaptureFrameAlternative_ring (L : LibM) (mf : MFResults) (arrivals : List SampleIO)
    (s : CameraManager) (high_quality : Bool) :
    (CaptureFrameAlternative L mf arrivals s high_quality).state.frame_ring_buffer_
      = s.frame_ring_buffer_ := by
  have h0 : (StartCameraSession mf (StopCameraSession s).2 s.current_camera_id_
      ).2.frame_ring_buffer_ = s.frame_ring_buffer_ := by
    rw [StartCameraSession_ring, StopCameraSession_ring]
  unfold CaptureFrameAlternative
  dsimp only
  split_ifs <;> first | rfl | exact h0 | exact ((workerRuns_keeps _ _ _).1).trans h0

theorem SetResolution_ring (mf : MFFormatResults) (s : CameraManager) (width height : Nat) :
    (SetResolution mf s width height).2.frame_ring_buffer_ = s.frame_ring_buffer_ := by
  unfold SetResolution
  dsimp only
  split_ifs <;> rfl

theorem GetAvailableResolutions_ring (native : List (Option CameraResolution))
    (s : CameraManager) :
    (GetAvailableResolutions native s).2.frame_ring_buffer_ = s.frame_ring_buffer_ := by
  unfold GetAvailableResolutions EnumerateSupportedResolutions
  dsimp only
  split_ifs <;> rfl

theorem SetWhiteBalance_ring (s : CameraManager) (mode : String) :
    (SetWhiteBalance s mode).2.frame_ring_buffer_ = s.frame_ring_buffer_ := by
  unfold SetWhiteBalance
  dsimp only
  split_ifs <;> rfl

/-- In every reachable state the frame ring is empty: no operation ever stores into it. -/
theorem Reachable_ring_empty (L : LibM) (s : CameraManager) (h : Reachable L s) :
    s.frame_ring_buffer_ = [] := by
  induction h with
  | construct => rfl
  | StartCameraSession mf camera_id _ ih => rw [StartCameraSession_ring, ih]
  | StartCameraSessionWithConfig mf camera_id resolution adjustments _ ih =>
    rw [StartCameraSessionWithConfig_ring, ih]
  | StopCameraSession _ ih => rw [StopCameraSession_ring, ih]
  | CaptureFrame io force_capture _ ih => rw [CaptureFrame_ring, ih]
  | CaptureFrameAlternative mf arrivals high_quality _ ih =>
    rw [CaptureFrameAlternative_ring, ih]
  | CaptureFrameWithAdjustments io adjustments force_capture _ ih =>
    rw [CaptureFrameWithAdjustments_ring, ih]
  | SetResolution mf width height _ ih => rw [SetResolution_ring, ih]
  | GetAvailableResolutions native _ ih => rw [GetAvailableResolutions_ring, ih]
  | SetImageAdjustments adjustments_map _ ih => exact ih
  | SetZoomLevel zoom_level _ ih => exact ih
  | SetWhiteBalance mode _ ih => rw [SetWhiteBalance_ring, ih]
  | ProcessFrame io _ ih => rw [(ProcessFrame_keeps L io _).1, ih]

/-- C16: in every state reachable through the public operations and the capture worker's
`ProcessFrame`, the frame ring `frame_ring_buffer_` holds at most 3 (`kRingBufferSize`)
frames. -/
theorem Reachable_ring_at_most_three (L : LibM) (s : CameraManager) (h : Reachable L s) :
    s.frame_ring_buffer_.length ≤ kRingBufferSize := by
  rw [Reachable_ring_empty L s h]
  exact Nat.zero_le _

theorem Reachable_ring_at_most_three_witness :
    (ProcessFrame LibM.sample onePixelSample
      (StartCameraSession mfAllOk (CameraManager.construct true
        [⟨"cam0", "USB Camera", true, "external"⟩] false false) "cam0").2
      ).2.frame_ring_buffer_.length ≤ kRingBufferSize :=
  Reachable_ring_at_most_three LibM.sample _
    (Reachable.ProcessFrame onePixelSample
      (Reachable.StartCameraSession mfAllOk "cam0"
        (Reachable.construct true [⟨"cam0", "USB Camera", true, "external"⟩] false false)))

/-! ## CaptureFrameWithAdjustments in reachable states -/

theorem joinedByStop_of_inactive (s : CameraManager) (h : s.session_active_ = false) :
    joinedByStop s = 0 := by
  simp [joinedByStop, h]

/-- The number of live capture threads is 1 when `capture_thread_` is joinable and 0
otherwise, and the session fields are consistent, in every reachable session. -/
theorem Session.Reachable_count (σ : Session) (h : Session.Reachable σ) :
    σ.mgr.SessionWF ∧ (σ.mgr.session_active_ = true → σ.mgr.capture_thread_ = true) ∧
    σ.live_threads = (if σ.mgr.capture_thread_ = true then 1 else 0) := by
  have key : ∀ (mf : MFResults) (camera_id : String) (t : CameraManager) (n : Nat),
      t.Idle → n = 0 →
      ((StartCameraSession mf t camera_id).2.session_active_ = true →
        (StartCameraSession mf t camera_id).2.capture_thread_ = true) ∧
      n + (if (StartCameraSession mf t camera_id).1 = true then 1 else 0)
        = (if (StartCameraSession mf t camera_id).2.capture_thread_ = true then 1 else 0) := by
    intro mf camera_id t n hidle hn
    obtain ⟨h1, h2, h3, h4⟩ := hidle
    rcases StartCameraSession_inactive_shape mf t camera_id h1 with h | h | h
    · have e1 : (StartCameraSession mf t camera_id).1 = false := congrArg Prod.fst h
      have e2 : (StartCameraSession mf t camera_id).2.capture_thread_ = false :=
        (congrArg (fun r => r.2.capture_thread_) h).trans h3
      have e3 : (StartCameraSession mf t camera_id).2.session_active_ = false :=
        (congrArg (fun r => r.2.session_active_) h).trans h1
      rw [e1, e2, e3, hn]
      exact ⟨fun hc => Bool.noConfusion hc, rfl⟩
    · have e1 : (StartCameraSession mf t camera_id).1 = false := congrArg Prod.fst h
      have e2 : (StartCameraSession mf t camera_id).2.capture_thread_ = false :=
        (congrArg (fun r => r.2.capture_thread_) h).trans h3
      have e3 : (StartCameraSession mf t camera_id).2.session_active_ = false :=
        (congrArg (fun r => r.2.session_active_) h).trans h1
      rw [e1, e2, e3, hn]
      exact ⟨fun hc => Bool.noConfusion hc, rfl⟩
    · have e1 : (StartCameraSession mf t camera_id).1 = true := congrArg Prod.fst h
      have e2 : (StartCameraSession mf t camera_id).2.capture_thread_ = true :=
        congrArg (fun r => r.2.capture_thread_) h
      rw [e1, e2, hn]
      exact ⟨fun _ => rfl, rfl⟩
  induction h with
  | construct mf_ok devices d3d_ok wic_ok =>
    exact ⟨fun _ => ⟨rfl, rfl, rfl⟩, fun hc => Bool.noConfusion hc, rfl⟩
  | @start σ mf camera_id _ ih =>
    obtain ⟨hwf, hact, hcount⟩ := ih
    refine ⟨(SessionWF_invariant.2.2) mf σ.mgr camera_id hwf, ?_⟩
    show ((StartCameraSession mf σ.mgr camera_id).2.session_active_ = true →
        (StartCameraSession mf σ.mgr camera_id).2.capture_thread_ = true) ∧
      σ.live_threads - joinedByStop σ.mgr
        + (if (StartCameraSession mf σ.mgr camera_id).1 = true then 1 else 0)
        = (if (StartCameraSession mf σ.mgr camera_id).2.capture_thread_ = true then 1 else 0)
    cases ha : σ.mgr.session_active_
    · have hidle := Idle_of_inactive σ.mgr ha hwf
      refine key mf camera_id σ.mgr _ hidle ?_
      rw [hcount, hidle.2.2.1, joinedByStop_of_inactive _ ha]
      rfl
    · rw [StartCameraSession_of_active mf σ.mgr camera_id ha]
      refine key mf camera_id _ _ (StopCameraSession_of_active σ.mgr ha).1 ?_
      rw [hcount, hact ha]
      simp [joinedByStop, ha, hact ha]
  | @stop σ _ ih =>
    obtain ⟨hwf, hact, hcount⟩ := ih
    refine ⟨(SessionWF_invariant.2.1) σ.mgr hwf, ?_⟩
    show ((StopCameraSession σ.mgr).2.session_active_ = true →
        (StopCameraSession σ.mgr).2.capture_thread_ = true) ∧
      σ.live_threads - joinedByStop σ.mgr
        = (if (StopCameraSession σ.mgr).2.capture_thread_ = true then 1 else 0)
    cases ha : σ.mgr.session_active_
    · rw [StopCameraSession_of_inactive σ.mgr ha, joinedByStop_of_inactive _ ha]
      exact ⟨fun hc => Bool.noConfusion (ha.symm.trans hc), hcount⟩
    · obtain ⟨h1, h2, h3, h4⟩ := (StopCameraSession_of_active σ.mgr ha).1
      rw [h1, h3, hcount, hact ha]
      simp [joinedByStop, ha, hact ha]

/-- C11: called on an active session, `StartCameraSession` first performs a complete
`StopCameraSession` (running flag cleared, thread joined, reader released, session
inactive) and then proceeds exactly as a start from that stopped state; hence in every
session reachable by start and stop calls at most one capture thread is alive. -/
theorem StartCameraSession_stops_first (σ : Session) (h : Session.Reachable σ)
    (mf : MFResults) (camera_id : String) :
    (σ.mgr.session_active_ = true →
      (StopCameraSession σ.mgr).2.Idle ∧
      StartCameraSession mf σ.mgr camera_id
        = StartCameraSession mf (StopCameraSession σ.mgr).2 camera_id ∧
      σ.live_threads - joinedByStop σ.mgr = 0) ∧
    σ.live_threads ≤ 1 ∧ (σ.start mf camera_id).live_threads ≤ 1 := by
  have hσ := Session.Reachable_count σ h
  have hnext := Session.Reachable_count _ (Session.Reachable.start mf camera_id h)
  refine ⟨?_, ?_, ?_⟩
  · intro ha
    refine ⟨(StopCameraSession_of_active σ.mgr ha).1,
      StartCameraSession_of_active mf σ.mgr camera_id ha, ?_⟩
    rw [hσ.2.2, hσ.2.1 ha]
    simp [joinedByStop, ha, hσ.2.1 ha]
  · rw [hσ.2.2]
    split_ifs <;> omega
  · rw [hnext.2.2]
    split_ifs <;> omega

theorem StartCameraSession_stops_first_witness :
    ((Session.start mfAllOk "cam0" (Session.start mfAllOk "cam0"
      ⟨CameraManager.construct true [⟨"cam0", "USB Camera", true, "external"⟩] false false, 0⟩
      )).start mfAllOk "cam0").live_threads ≤ 1 :=
  (StartCameraSession_stops_first _
    (Session.Reachable.start mfAllOk "cam0" (Session.Reachable.start mfAllOk "cam0"
      (Session.Reachable.construct true [⟨"cam0", "USB Camera", true, "external"⟩] false false)))
    mfAllOk "cam0").2.2

/-! ## The zoom loop -/

theorem zoomPixel_eq (temp : Buf) (w h stride cx cy cw ch : Nat) (d : Buf) (y x : Nat) :
    zoomPixel temp w h stride cx cy cw ch d y x
      = putOpt d (u32 (y * stride) + u32 (x * 4)) (zoomSample temp w h stride cx cy cw ch y x) := by
  unfold zoomPixel zoomSample zoomChannel
  dsimp only
  split_ifs <;> rfl

theorem length_put4 (d : Buf) (p : Nat) (t : Byte × Byte × Byte × Byte) :
    (put4 d p t).length = d.length := by
  simp [put4, length_wr]

theorem rd_put4_other (d : Buf) (p i : Nat) (t : Byte × Byte × Byte × Byte)
    (h : i < p ∨ p + 4 ≤ i) : rd (put4 d p t) i = rd d i := by
  simp only [put4]
  rw [rd_wr_ne _ _ _ _ (by omega), rd_wr_ne _ _ _ _ (by omega), rd_wr_ne _ _ _ _ (by omega),
    rd_wr_ne _ _ _ _ (by omega)]

theorem rd_put4_chan (d : Buf) (p c : Nat) (t : Byte × Byte × Byte × Byte)
    (hp : p + 3 < d.length) (hc : c < 4) : rd (put4 d p t) (p + c) = chan4 c t := by
  simp only [put4]
  have n01 : p ≠ p + 1 := by omega
  have n02 : p ≠ p + 2 := by omega
  have n03 : p ≠ p + 3 := by omega
  have n12 : p + 1 ≠ p + 2 := by omega
  have n13 : p + 1 ≠ p + 3 := by omega
  have n23 : p + 2 ≠ p + 3 := by omega
  have hc4 : c = 0 ∨ c = 1 ∨ c = 2 ∨ c = 3 := by omega
  rcases hc4 with h | h | h | h <;> subst h
  · show rd _ p = _
    rw [rd_wr_ne _ _ _ _ n03.symm, rd_wr_ne _ _ _ _ n02.symm, rd_wr_ne _ _ _ _ n01.symm,
      rd_wr_same _ _ _ (by omega)]
    rfl
  · rw [rd_wr_ne _ _ _ _ n13.symm, rd_wr_ne _ _ _ _ n12.symm,
      rd_wr_same _ _ _ (by rw [length_wr]; omega)]
    rfl
  · rw [rd_wr_ne _ _ _ _ n23.symm, rd_wr_same _ _ _ (by rw [length_wr, length_wr]; omega)]
    rfl
  · rw [rd_wr_same _ _ _ (by rw [length_wr, length_wr, length_wr]; omega)]
    rfl

theorem length_putOpt (d : Buf) (p : Nat) (o : Option (Byte × Byte × Byte × Byte)) :
    (putOpt d p o).length = d.length := by
  cases o with
  | none => rfl
  | some t => exact length_put4 d p t

theorem rd_putOpt_other (d : Buf) (p i : Nat) (o : Option (Byte × Byte × Byte × Byte))
    (h : i < p ∨ p + 4 ≤ i) : rd (putOpt d p o) i = rd d i := by
  cases o with
  | none => rfl
  | some t => exact rd_put4_other d p i t h

theorem storeRow_length (V : Nat → Option (Byte × Byte × Byte × Byte)) (base k : Nat)
    (d : Buf) :
    ((List.range k).foldl (fun d x => putOpt d (base + u32 (x * 4)) (V x)) d).length
      = d.length :=
  foldl_length_preserving _ (fun d _ => length_putOpt d _ _) _ d

theorem storeRow_untouched (V : Nat → Option (Byte × Byte × Byte × Byte)) (base k : Nat)
    (d : Buf) (i : Nat) (hk : 4 * k < 4294967296) (h : i < base ∨ base + 4 * k ≤ i) :
    rd ((List.range k).foldl (fun d x => putOpt d (base + u32 (x * 4)) (V x)) d) i
      = rd d i := by
  induction k with
  | zero => rfl
  | succ k ih =>
    have hu : u32 (k * 4) = k * 4 := Nat.mod_eq_of_lt (by omega)
    rw [List.range_succ, List.foldl_append, List.foldl_cons, List.foldl_nil,
      rd_putOpt_other _ _ _ _ (by omega)]
    exact ih (by omega) (by omega)

theorem storeRow_pixel (V : Nat → Option (Byte × Byte × Byte × Byte)) (base k : Nat)
    (d : Buf) (hk : 4 * k < 4294967296) (hlen : base + 4 * k ≤ d.length)
    (px c : Nat) (hpx : px < k) (hc : c < 4) (t : Byte × Byte × Byte × Byte)
    (ht : V px = some t) :
    rd ((List.range k).foldl (fun d x => putOpt d (base + u32 (x * 4)) (V x)) d)
        (base + 4 * px + c) = chan4 c t := by
  induction k with
  | zero => omega
  | succ k ih =>
    have hu : u32 (k * 4) = k * 4 := Nat.mod_eq_of_lt (by omega)
    rw [List.range_succ, List.foldl_append, List.foldl_cons, List.foldl_nil]
    by_cases hk2 : px < k
    · rw [rd_putOpt_other _ _ _ _ (by omega)]
      exact ih (by omega) (by omega) hk2
    · have hpk : px = k := by omega
      subst hpk
      rw [ht, hu]
      show rd (put4 _ _ t) _ = _
      have e : base + 4 * px + c = base + px * 4 + c := by omega
      rw [e]
      exact rd_put4_chan _ _ _ _ (by rw [storeRow_length]; omega) hc

theorem storeLoop_succ (W : Nat → Nat → Option (Byte × Byte × Byte × Byte))
    (w k stride : Nat) (d : Buf) :
    storeLoop W w (k + 1) stride d
      = (List.range w).foldl (fun d x => putOpt d (u32 (k * stride) + u32 (x * 4)) (W k x))
          (storeLoop W w k stride d) := by
  simp [storeLoop, List.range_succ, List.foldl_append]

theorem storeLoop_length (W : Nat → Nat → Option (Byte × Byte × Byte × Byte))
    (w k stride : Nat) (d : Buf) : (storeLoop W w k stride d).length = d.length := by
  induction k with
  | zero => rfl
  | succ k ih => rw [storeLoop_succ, storeRow_length, ih]

theorem storeLoop_pixel (W : Nat → Nat → Option (Byte × Byte × Byte × Byte))
    (w stride k : Nat) (d : Buf) (hs : 4 * w ≤ stride) (hlen : stride * k ≤ d.length)
    (hk : stride * k < 4294967296) (x y c : Nat) (hx : x < w) (hy : y < k) (hc : c < 4)
    (t : Byte × Byte × Byte × Byte) (ht : W y x = some t) :
    rd (storeLoop W w k stride d) (y * stride + 4 * x + c) = chan4 c t := by
  induction k with
  | zero => omega
  | succ k ih =>
    have e1 : stride * (k + 1) = k * stride + stride := by ring
    have e2 : stride * k = k * stride := by ring
    have hu : u32 (k * stride) = k * stride := Nat.mod_eq_of_lt (by omega)
    have hw : 4 * w < 4294967296 := by omega
    rw [storeLoop_succ, hu]
    by_cases hyk : y < k
    · have e3 : (y + 1) * stride ≤ k * stride := Nat.mul_le_mul_right stride hyk
      rw [Nat.succ_mul] at e3
      rw [storeRow_untouched _ _ _ _ _ hw (by omega)]
      exact ih (by omega) (by omega) hyk
    · have hyk2 : y = k := by omega
      subst hyk2
      exact storeRow_pixel (W y) _ _ _ hw (by rw [storeLoop_length]; omega) _ _ hx hc t ht

theorem zoomStage_eq_storeLoop (z : Flt) (data : Buf) (width height stride : Nat) :
    ∃ d0 : Buf, d0.length = data.length ∧
      zoomStage z data width height stride
        = storeLoop (zoomSample ((List.range (u32 (stride * height))).map (rd data))
            width height stride (cropRect z width height).1 (cropRect z width height).2.1
            (cropRect z width height).2.2.1 (cropRect z width height).2.2.2)
            width height stride d0 := by
  refine ⟨(List.range (u32 (stride * height))).foldl (fun d i => wr d i 0) data,
    foldl_length_preserving _ (fun d i => length_wr d i 0) _ data, ?_⟩
  unfold zoomStage storeLoop cropRect
  simp only [zoomPixel_eq]

/-! ## Zoom level 2 on a 640x480 frame: exact arithmetic -/

theorem round_quarter_fin : ∀ n : Fin 1021,
    binary32.round ((n.val : ℚ) / 4) = Flt.fin ((n.val : ℚ) / 4) := by
  decide!

theorem round_quarter (q : ℚ) (h : ∃ n : ℕ, n ≤ 1020 ∧ q = (n : ℚ) / 4) :
    binary32.round q = Flt.fin q := by
  obtain ⟨n, hn, rfl⟩ := h
  exact round_quarter_fin ⟨n, by omega⟩

theorem one_minus_weight (w : ℚ) (hw : w = 0 ∨ w = 1 / 2) :
    fsub (f32 1) (Flt.fin w) = Flt.fin (1 - w) := by
  rcases hw with rfl | rfl <;> decide!

theorem blend_half (k1 k2 : ℕ) (h1 : k1 ≤ 510) (h2 : k2 ≤ 510) (w : ℚ)
    (hw : w = 0 ∨ w = 1 / 2) :
    fadd (fmul (Flt.fin ((k1 : ℚ) / 2)) (fsub (f32 1) (Flt.fin w)))
        (fmul (Flt.fin ((k2 : ℚ) / 2)) (Flt.fin w))
      = Flt.fin ((k1 : ℚ) / 2 * (1 - w) + (k2 : ℚ) / 2 * w) := by
  rw [one_minus_weight w hw]
  have e1 : fmul (Flt.fin ((k1 : ℚ) / 2)) (Flt.fin (1 - w))
      = Flt.fin ((k1 : ℚ) / 2 * (1 - w)) := by
    apply round_quarter
    rcases hw with rfl | rfl
    · exact ⟨2 * k1, by omega, by push_cast; ring⟩
    · exact ⟨k1, by omega, by ring⟩
  have e2 : fmul (Flt.fin ((k2 : ℚ) / 2)) (Flt.fin w) = Flt.fin ((k2 : ℚ) / 2 * w) := by
    apply round_quarter
    rcases hw with rfl | rfl
    · exact ⟨0, by omega, by push_cast; ring⟩
    · exact ⟨k2, by omega, by ring⟩
  rw [e1, e2]
  apply round_quarter
  rcases hw with rfl | rfl
  · exact ⟨2 * k1, by omega, by push_cast; ring⟩
  · exact ⟨k1 + k2, by omega, by push_cast; ring⟩

theorem toByte_fin (q : ℚ) (h0 : 0 ≤ q) (h1 : q < 256) :
    (Flt.toByte (Flt.fin q)).val = ⌊q⌋.toNat := by
  have hf : ⌊q⌋ = q.num / (q.den : Int) := Rat.floor_def' q
  have hlt : ⌊q⌋ < 256 := Int.floor_lt.mpr (by exact_mod_cast h1)
  have hge : 0 ≤ ⌊q⌋ := Int.floor_nonneg.mpr h0
  show (byteOfNat (if 0 ≤ q then (q.num / (q.den : Int)).toNat else 0)).val = _
  rw [if_pos h0, ← hf]
  show ⌊q⌋.toNat % 256 = _
  apply Nat.mod_eq_of_lt
  omega

theorem blend_bytes (a b : Byte) (w : ℚ) (hw : w = 0 ∨ w = 1 / 2) :
    ∃ k : ℕ, k ≤ 510 ∧ (a.val : ℚ) * (1 - w) + (b.val : ℚ) * w = (k : ℚ) / 2 ∧
      fadd (fmul (Flt.ofByte a) (fsub (f32 1) (Flt.fin w))) (fmul (Flt.ofByte b) (Flt.fin w))
        = Flt.fin ((k : ℚ) / 2) := by
  have ha := a.isLt
  have hb := b.isLt
  have ea : Flt.ofByte a = Flt.fin (((2 * a.val : ℕ) : ℚ) / 2) := by
    unfold Flt.ofByte
    congr 1
    push_cast
    ring
  have eb : Flt.ofByte b = Flt.fin (((2 * b.val : ℕ) : ℚ) / 2) := by
    unfold Flt.ofByte
    congr 1
    push_cast
    ring
  rw [ea, eb, blend_half _ _ (by omega) (by omega) w hw]
  rcases hw with rfl | rfl
  · exact ⟨2 * a.val, by omega, by push_cast; ring, by congr 1; push_cast; ring⟩
  · exact ⟨a.val + b.val, by omega, by push_cast; ring, by congr 1; push_cast; ring⟩

theorem zoomChannel_exact (temp : Buf) (i1 i2 i3 i4 : Nat) (wx wy : ℚ)
    (hx : wx = 0 ∨ wx = 1 / 2) (hy : wy = 0 ∨ wy = 1 / 2) (c : Nat) :
    (zoomChannel temp i1 i2 i3 i4 (Flt.fin wx) (Flt.fin wy) c).val
      = bilinearExact (rd temp (u32 (i1 + c))) (rd temp (u32 (i2 + c)))
          (rd temp (u32 (i3 + c))) (rd temp (u32 (i4 + c))) wx wy := by
  obtain ⟨kt, hkt, et, ht⟩ := blend_bytes (rd temp (u32 (i1 + c))) (rd temp (u32 (i2 + c))) wx hx
  obtain ⟨kb, hkb, eb, hb⟩ := blend_bytes (rd temp (u32 (i3 + c))) (rd temp (u32 (i4 + c))) wx hx
  unfold zoomChannel bilinearExact
  dsimp only
  rw [ht, hb, blend_half _ _ hkt hkb wy hy, et, eb]
  have hkt2 : ((kt : ℕ) : ℚ) ≤ 510 := by exact_mod_cast hkt
  have hkb2 : ((kb : ℕ) : ℚ) ≤ 510 := by exact_mod_cast hkb
  have h0t : (0 : ℚ) ≤ (kt : ℚ) := Nat.cast_nonneg kt
  have h0b : (0 : ℚ) ≤ (kb : ℚ) := Nat.cast_nonneg kb
  apply toByte_fin
  · rcases hy with rfl | rfl <;> linarith
  · rcases hy with rfl | rfl <;> linarith

set_option maxRecDepth 100000 in
theorem src_x_640 : ∀ x : Fin 640,
    u32 (fadd (f32 (160 : ℕ)) (fmul (fdiv (f32 (x.val : ℕ)) (f32 (640 : ℕ)))
        (f32 (320 : ℕ)))).truncNat = 160 + x.val / 2 ∧
      fsub (fadd (f32 (160 : ℕ)) (fmul (fdiv (f32 (x.val : ℕ)) (f32 (640 : ℕ)))
        (f32 (320 : ℕ)))) (f32 ((160 + x.val / 2 : ℕ) : ℚ))
        = Flt.fin (((x.val % 2 : ℕ) : ℚ) / 2) := by
  decide!

set_option maxRecDepth 100000 in
theorem src_y_480 : ∀ y : Fin 480,
    u32 (fadd (f32 (120 : ℕ)) (fmul (fdiv (f32 (y.val : ℕ)) (f32 (480 : ℕ)))
        (f32 (240 : ℕ)))).truncNat = 120 + y.val / 2 ∧
      fsub (fadd (f32 (120 : ℕ)) (fmul (fdiv (f32 (y.val : ℕ)) (f32 (480 : ℕ)))
        (f32 (240 : ℕ)))) (f32 ((120 + y.val / 2 : ℕ) : ℚ))
        = Flt.fin (((y.val % 2 : ℕ) : ℚ) / 2) := by
  decide!

theorem cropRect_two : cropRect (Flt.fin 2) 640 480 = (160, 120, 320, 240) := by
  decide!

theorem rd_map_range (data : Buf) (n i : Nat) (h : i < n) :
    rd ((List.range n).map (rd data)) i = rd data i := by
  unfold rd
  simp [List.getD_eq_getElem?_getD, h]

theorem bilinearExact_zero (tl tr bl br : Byte) : bilinearExact tl tr bl br 0 0 = tl.val := by
  unfold bilinearExact
  simp

theorem half_weight (n : Nat) :
    (((n % 2 : ℕ) : ℚ) / 2 = 0 ∨ ((n % 2 : ℕ) : ℚ) / 2 = 1 / 2) := by
  rcases Nat.mod_two_eq_zero_or_one n with h | h <;> rw [h] <;> simp

theorem zoomSample_two (temp : Buf) (x y : Nat) (hx : x < 640) (hy : y < 480) :
    zoomSample temp 640 480 2560 160 120 320 240 y x
      = some
        (zoomChannel temp (pixelAt 2560 (160 + x / 2) (120 + y / 2))
            (pixelAt 2560 (160 + x / 2 + 1) (120 + y / 2))
            (pixelAt 2560 (160 + x / 2) (120 + y / 2 + 1))
            (pixelAt 2560 (160 + x / 2 + 1) (120 + y / 2 + 1))
            (Flt.fin (((x % 2 : ℕ) : ℚ) / 2)) (Flt.fin (((y % 2 : ℕ) : ℚ) / 2)) 0,
          zoomChannel temp (pixelAt 2560 (160 + x / 2) (120 + y / 2))
            (pixelAt 2560 (160 + x / 2 + 1) (120 + y / 2))
            (pixelAt 2560 (160 + x / 2) (120 + y / 2 + 1))
            (pixelAt 2560 (160 + x / 2 + 1) (120 + y / 2 + 1))
            (Flt.fin (((x % 2 : ℕ) : ℚ) / 2)) (Flt.fin (((y % 2 : ℕ) : ℚ) / 2)) 1,
          zoomChannel temp (pixelAt 2560 (160 + x / 2) (120 + y / 2))
            (pixelAt 2560 (160 + x / 2 + 1) (120 + y / 2))
            (pixelAt 2560 (160 + x / 2) (120 + y / 2 + 1))
            (pixelAt 2560 (160 + x / 2 + 1) (120 + y / 2 + 1))
            (Flt.fin (((x % 2 : ℕ) : ℚ) / 2)) (Flt.fin (((y % 2 : ℕ) : ℚ) / 2)) 2,
          rd temp (pixelAt 2560 (160 + x / 2) (120 + y / 2) + 3)) := by
  obtain ⟨hx1, hx2⟩ := src_x_640 ⟨x, hx⟩
  obtain ⟨hy1, hy2⟩ := src_y_480 ⟨y, hy⟩
  dsimp only at hx1 hx2 hy1 hy2
  have i1 : u32 ((120 + y / 2) * 2560 + (160 + x / 2) * 4)
      = pixelAt 2560 (160 + x / 2) (120 + y / 2) := by
    unfold u32 pixelAt
    omega
  have i2 : u32 ((120 + y / 2) * 2560 + (160 + x / 2 + 1) * 4)
      = pixelAt 2560 (160 + x / 2 + 1) (120 + y / 2) := by
    unfold u32 pixelAt
    omega
  have i3 : u32 ((120 + y / 2 + 1) * 2560 + (160 + x / 2) * 4)
      = pixelAt 2560 (160 + x / 2) (120 + y / 2 + 1) := by
    unfold u32 pixelAt
    omega
  have i4 : u32 ((120 + y / 2 + 1) * 2560 + (160 + x / 2 + 1) * 4)
      = pixelAt 2560 (160 + x / 2 + 1) (120 + y / 2 + 1) := by
    unfold u32 pixelAt
    omega
  have i5 : u32 (pixelAt 2560 (160 + x / 2) (120 + y / 2) + 3)
      = pixelAt 2560 (160 + x / 2) (120 + y / 2) + 3 := by
    unfold u32 pixelAt
    omega
  unfold zoomSample
  dsimp only
  rw [hx1, hy1, hx2, hy2, if_neg (by unfold u32; omega), i1, i2, i3, i4, i5]


theorem zoomStage_two_pixel (data : Buf) (hlen : 1228800 ≤ data.length) (x y c : Nat)
    (hx : x < 640) (hy : y < 480) (hc : c < 4) :
    rd (zoomStage (Flt.fin 2) data 640 480 2560) (pixelAt 2560 x y + c)
      = chan4 c
        (zoomChannel ((List.range 1228800).map (rd data))
            (pixelAt 2560 (160 + x / 2) (120 + y / 2))
            (pixelAt 2560 (160 + x / 2 + 1) (120 + y / 2))
            (pixelAt 2560 (160 + x / 2) (120 + y / 2 + 1))
            (pixelAt 2560 (160 + x / 2 + 1) (120 + y / 2 + 1))
            (Flt.fin (((x % 2 : ℕ) : ℚ) / 2)) (Flt.fin (((y % 2 : ℕ) : ℚ) / 2)) 0,
          zoomChannel ((List.range 1228800).map (rd data))
            (pixelAt 2560 (160 + x / 2) (120 + y / 2))
            (pixelAt 2560 (160 + x / 2 + 1) (120 + y / 2))
            (pixelAt 2560 (160 + x / 2) (120 + y / 2 + 1))
            (pixelAt 2560 (160 + x / 2 + 1) (120 + y / 2 + 1))
            (Flt.fin (((x % 2 : ℕ) : ℚ) / 2)) (Flt.fin (((y % 2 : ℕ) : ℚ) / 2)) 1,
          zoomChannel ((List.range 1228800).map (rd data))
            (pixelAt 2560 (160 + x / 2) (120 + y / 2))
            (pixelAt 2560 (160 + x / 2 + 1) (120 + y / 2))
            (pixelAt 2560 (160 + x / 2) (120 + y / 2 + 1))
            (pixelAt 2560 (160 + x / 2 + 1) (120 + y / 2 + 1))
            (Flt.fin (((x % 2 : ℕ) : ℚ) / 2)) (Flt.fin (((y % 2 : ℕ) : ℚ) / 2)) 2,
          rd ((List.range 1228800).map (rd data))
            (pixelAt 2560 (160 + x / 2) (120 + y / 2) + 3)) := by
  obtain ⟨d0, hd0, hz⟩ := zoomStage_eq_storeLoop (Flt.fin 2) data 640 480 2560
  have hsize : u32 (2560 * 480) = 1228800 := by decide
  rw [hz, cropRect_two, hsize]
  exact storeLoop_pixel _ 640 2560 480 d0 (by omega) (by omega) (by omega) x y c hx hy hc _
    (zoomSample_two _ x y hx hy)

/-- C14: with zoom level 2.0 on a 640x480 frame of stride 2560 the zoom stage computes the
crop rectangle (160, 120, 320, 240), and each destination pixel (x, y) has as colour bytes
the truncated exact bilinear blend of the source pixels (160 + x/2, 120 + y/2), its right,
lower and lower-right neighbours with weights (x mod 2)/2 and (y mod 2)/2, as alpha byte the
alpha of source pixel (160 + x/2, 120 + y/2), and for x and y even all four bytes of that
source pixel; with neutral numeric adjustments and no filter this is the whole output of
`ApplyImageAdjustmentsSoftware`. -/
theorem zoomStage_two_samples_centre_crop (L : LibM) (s : CameraManager) (data : Buf)
    (hlen : 1228800 ≤ data.length) (hz : s.current_zoom_level_ = Flt.fin 2) (x y : Nat)
    (hx : x < 640) (hy : y < 480) :
    cropRect s.current_zoom_level_ 640 480 = (160, 120, 320, 240) ∧
      ZoomTwoPixel data (zoomStage s.current_zoom_level_ data 640 480 2560) x y ∧
      (s.current_adjustments_.NeutralTone → s.current_adjustments_.filter = "" →
        ApplyImageAdjustmentsSoftware L s data 640 480 2560
          = (true, zoomStage s.current_zoom_level_ data 640 480 2560)) := by
  have hsrc : ∀ (sx sy c : Nat), sx ≤ 480 → sy ≤ 360 → c < 4 →
      rd ((List.range 1228800).map (rd data)) (u32 (pixelAt 2560 sx sy + c))
        = rd data (pixelAt 2560 sx sy + c) := by
    intro sx sy c h1 h2 h3
    have e : u32 (pixelAt 2560 sx sy + c) = pixelAt 2560 sx sy + c := by
      unfold u32 pixelAt
      omega
    rw [e]
    exact rd_map_range data _ _ (by unfold pixelAt; omega)
  have hsrc3 : ∀ (sx sy : Nat), sx ≤ 480 → sy ≤ 360 →
      rd ((List.range 1228800).map (rd data)) (pixelAt 2560 sx sy + 3)
        = rd data (pixelAt 2560 sx sy + 3) :=
    fun sx sy h1 h2 => rd_map_range data _ _ (by unfold pixelAt; omega)
  have hcol : ∀ c, c < 3 →
      (rd (zoomStage (Flt.fin 2) data 640 480 2560) (pixelAt 2560 x y + c)).val
        = bilinearExact (rd data (pixelAt 2560 (160 + x / 2) (120 + y / 2) + c))
            (rd data (pixelAt 2560 (160 + x / 2 + 1) (120 + y / 2) + c))
            (rd data (pixelAt 2560 (160 + x / 2) (120 + y / 2 + 1) + c))
            (rd data (pixelAt 2560 (160 + x / 2 + 1) (120 + y / 2 + 1) + c))
            (((x % 2 : ℕ) : ℚ) / 2) (((y % 2 : ℕ) : ℚ) / 2) := by
    intro c hc
    rw [zoomStage_two_pixel data hlen x y c hx hy (by omega),
      ← hsrc _ _ c (by omega) (by omega) (by omega),
      ← hsrc _ _ c (by omega) (by omega) (by omega),
      ← hsrc _ _ c (by omega) (by omega) (by omega),
      ← hsrc _ _ c (by omega) (by omega) (by omega),
      ← zoomChannel_exact _ _ _ _ _ _ _ (half_weight x) (half_weight y) c]
    have hc3 : c = 0 ∨ c = 1 ∨ c = 2 := by omega
    rcases hc3 with h | h | h <;> subst h <;> rfl
  have halpha : rd (zoomStage (Flt.fin 2) data 640 480 2560) (pixelAt 2560 x y + 3)
      = rd data (pixelAt 2560 (160 + x / 2) (120 + y / 2) + 3) := by
    have hlast : ∀ a b c d : Byte, chan4 3 (a, b, c, d) = d := fun _ _ _ _ => rfl
    rw [zoomStage_two_pixel data hlen x y 3 hx hy (by omega), hlast,
      hsrc3 _ _ (by omega) (by omega)]
  rw [hz]
  refine ⟨cropRect_two, ⟨hcol, halpha, ?_⟩, ?_⟩
  · intro hx2 hy2 c hc
    by_cases hc3 : c < 3
    · apply Fin.ext
      rw [hcol c hc3, hx2, hy2]
      simp only [Nat.cast_zero, zero_div]
      exact bilinearExact_zero _ _ _ _
    · have e : c = 3 := by omega
      subst e
      exact halpha
  · intro hn hf
    obtain ⟨h1, h2, h3, h4, h5⟩ := hn
    have hzoom : Flt.lt (f64 (101 / 100)) (Flt.fin 2) = true := by decide!
    unfold ApplyImageAdjustmentsSoftware
    rw [if_neg (by omega), hz, hzoom]
    simp [h1, h2, h3, h4, h5, hf, f32_zero, f32_one, Flt.eq]

theorem zoomStage_two_samples_centre_crop_witness :
    cropRect (zoomedManager (Flt.fin 2)).current_zoom_level_ 640 480 = (160, 120, 320, 240) ∧
      ZoomTwoPixel (List.replicate 1228800 7)
        (zoomStage (zoomedManager (Flt.fin 2)).current_zoom_level_
          (List.replicate 1228800 7) 640 480 2560) 1 0 ∧
      ((zoomedManager (Flt.fin 2)).current_adjustments_.NeutralTone →
        (zoomedManager (Flt.fin 2)).current_adjustments_.filter = "" →
        ApplyImageAdjustmentsSoftware LibM.sample (zoomedManager (Flt.fin 2))
            (List.replicate 1228800 7) 640 480 2560
          = (true, zoomStage (zoomedManager (Flt.fin 2)).current_zoom_level_
              (List.replicate 1228800 7) 640 480 2560)) :=
  zoomStage_two_samples_centre_crop LibM.sample (zoomedManager (Flt.fin 2))
    (List.replicate 1228800 7) (List.length_replicate 1228800 (7 : Byte)).ge rfl 1 0
    (by decide) (by decide)

/-! ## White balance and the pixel pipeline -/

theorem ApplyImageAdjustmentsSoftware_congr (L : LibM) (s t : CameraManager) (data : Buf)
    (width height stride : Nat) (hz : t.current_zoom_level_ = s.current_zoom_level_)
    (ha : t.current_adjustments_ = s.current_adjustments_) :
    ApplyImageAdjustmentsSoftware L t data width height stride
      = ApplyImageAdjustmentsSoftware L s data width height stride := by
  simp only [ApplyImageAdjustmentsSoftware, ApplyImageFilter, hz, ha]

theorem SetWhiteBalance_keeps (s : CameraManager) (mode : String) :
    (SetWhiteBalance s mode).2.current_zoom_level_ = s.current_zoom_level_ ∧
      (SetWhiteBalance s mode).2.current_adjustments_ = s.current_adjustments_ := by
  unfold SetWhiteBalance
  by_cases c1 : s.session_active_ = false ∨ s.source_reader_ = false
  · rw [if_pos c1]
    exact ⟨rfl, rfl⟩
  · rw [if_neg c1]
    dsimp only
    by_cases c2 : mode = "auto"
    · rw [if_pos c2]
      exact ⟨rfl, rfl⟩
    · rw [if_neg c2]
      split
      · exact ⟨rfl, rfl⟩
      · split <;> exact ⟨rfl, rfl⟩

/-- C21: white balance does not reach the pixels. A manager that differs from `s` only in
the white-balance mode and the three white-balance gains, and the manager left by
`SetWhiteBalance` with any mode, make `ApplyImageAdjustmentsSoftware` return the same flag
and the same bytes as `s` does on the same frame. -/
theorem ApplyImageAdjustmentsSoftware_ignores_white_balance (L : LibM) (s : CameraManager)
    (data : Buf) (width height stride : Nat) (mode : String) (red green blue : Flt) :
    ApplyImageAdjustmentsSoftware L (withWhiteBalance s mode red green blue) data width height
        stride = ApplyImageAdjustmentsSoftware L s data width height stride ∧
      ApplyImageAdjustmentsSoftware L (SetWhiteBalance s mode).2 data width height stride
        = ApplyImageAdjustmentsSoftware L s data width height stride :=
  ⟨ApplyImageAdjustmentsSoftware_congr L s _ data width height stride rfl rfl,
    ApplyImageAdjustmentsSoftware_congr L s _ data width height stride
      (SetWhiteBalance_keeps s mode).1 (SetWhiteBalance_keeps s mode).2⟩
/-! ## Evaluations of the quality controller -/

theorem TrackProcessingTime_window (s : CameraManager) (x : Flt) :
    (TrackProcessingTime s x).processing_times_
      = if evaluation s x = some Zone.fast ∨ invokesAdaptQualityDown s x = true then []
        else windowAfterPush s x := by
  unfold invokesAdaptQualityDown evaluation TrackProcessingTime windowAfterPush
    AdaptQualityDown TryAdaptQualityUp
  dsimp only
  split_ifs <;> first | rfl | (simp_all; done) | (simp_all; exfalso; omega)

/-- C22: the run `hysteresisRun` on a fresh controller. Its last four evaluations are slow,
fast, slow, slow, and the last of them invokes `AdaptQualityDown`: the counter raised by
the slow evaluation before the fast one is not reset by the fast one, so the three most
recent evaluations at the invocation are not all slow. -/
theorem TrackProcessingTime_fast_between_slow :
    ((evaluationLog freshManager hysteresisRun).reverse.take 4).reverse
      = [(Zone.slow, false), (Zone.fast, false), (Zone.slow, false), (Zone.slow, true)] ∧
    (controllerTrace freshManager hysteresisRun).getLast? = some (34, 0, 0) := by
  decide!
theorem windowAfterPush_of_evaluation (s : CameraManager) (x : Flt)
    (h : evaluation s x ≠ none) : 5 ≤ (windowAfterPush s x).length := by
  unfold evaluation at h
  dsimp only at h
  by_cases c : 5 ≤ (windowAfterPush s x).length ∧ s.adaptive_quality_ = true
  · exact c.1
  · rw [if_neg c] at h
    exact absurd rfl h

/-- C23, as stated, fails: the fifth sample fed to a fresh controller is an evaluation (in
the slow zone) and leaves five samples in the window. -/
theorem TrackProcessingTime_evaluation_keeps_window :
    evaluation fourSamplesIn doubleTargetSample = some Zone.slow ∧
      (TrackProcessingTime fourSamplesIn doubleTargetSample).processing_times_.length = 5 := by
  decide!

/-- C23, amended: an evaluation empties the window exactly when it is in the fast zone
(`TryAdaptQualityUp` is called) or is the slow evaluation that invokes `AdaptQualityDown`;
after every other call, evaluations in the acceptable zone and the other slow evaluations
included, the window is the pushed and trimmed one, which at an evaluation holds between
5 and 30 samples. -/
theorem TrackProcessingTime_window_reset (s : CameraManager) (x : Flt) :
    (TrackProcessingTime s x).processing_times_
      = (if evaluation s x = some Zone.fast ∨ invokesAdaptQualityDown s x = true then []
        else windowAfterPush s x) ∧
    (evaluation s x ≠ none → 5 ≤ (windowAfterPush s x).length) ∧
    (s.processing_times_.length ≤ 30 → (windowAfterPush s x).length ≤ 30) := by
  refine ⟨TrackProcessingTime_window s x, windowAfterPush_of_evaluation s x, ?_⟩
  intro h
  unfold windowAfterPush
  dsimp only
  split_ifs with c
  · rw [List.length_tail, List.length_append, List.length_singleton]
    omega
  · rw [List.length_append, List.length_singleton] at c ⊢
    omega

theorem TrackProcessingTime_window_reset_witness :
    (TrackProcessingTime fourSamplesIn doubleTargetSample).processing_times_
      = (if evaluation fourSamplesIn doubleTargetSample = some Zone.fast ∨
          invokesAdaptQualityDown fourSamplesIn doubleTargetSample = true then []
        else windowAfterPush fourSamplesIn doubleTargetSample) ∧
    5 ≤ (windowAfterPush fourSamplesIn doubleTargetSample).length :=
  ⟨(TrackProcessingTime_window_reset fourSamplesIn doubleTargetSample).1,
    (TrackProcessingTime_window_reset fourSamplesIn doubleTargetSample).2.1 (by decide!)⟩
/-! ## Pacing of the capture loop -/

/-- C24: the loop of `FrameCaptureThread` does not consult `frame_interval_`. Its action is
the same whatever value the controller has stored there, it is the decision made with the
constant 33 ms, and after `AdaptQualityDown` has raised the interval of a fresh manager to
39 ms an iteration at 35 ms elapsed reads a sample where pacing by the stored interval
sleeps for 4 ms. -/
theorem FrameCaptureThread_ignores_frame_interval :
    (∀ (L : LibM) (ReadSample : Bool) (io : SampleIO) (s : CameraManager) (elapsed k : Int),
      (FrameCaptureThread.iteration L ReadSample io { s with frame_interval_ := k } elapsed).1
        = (FrameCaptureThread.iteration L ReadSample io s elapsed).1 ∧
      (FrameCaptureThread.iteration L ReadSample io s elapsed).1 = pacedDecision 33 elapsed) ∧
    (AdaptQualityDown freshManager).frame_interval_ = 39 ∧
    (FrameCaptureThread.iteration LibM.sample true onePixelSample
      (AdaptQualityDown freshManager) 35).1 = LoopAction.ReadSample ∧
    pacedDecision (AdaptQualityDown freshManager).frame_interval_ 35 = LoopAction.sleep_for 4 := by
  refine ⟨?_, by decide!, by decide!, by decide!⟩
  intro L rs io s elapsed k
  unfold FrameCaptureThread.iteration pacedDecision
  dsimp only
  constructor
  · split_ifs <;> rfl
  · split_ifs <;> first | rfl | (exfalso; omega)
/-! ## The resolution search -/

theorem argminFold (D : Nat → Nat) (M : Nat) (hD : ∀ j, D j ≤ M) (k : Nat) :
    (∀ j, j < k →
      ((List.range k).foldl (fun (acc : Nat × Nat) i => if D i < acc.2 then (i, D i) else acc)
        (0, M)).2 ≤ D j) ∧
    (∀ j, j < ((List.range k).foldl
        (fun (acc : Nat × Nat) i => if D i < acc.2 then (i, D i) else acc) (0, M)).1 →
      ((List.range k).foldl (fun (acc : Nat × Nat) i => if D i < acc.2 then (i, D i) else acc)
        (0, M)).2 < D j) ∧
    ((k = 0 ∧ (List.range k).foldl
        (fun (acc : Nat × Nat) i => if D i < acc.2 then (i, D i) else acc) (0, M) = (0, M)) ∨
      (((List.range k).foldl (fun (acc : Nat × Nat) i => if D i < acc.2 then (i, D i) else acc)
          (0, M)).1 < k ∧
        ((List.range k).foldl (fun (acc : Nat × Nat) i => if D i < acc.2 then (i, D i) else acc)
          (0, M)).2
          = D ((List.range k).foldl
              (fun (acc : Nat × Nat) i => if D i < acc.2 then (i, D i) else acc) (0, M)).1)) := by
  induction k with
  | zero =>
    refine ⟨fun j hj => absurd hj (Nat.not_lt_zero j), fun j hj => absurd hj (Nat.not_lt_zero j),
      Or.inl ⟨rfl, rfl⟩⟩
  | succ k ih =>
    rw [List.range_succ, List.foldl_append, List.foldl_cons, List.foldl_nil]
    generalize (List.range k).foldl
      (fun (acc : Nat × Nat) i => if D i < acc.2 then (i, D i) else acc) (0, M) = acc at ih
    obtain ⟨h1, h2, h3⟩ := ih
    by_cases c : D k < acc.2
    · rw [if_pos c]
      refine ⟨fun j hj => ?_, fun j hj => ?_, Or.inr ⟨Nat.lt_succ_self k, rfl⟩⟩
      · show D k ≤ D j
        by_cases hjk : j < k
        · have := h1 j hjk
          omega
        · have e : j = k := by omega
          rw [e]
      · show D k < D j
        have := h1 j hj
        omega
    · rw [if_neg c]
      refine ⟨fun j hj => ?_, h2, ?_⟩
      · by_cases hjk : j < k
        · exact h1 j hjk
        · have e : j = k := by omega
          rw [e]
          omega
      · rcases h3 with ⟨hk, hacc⟩ | ⟨hlt, heq⟩
        · right
          subst hk
          rw [hacc] at c ⊢
          have := hD 0
          exact ⟨Nat.lt_succ_self 0, by show M = D 0; simp only at c; omega⟩
        · exact Or.inr ⟨by omega, heq⟩

theorem argminFold_final (D : Nat → Nat) (M : Nat) (hD : ∀ j, D j ≤ M) (n : Nat)
    (hn : 0 < n) :
    ((List.range n).foldl (fun (acc : Nat × Nat) i => if D i < acc.2 then (i, D i) else acc)
        (0, M)).1 < n ∧
    (∀ j, j < n →
      D ((List.range n).foldl (fun (acc : Nat × Nat) i => if D i < acc.2 then (i, D i) else acc)
        (0, M)).1 ≤ D j) ∧
    (∀ j, j < ((List.range n).foldl
        (fun (acc : Nat × Nat) i => if D i < acc.2 then (i, D i) else acc) (0, M)).1 →
      D ((List.range n).foldl (fun (acc : Nat × Nat) i => if D i < acc.2 then (i, D i) else acc)
        (0, M)).1 < D j) := by
  obtain ⟨h1, h2, h3⟩ := argminFold D M hD n
  rcases h3 with ⟨hk, _⟩ | ⟨hlt, heq⟩
  · omega
  · rw [← heq]
    exact ⟨hlt, h1, h2⟩

/-- C26: with products that fit in 32 bits, `FindClosestResolution` on a non-empty list
returns true and the first element of the list that minimises `|w*h - width*height|`; on an
empty list it returns false and leaves the requested width and height as they were. -/
theorem FindClosestResolution_nearest_by_pixels (s : CameraManager) (width height : Nat)
    (hreq : width * height < 4294967296)
    (hres : ∀ r, r ∈ s.supported_resolutions_ → r.width * r.height < 4294967296) :
    (s.supported_resolutions_ = [] →
      FindClosestResolution s width height = (false, width, height)) ∧
    (s.supported_resolutions_ ≠ [] →
      ∃ (i : Nat) (r : CameraResolution), s.supported_resolutions_[i]? = some r ∧
        FindClosestResolution s width height = (true, r.width, r.height) ∧
        (∀ (j : Nat) (r2 : CameraResolution), s.supported_resolutions_[j]? = some r2 →
          pixelDiff r width height ≤ pixelDiff r2 width height) ∧
        (∀ (j : Nat) (r2 : CameraResolution), j < i → s.supported_resolutions_[j]? = some r2 →
          pixelDiff r width height < pixelDiff r2 width height)) := by
  constructor
  · intro h
    unfold FindClosestResolution
    rw [if_pos h]
  · intro hne
    have hpos : 0 < s.supported_resolutions_.length := List.length_pos.mpr hne
    have hD : ∀ j,
        (fun i => if u32 (width * height)
              < u32 ((s.supported_resolutions_.getD i {}).width
                  * (s.supported_resolutions_.getD i {}).height)
            then u32 ((s.supported_resolutions_.getD i {}).width
                  * (s.supported_resolutions_.getD i {}).height) - u32 (width * height)
            else u32 (width * height)
              - u32 ((s.supported_resolutions_.getD i {}).width
                  * (s.supported_resolutions_.getD i {}).height)) j ≤ 4294967295 := by
      intro j
      dsimp only
      have a1 : u32 (width * height) < 4294967296 := Nat.mod_lt _ (by decide)
      have a2 : u32 ((s.supported_resolutions_.getD j {}).width
          * (s.supported_resolutions_.getD j {}).height) < 4294967296 :=
        Nat.mod_lt _ (by decide)
      split_ifs <;> omega
    obtain ⟨k1, k2, k3⟩ := argminFold_final _ 4294967295 hD _ hpos
    have hdiff : ∀ (j : Nat) (r2 : CameraResolution), s.supported_resolutions_[j]? = some r2 →
        (if u32 (width * height)
              < u32 ((s.supported_resolutions_.getD j {}).width
                  * (s.supported_resolutions_.getD j {}).height)
            then u32 ((s.supported_resolutions_.getD j {}).width
                  * (s.supported_resolutions_.getD j {}).height) - u32 (width * height)
            else u32 (width * height)
              - u32 ((s.supported_resolutions_.getD j {}).width
                  * (s.supported_resolutions_.getD j {}).height))
          = pixelDiff r2 width height ∧ j < s.supported_resolutions_.length := by
      intro j r2 hj
      have hmem : r2 ∈ s.supported_resolutions_ := List.getElem?_mem hj
      have hfit := hres r2 hmem
      have hg : s.supported_resolutions_.getD j {} = r2 := by
        rw [List.getD_eq_getElem?_getD, hj]
        rfl
      have hlt : j < s.supported_resolutions_.length := by
        rcases Nat.lt_or_ge j s.supported_resolutions_.length with h | h
        · exact h
        · rw [List.getElem?_eq_none h] at hj
          exact Option.noConfusion hj
      rw [hg]
      unfold u32 pixelDiff
      rw [Nat.mod_eq_of_lt hreq, Nat.mod_eq_of_lt hfit]
      exact ⟨by split_ifs <;> omega, hlt⟩
    obtain ⟨r, hr⟩ : ∃ r, s.supported_resolutions_[((List.range
        s.supported_resolutions_.length).foldl (fun (acc : Nat × Nat) i =>
          if (if u32 (width * height)
              < u32 ((s.supported_resolutions_.getD i {}).width
                  * (s.supported_resolutions_.getD i {}).height)
            then u32 ((s.supported_resolutions_.getD i {}).width
                  * (s.supported_resolutions_.getD i {}).height) - u32 (width * height)
            else u32 (width * height)
              - u32 ((s.supported_resolutions_.getD i {}).width
                  * (s.supported_resolutions_.getD i {}).height)) < acc.2
          then (i, (if u32 (width * height)
              < u32 ((s.supported_resolutions_.getD i {}).width
                  * (s.supported_resolutions_.getD i {}).height)
            then u32 ((s.supported_resolutions_.getD i {}).width
                  * (s.supported_resolutions_.getD i {}).height) - u32 (width * height)
            else u32 (width * height)
              - u32 ((s.supported_resolutions_.getD i {}).width
                  * (s.supported_resolutions_.getD i {}).height)))
          else acc) (0, 4294967295)).1]? = some r :=
      ⟨_, List.getElem?_eq_getElem k1⟩
    refine ⟨_, r, hr, ?_, ?_, ?_⟩
    · unfold FindClosestResolution
      rw [if_neg hne]
      dsimp only
      rw [List.getD_eq_getElem?_getD, hr]
      rfl
    · intro j r2 hj
      have e1 := hdiff _ r hr
      have e2 := hdiff j r2 hj
      have := k2 j e2.2
      rw [e1.1, e2.1] at this
      exact this
    · intro j r2 hji hj
      have e1 := hdiff _ r hr
      have e2 := hdiff j r2 hj
      have := k3 j hji
      rw [e1.1, e2.1] at this
      exact this

theorem FindClosestResolution_nearest_by_pixels_witness :
    ∃ (i : Nat) (r : CameraResolution), (withResolutions [⟨640, 480⟩, ⟨1280, 720⟩, ⟨1920, 1080⟩]).supported_resolutions_[i]?
        = some r ∧
      FindClosestResolution (withResolutions [⟨640, 480⟩, ⟨1280, 720⟩, ⟨1920, 1080⟩]) 1000 700
        = (true, r.width, r.height) ∧
      (∀ (j : Nat) (r2 : CameraResolution), (withResolutions [⟨640, 480⟩, ⟨1280, 720⟩, ⟨1920, 1080⟩]).supported_resolutions_[j]?
          = some r2 → pixelDiff r 1000 700 ≤ pixelDiff r2 1000 700) ∧
      (∀ (j : Nat) (r2 : CameraResolution), j < i →
        (withResolutions [⟨640, 480⟩, ⟨1280, 720⟩, ⟨1920, 1080⟩]).supported_resolutions_[j]?
          = some r2 → pixelDiff r 1000 700 < pixelDiff r2 1000 700) :=
  (FindClosestResolution_nearest_by_pixels
    (withResolutions [⟨640, 480⟩, ⟨1280, 720⟩, ⟨1920, 1080⟩]) 1000 700 (by decide)
    (by decide)).2 (by decide)
/-! ## Pixels the zoom loop skips -/

theorem rd_wr_zero (d : Buf) (i : Nat) : rd (wr d i 0) i = 0 := by
  by_cases h : i < d.length
  · exact rd_wr_same d i 0 h
  · simp [rd, wr, List.getD_eq_getElem?_getD, List.getElem?_set, h]

theorem rd_clearFrame (data : Buf) (size i : Nat) (h : i < size) :
    rd (clearFrame data size) i = 0 := by
  unfold clearFrame
  induction size with
  | zero => omega
  | succ n ih =>
    rw [List.range_succ, List.foldl_append, List.foldl_cons, List.foldl_nil]
    by_cases c : i = n
    · subst c
      exact rd_wr_zero _ _
    · rw [rd_wr_ne _ _ _ _ (fun e => c e.symm)]
      exact ih (by omega)

theorem storeRow_skipped (V : Nat → Option (Byte × Byte × Byte × Byte)) (base k : Nat)
    (d : Buf) (hk : 4 * k < 4294967296) (px c : Nat) (hc : c < 4) (ht : V px = none) :
    rd ((List.range k).foldl (fun d x => putOpt d (base + u32 (x * 4)) (V x)) d)
        (base + 4 * px + c) = rd d (base + 4 * px + c) := by
  induction k with
  | zero => rfl
  | succ k ih =>
    have hu : u32 (k * 4) = k * 4 := Nat.mod_eq_of_lt (by omega)
    rw [List.range_succ, List.foldl_append, List.foldl_cons, List.foldl_nil]
    by_cases hk2 : px = k
    · subst hk2
      rw [ht]
      show rd ((List.range px).foldl _ d) _ = _
      exact storeRow_untouched V base px d _ (by omega) (by omega)
    · rw [rd_putOpt_other _ _ _ _ (by omega)]
      exact ih (by omega)

theorem storeLoop_untouched (W : Nat → Nat → Option (Byte × Byte × Byte × Byte))
    (w stride k : Nat) (d : Buf) (hs : 4 * w ≤ stride) (hk : stride * k < 4294967296)
    (i : Nat) (h : stride * k ≤ i) :
    rd (storeLoop W w k stride d) i = rd d i := by
  induction k with
  | zero => rfl
  | succ k ih =>
    have e1 : stride * (k + 1) = k * stride + stride := by ring
    have e2 : stride * k = k * stride := by ring
    have hu : u32 (k * stride) = k * stride := Nat.mod_eq_of_lt (by omega)
    rw [storeLoop_succ, hu, storeRow_untouched _ _ _ _ _ (by omega) (by omega)]
    exact ih (by omega) (by omega)

theorem storeLoop_skipped (W : Nat → Nat → Option (Byte × Byte × Byte × Byte))
    (w stride k : Nat) (d : Buf) (hs : 4 * w ≤ stride)
    (hk : stride * k < 4294967296) (x y c : Nat) (hx : x < w) (hy : y < k) (hc : c < 4)
    (ht : W y x = none) :
    rd (storeLoop W w k stride d) (y * stride + 4 * x + c) = rd d (y * stride + 4 * x + c) := by
  induction k with
  | zero => omega
  | succ k ih =>
    have e1 : stride * (k + 1) = k * stride + stride := by ring
    have e2 : stride * k = k * stride := by ring
    have hu : u32 (k * stride) = k * stride := Nat.mod_eq_of_lt (by omega)
    have hw : 4 * w < 4294967296 := by omega
    rw [storeLoop_succ, hu]
    by_cases hyk : y < k
    · have e3 : (y + 1) * stride ≤ k * stride := Nat.mul_le_mul_right stride hyk
      rw [Nat.succ_mul] at e3
      rw [storeRow_untouched _ _ _ _ _ hw (by omega)]
      exact ih (by omega) hyk
    · have hyk2 : y = k := by omega
      subst hyk2
      rw [storeRow_skipped (W y) _ _ _ hw _ _ hc ht]
      exact storeLoop_untouched W w stride y d hs (by omega) _ (by omega)

theorem zoomStage_eq_storeLoop_cleared (z : Flt) (data : Buf) (width height stride : Nat) :
    zoomStage z data width height stride
      = storeLoop (zoomSample ((List.range (u32 (stride * height))).map (rd data))
          width height stride (cropRect z width height).1 (cropRect z width height).2.1
          (cropRect z width height).2.2.1 (cropRect z width height).2.2.2)
          width height stride (clearFrame data (u32 (stride * height))) := by
  unfold zoomStage storeLoop cropRect clearFrame
  simp only [zoomPixel_eq]

theorem zoomSample_none_iff (temp : Buf) (z : Flt) (width height stride y x : Nat) :
    zoomSample temp width height stride (cropRect z width height).1
        (cropRect z width height).2.1 (cropRect z width height).2.2.1
        (cropRect z width height).2.2.2 y x = none ↔ zoomSkips z width height y x = true := by
  unfold zoomSample zoomSkips
  dsimp only
  split_ifs with h
  · simp [h]
  · simp [h]

theorem zoomStage_skipped (z : Flt) (data : Buf) (width height stride : Nat)
    (hl : FrameLayout data width height stride) (x y c : Nat) (hx : x < width)
    (hy : y < height) (hc : c < 4) (hskip : zoomSkips z width height y x = true) :
    rd (zoomStage z data width height stride) (pixelAt stride x y + c) = 0 := by
  obtain ⟨hw, hh, hs, hlen, hk⟩ := hl
  have hsz : u32 (stride * height) = stride * height := Nat.mod_eq_of_lt hk
  rw [zoomStage_eq_storeLoop_cleared, hsz]
  unfold pixelAt
  rw [storeLoop_skipped _ _ _ _ _ hs hk x y c hx hy hc
    ((zoomSample_none_iff _ z width height stride y x).mpr hskip)]
  apply rd_clearFrame
  have e3 : (y + 1) * stride ≤ height * stride := Nat.mul_le_mul_right stride hy
  rw [Nat.succ_mul] at e3
  have e4 : stride * height = height * stride := Nat.mul_comm _ _
  omega

theorem rd_replicate (n i : Nat) (v : Byte) (h : i < n) : rd (List.replicate n v) i = v := by
  unfold rd
  simp [List.getD_eq_getElem?_getD, h]

theorem zoomStage_two_colour (data : Buf) (hlen : 1228800 ≤ data.length) (x y c : Nat)
    (hx : x < 640) (hy : y < 480) (hc : c < 3) :
    (rd (zoomStage (Flt.fin 2) data 640 480 2560) (pixelAt 2560 x y + c)).val
      = bilinearExact (rd data (pixelAt 2560 (160 + x / 2) (120 + y / 2) + c))
          (rd data (pixelAt 2560 (160 + x / 2 + 1) (120 + y / 2) + c))
          (rd data (pixelAt 2560 (160 + x / 2) (120 + y / 2 + 1) + c))
          (rd data (pixelAt 2560 (160 + x / 2 + 1) (120 + y / 2 + 1) + c))
          (((x % 2 : ℕ) : ℚ) / 2) (((y % 2 : ℕ) : ℚ) / 2) := by
  have hsrc : ∀ (sx sy : Nat), sx ≤ 480 → sy ≤ 360 →
      rd ((List.range 1228800).map (rd data)) (u32 (pixelAt 2560 sx sy + c))
        = rd data (pixelAt 2560 sx sy + c) := by
    intro sx sy h1 h2
    have e : u32 (pixelAt 2560 sx sy + c) = pixelAt 2560 sx sy + c := by
      unfold u32 pixelAt
      omega
    rw [e]
    exact rd_map_range data _ _ (by unfold pixelAt; omega)
  rw [zoomStage_two_pixel data hlen x y c hx hy (by omega),
    ← hsrc _ _ (by omega) (by omega), ← hsrc _ _ (by omega) (by omega),
    ← hsrc _ _ (by omega) (by omega), ← hsrc _ _ (by omega) (by omega),
    ← zoomChannel_exact _ _ _ _ _ _ _ (half_weight x) (half_weight y) c]
  have hc3 : c = 0 ∨ c = 1 ∨ c = 2 := by omega
  rcases hc3 with h | h | h <;> subst h <;> rfl

theorem zoomStage_two_alpha (data : Buf) (hlen : 1228800 ≤ data.length) (x y : Nat)
    (hx : x < 640) (hy : y < 480) :
    rd (zoomStage (Flt.fin 2) data 640 480 2560) (pixelAt 2560 x y + 3)
      = rd data (pixelAt 2560 (160 + x / 2) (120 + y / 2) + 3) := by
  have hlast : ∀ a b c d : Byte, chan4 3 (a, b, c, d) = d := fun _ _ _ _ => rfl
  rw [zoomStage_two_pixel data hlen x y 3 hx hy (by omega), hlast]
  exact rd_map_range data _ _ (by unfold pixelAt; omega)

theorem bilinearExact_uniform_half : bilinearExact 200 200 200 200 (1 / 2) (1 / 2) = 200 := by
  decide!

/-- C25, as stated, fails: at zoom 2.0 the last pixel (639, 479) of a 640x480 frame whose
bytes are all 200 is not black: its colour bytes and its alpha byte are 200. -/
theorem zoomStage_two_last_pixel_not_black :
    (rd (zoomStage (Flt.fin 2) uniformFrame 640 480 2560) (pixelAt 2560 639 479 + 0)).val = 200 ∧
    (rd (zoomStage (Flt.fin 2) uniformFrame 640 480 2560) (pixelAt 2560 639 479 + 1)).val = 200 ∧
    (rd (zoomStage (Flt.fin 2) uniformFrame 640 480 2560) (pixelAt 2560 639 479 + 2)).val = 200 ∧
    rd (zoomStage (Flt.fin 2) uniformFrame 640 480 2560) (pixelAt 2560 639 479 + 3) = 200 := by
  have hlen : 1228800 ≤ uniformFrame.length := (List.length_replicate 1228800 (200 : Byte)).ge
  have hrd : ∀ i, i < 1228800 → rd uniformFrame i = 200 :=
    fun i hi => rd_replicate 1228800 i 200 hi
  have hwx : (((639 % 2 : ℕ) : ℚ) / 2) = 1 / 2 := by norm_num
  have hcol : ∀ c, c < 3 →
      (rd (zoomStage (Flt.fin 2) uniformFrame 640 480 2560) (pixelAt 2560 639 479 + c)).val
        = 200 := by
    intro c hc
    rw [zoomStage_two_colour uniformFrame hlen 639 479 c (by decide) (by decide) hc,
      hrd _ (by unfold pixelAt; omega), hrd _ (by unfold pixelAt; omega),
      hrd _ (by unfold pixelAt; omega), hrd _ (by unfold pixelAt; omega), hwx]
    exact bilinearExact_uniform_half
  refine ⟨hcol 0 (by decide), hcol 1 (by decide), hcol 2 (by decide), ?_⟩
  rw [zoomStage_two_alpha uniformFrame hlen 639 479 (by decide) (by decide)]
  exact hrd _ (by unfold pixelAt; omega)

/-- C25, amended: a destination pixel for which the bounds guard of the zoom loop fires is
left at the cleared value, all four bytes 0; for a 640x480 frame at zoom 2.0 the guard
fires for no pixel, the last row and the last column included. -/
theorem zoomStage_skipped_pixels_black (z : Flt) (data : Buf) (width height stride : Nat)
    (hl : FrameLayout data width height stride) (x y : Nat) (hx : x < width)
    (hy : y < height) :
    (zoomSkips z width height y x = true →
      ∀ c, c < 4 → rd (zoomStage z data width height stride) (pixelAt stride x y + c) = 0) ∧
    (∀ x2 y2, x2 < 640 → y2 < 480 → zoomSkips (Flt.fin 2) 640 480 y2 x2 = false) := by
  refine ⟨fun hskip c hc => zoomStage_skipped z data width height stride hl x y c hx hy hc hskip,
    ?_⟩
  intro x2 y2 hx2 hy2
  cases hsk : zoomSkips (Flt.fin 2) 640 480 y2 x2 with
  | false => rfl
  | true =>
    have hnone := (zoomSample_none_iff [] (Flt.fin 2) 640 480 2560 y2 x2).mpr hsk
    rw [cropRect_two, zoomSample_two [] x2 y2 hx2 hy2] at hnone
    exact Option.noConfusion hnone

theorem zoomStage_skipped_pixels_black_witness :
    rd (zoomStage (Flt.fin 2) (bytes [30, 20, 10, 255]) 1 1 4) (pixelAt 4 0 0 + 3) = 0 ∧
    zoomSkips (Flt.fin 2) 640 480 479 639 = false :=
  ⟨(zoomStage_skipped_pixels_black (Flt.fin 2) (bytes [30, 20, 10, 255]) 1 1 4 (by decide) 0 0
      (by decide) (by decide)).1 (by decide!) 3 (by decide),
    (zoomStage_skipped_pixels_black (Flt.fin 2) (bytes [30, 20, 10, 255]) 1 1 4 (by decide) 0 0
      (by decide) (by decide)).2 639 479 (by decide) (by decide)⟩
/-! ## The bitmap encoder -/

theorem length_put3 (d : Buf) (p : Nat) (t : Byte × Byte × Byte) :
    (put3 d p t).length = d.length := by
  simp [put3, length_wr]

theorem rd_put3_other (d : Buf) (p i : Nat) (t : Byte × Byte × Byte)
    (h : i < p ∨ p + 3 ≤ i) : rd (put3 d p t) i = rd d i := by
  simp only [put3]
  rw [rd_wr_ne _ _ _ _ (by omega), rd_wr_ne _ _ _ _ (by omega), rd_wr_ne _ _ _ _ (by omega)]

theorem rd_put3_chan (d : Buf) (p c : Nat) (t : Byte × Byte × Byte)
    (hp : p + 2 < d.length) (hc : c < 3) : rd (put3 d p t) (p + c) = chan c t := by
  simp only [put3]
  have hc3 : c = 0 ∨ c = 1 ∨ c = 2 := by omega
  have n01 : p ≠ p + 1 := by omega
  have n02 : p ≠ p + 2 := by omega
  have n12 : p + 1 ≠ p + 2 := by omega
  rcases hc3 with h | h | h <;> subst h
  · show rd _ p = _
    rw [rd_wr_ne _ _ _ _ n02.symm, rd_wr_ne _ _ _ _ n01.symm, rd_wr_same _ _ _ (by omega)]
    rfl
  · rw [rd_wr_ne _ _ _ _ n12.symm, rd_wr_same _ _ _ (by rw [length_wr]; omega)]
    rfl
  · rw [rd_wr_same _ _ _ (by rw [length_wr, length_wr]; omega)]
    rfl

theorem copyRow_length (V : Nat → Byte × Byte × Byte) (base k : Nat) (d : Buf) :
    ((List.range k).foldl (fun out x => put3 out (base + 3 * x) (V x)) d).length = d.length :=
  foldl_length_preserving _ (fun d _ => length_put3 d _ _) _ d

theorem copyRow_untouched (V : Nat → Byte × Byte × Byte) (base k : Nat) (d : Buf) (i : Nat)
    (h : i < base ∨ base + 3 * k ≤ i) :
    rd ((List.range k).foldl (fun out x => put3 out (base + 3 * x) (V x)) d) i = rd d i := by
  induction k with
  | zero => rfl
  | succ k ih =>
    rw [List.range_succ, List.foldl_append, List.foldl_cons, List.foldl_nil,
      rd_put3_other _ _ _ _ (by omega)]
    exact ih (by omega)

theorem copyRow_pixel (V : Nat → Byte × Byte × Byte) (base k : Nat) (d : Buf)
    (hlen : base + 3 * k ≤ d.length) (px c : Nat) (hpx : px < k) (hc : c < 3) :
    rd ((List.range k).foldl (fun out x => put3 out (base + 3 * x) (V x)) d)
        (base + 3 * px + c) = chan c (V px) := by
  induction k with
  | zero => omega
  | succ k ih =>
    rw [List.range_succ, List.foldl_append, List.foldl_cons, List.foldl_nil]
    by_cases hk2 : px < k
    · rw [rd_put3_other _ _ _ _ (by omega)]
      exact ih (by omega) hk2
    · have hpk : px = k := by omega
      subst hpk
      exact rd_put3_chan _ _ _ _ (by rw [copyRow_length]; omega) hc

theorem copyLoop_succ (G : Nat → Nat → Byte × Byte × Byte) (base R w k : Nat) (d : Buf) :
    copyLoop G base R w (k + 1) d
      = (List.range w).foldl (fun out x => put3 out (base + u32 (k * R) + 3 * x) (G k x))
          (copyLoop G base R w k d) := by
  simp [copyLoop, List.range_succ, List.foldl_append]

theorem copyLoop_length (G : Nat → Nat → Byte × Byte × Byte) (base R w k : Nat) (d : Buf) :
    (copyLoop G base R w k d).length = d.length := by
  induction k with
  | zero => rfl
  | succ k ih => rw [copyLoop_succ, copyRow_length, ih]

theorem copyLoop_untouched (G : Nat → Nat → Byte × Byte × Byte) (base R w k : Nat) (d : Buf)
    (hs : 3 * w ≤ R) (hk : R * k < 4294967296) (i : Nat) (h : i < base ∨ base + R * k ≤ i) :
    rd (copyLoop G base R w k d) i = rd d i := by
  induction k with
  | zero => rfl
  | succ k ih =>
    have e1 : R * (k + 1) = k * R + R := by ring
    have e2 : R * k = k * R := by ring
    have hu : u32 (k * R) = k * R := Nat.mod_eq_of_lt (by omega)
    rw [copyLoop_succ, hu, copyRow_untouched _ _ _ _ _ (by omega)]
    exact ih (by omega) (by omega)

theorem copyLoop_pixel (G : Nat → Nat → Byte × Byte × Byte) (base R w k : Nat) (d : Buf)
    (hs : 3 * w ≤ R) (hlen : base + R * k ≤ d.length) (hk : R * k < 4294967296)
    (x y c : Nat) (hx : x < w) (hy : y < k) (hc : c < 3) :
    rd (copyLoop G base R w k d) (base + y * R + 3 * x + c) = chan c (G y x) := by
  induction k with
  | zero => omega
  | succ k ih =>
    have e1 : R * (k + 1) = k * R + R := by ring
    have e2 : R * k = k * R := by ring
    have hu : u32 (k * R) = k * R := Nat.mod_eq_of_lt (by omega)
    rw [copyLoop_succ, hu]
    by_cases hyk : y < k
    · have e3 : (y + 1) * R ≤ k * R := Nat.mul_le_mul_right R hyk
      rw [Nat.succ_mul] at e3
      rw [copyRow_untouched _ _ _ _ _ (by omega)]
      exact ih (by omega) (by omega) hyk
    · have hyk2 : y = k := by omega
      subst hyk2
      exact copyRow_pixel (G y) _ _ _ (by rw [copyLoop_length]; omega) _ _ hx hc

theorem length_put32 (d : Buf) (off v : Nat) : (put32 d off v).length = d.length := by
  simp [put32, length_wr]

theorem length_put16 (d : Buf) (off v : Nat) : (put16 d off v).length = d.length := by
  simp [put16, length_wr]

theorem length_resize (v : Buf) (n : Nat) : (resize v n).length = n := by
  simp [resize]
  omega

theorem rd_put32_other (d : Buf) (off v i : Nat) (h : i < off ∨ off + 4 ≤ i) :
    rd (put32 d off v) i = rd d i := by
  simp only [put32]
  rw [rd_wr_ne _ _ _ _ (by omega), rd_wr_ne _ _ _ _ (by omega), rd_wr_ne _ _ _ _ (by omega),
    rd_wr_ne _ _ _ _ (by omega)]

theorem rd_put16_other (d : Buf) (off v i : Nat) (h : i < off ∨ off + 2 ≤ i) :
    rd (put16 d off v) i = rd d i := by
  simp only [put16]
  rw [rd_wr_ne _ _ _ _ (by omega), rd_wr_ne _ _ _ _ (by omega)]

theorem le32_congr (d e : Buf) (off : Nat)
    (h : ∀ i, off ≤ i → i < off + 4 → rd d i = rd e i) : le32 d off = le32 e off := by
  unfold le32
  rw [h off (by omega) (by omega), h (off + 1) (by omega) (by omega),
    h (off + 2) (by omega) (by omega), h (off + 3) (by omega) (by omega)]

theorem le32_put32 (d : Buf) (off v : Nat) (hoff : off + 3 < d.length)
    (hv : v < 4294967296) : le32 (put32 d off v) off = v := by
  unfold le32 put32
  dsimp only
  have n01 : off ≠ off + 1 := by omega
  have n02 : off ≠ off + 2 := by omega
  have n03 : off ≠ off + 3 := by omega
  have n12 : off + 1 ≠ off + 2 := by omega
  have n13 : off + 1 ≠ off + 3 := by omega
  have n23 : off + 2 ≠ off + 3 := by omega
  rw [rd_wr_ne _ _ _ _ n03.symm, rd_wr_ne _ _ _ _ n02.symm, rd_wr_ne _ _ _ _ n01.symm,
    rd_wr_same _ _ _ (by omega), rd_wr_ne _ _ _ _ n13.symm, rd_wr_ne _ _ _ _ n12.symm,
    rd_wr_same _ _ _ (by rw [length_wr]; omega), rd_wr_ne _ _ _ _ n23.symm,
    rd_wr_same _ _ _ (by rw [length_wr, length_wr]; omega),
    rd_wr_same _ _ _ (by rw [length_wr, length_wr, length_wr]; omega)]
  show v % 256 + 256 * (v / 256 % 256) + 65536 * (v / 65536 % 256)
    + 16777216 * (v / 16777216 % 256) = v
  omega

theorem le32_put32_other (d : Buf) (o v off : Nat) (h : off + 4 ≤ o ∨ o + 4 ≤ off) :
    le32 (put32 d o v) off = le32 d off :=
  le32_congr _ _ _ (fun i h1 h2 => rd_put32_other d o v i (by omega))

theorem le32_put16_other (d : Buf) (o v off : Nat) (h : off + 4 ≤ o ∨ o + 2 ≤ off) :
    le32 (put16 d o v) off = le32 d off :=
  le32_congr _ _ _ (fun i h1 h2 => rd_put16_other d o v i (by omega))

theorem bmp_sizes (w h : Nat) (hh : 0 < h) (hfit : 54 + bmpRowSize w * h < 4294967296) :
    u32 (u32 (w * 3) + 3) / 4 * 4 = bmpRowSize w ∧
      u32 (bmpRowSize w * h) = bmpRowSize w * h ∧
      u32 (54 + bmpRowSize w * h) = 54 + bmpRowSize w * h ∧
      3 * w ≤ bmpRowSize w ∧ bmpRowSize w < 3 * w + 4 ∧ bmpRowSize w % 4 = 0 := by
  have h1 : bmpRowSize w ≤ bmpRowSize w * h := Nat.le_mul_of_pos_right _ hh
  have h2 : 3 * w ≤ bmpRowSize w ∧ bmpRowSize w < 3 * w + 4 ∧ bmpRowSize w % 4 = 0 := by
    unfold bmpRowSize
    omega
  refine ⟨?_, Nat.mod_eq_of_lt (by omega), Nat.mod_eq_of_lt hfit, h2⟩
  have e1 : u32 (w * 3) = w * 3 := Nat.mod_eq_of_lt (by omega)
  have e2 : u32 (w * 3 + 3) = w * 3 + 3 := Nat.mod_eq_of_lt (by omega)
  rw [e1, e2]
  unfold bmpRowSize
  omega

theorem FrameToBMP_shape (data : Buf) (width height stride : Nat) (bmpData : Buf)
    (hw : 0 < width) (hh : 0 < height)
    (hfit : 54 + bmpRowSize width * height < 4294967296) :
    ∃ hdr : Buf, hdr.length = 54 + bmpRowSize width * height ∧
      le32 hdr 2 = 54 + bmpRowSize width * height ∧
      le32 hdr 22 = 4294967296 - height ∧
      FrameToBMP data width height stride bmpData
        = (true, copyLoop (fun y x => (rd data (u32 (y * stride) + 4 * x),
              rd data (u32 (y * stride) + 4 * x + 1), rd data (u32 (y * stride) + 4 * x + 2)))
            54 (bmpRowSize width) width height hdr) := by
  obtain ⟨s1, s2, s3, s4, s5, s6⟩ := bmp_sizes width height hh hfit
  have hh2 : height < 4294967296 := by
    have : height ≤ bmpRowSize width * height := Nat.le_mul_of_pos_left _ (by omega)
    omega
  refine ⟨put32 (put32 (put32 (put32 (put32 (put32 (put16 (put16 (put32 (put32 (put32 (put32
    (put32 (put32 (wr (wr (resize bmpData (54 + bmpRowSize width * height)) 0 66) 1 77) 2
      (54 + bmpRowSize width * height)) 6 0) 10 54) 14 40) 18 width) 22 (u32sub 0 height))
      26 1) 28 24) 30 0) 34 (bmpRowSize width * height)) 38 0) 42 0) 46 0) 50 0,
    ?len, ?fs, ?ht, ?eq⟩
  case eq =>
    unfold FrameToBMP
    rw [if_neg (by omega)]
    dsimp only
    rw [s1, s2, s3]
    rfl
  case len =>
    simp only [length_put32, length_put16, length_wr, length_resize]
  case fs =>
    rw [le32_put32_other _ _ _ _ (by decide), le32_put32_other _ _ _ _ (by decide),
      le32_put32_other _ _ _ _ (by decide), le32_put32_other _ _ _ _ (by decide),
      le32_put32_other _ _ _ _ (by decide), le32_put32_other _ _ _ _ (by decide),
      le32_put16_other _ _ _ _ (by decide), le32_put16_other _ _ _ _ (by decide),
      le32_put32_other _ _ _ _ (by decide), le32_put32_other _ _ _ _ (by decide),
      le32_put32_other _ _ _ _ (by decide), le32_put32_other _ _ _ _ (by decide),
      le32_put32_other _ _ _ _ (by decide)]
    exact le32_put32 _ _ _ (by rw [length_wr, length_wr, length_resize]; omega) hfit
  case ht =>
    rw [le32_put32_other _ _ _ _ (by decide), le32_put32_other _ _ _ _ (by decide),
      le32_put32_other _ _ _ _ (by decide), le32_put32_other _ _ _ _ (by decide),
      le32_put32_other _ _ _ _ (by decide), le32_put32_other _ _ _ _ (by decide),
      le32_put16_other _ _ _ _ (by decide), le32_put16_other _ _ _ _ (by decide)]
    have e : u32sub 0 height = 4294967296 - height := by
      unfold u32sub
      omega
    rw [e]
    exact le32_put32 _ _ _ (by simp only [length_put32, length_wr, length_resize]; omega)
      (by omega)

/-- C29: for a frame with width and height at least 1 whose bitmap fits in 32 bits,
`FrameToBMP` returns true with an output of exactly 54 + R*height bytes, R being 3*width
rounded up to a multiple of 4; the little-endian file-size field at offset 2 holds that
length and the height field at offset 22 holds -height (rows stored top-down); the output
byte at 54 + y*R + 3*x + c is the input byte at y*stride + 4*x + c for every pixel and
c < 3 (alpha dropped); and the function returns false when width or height is 0. -/
theorem FrameToBMP_faithful (data : Buf) (width height stride : Nat) (bmpData : Buf)
    (hw : 0 < width) (hh : 0 < height)
    (hfit : 54 + bmpRowSize width * height < 4294967296)
    (hst : stride * height < 4294967296) :
    (FrameToBMP data width height stride bmpData).1 = true ∧
    (FrameToBMP data width height stride bmpData).2.length = 54 + bmpRowSize width * height ∧
    (3 * width ≤ bmpRowSize width ∧ bmpRowSize width < 3 * width + 4 ∧
      bmpRowSize width % 4 = 0) ∧
    le32 (FrameToBMP data width height stride bmpData).2 2 = 54 + bmpRowSize width * height ∧
    le32 (FrameToBMP data width height stride bmpData).2 22 = 4294967296 - height ∧
    (∀ x y c, x < width → y < height → c < 3 →
      rd (FrameToBMP data width height stride bmpData).2
          (54 + y * bmpRowSize width + 3 * x + c) = rd data (y * stride + 4 * x + c)) ∧
    (∀ w2 h2, w2 = 0 ∨ h2 = 0 → (FrameToBMP data w2 h2 stride bmpData).1 = false) := by
  obtain ⟨hdr, hlen, hfs, hht, heq⟩ := FrameToBMP_shape data width height stride bmpData hw hh hfit
  obtain ⟨s1, s2, s3, s4, s5, s6⟩ := bmp_sizes width height hh hfit
  rw [heq]
  refine ⟨rfl, ?_, ⟨s4, s5, s6⟩, ?_, ?_, ?_, ?_⟩
  · show (copyLoop _ _ _ _ _ hdr).length = _
    rw [copyLoop_length, hlen]
  · show le32 (copyLoop _ _ _ _ _ hdr) 2 = _
    rw [le32_congr _ hdr 2 (fun i h1 h2 => copyLoop_untouched _ _ _ _ _ _ s4 (by omega) i
      (Or.inl (by omega))), hfs]
  · show le32 (copyLoop _ _ _ _ _ hdr) 22 = _
    rw [le32_congr _ hdr 22 (fun i h1 h2 => copyLoop_untouched _ _ _ _ _ _ s4 (by omega) i
      (Or.inl (by omega))), hht]
  · intro x y c hx hy hc
    show rd (copyLoop _ _ _ _ _ hdr) _ = _
    rw [copyLoop_pixel _ _ _ _ _ _ s4 (by omega) (by omega) x y c hx hy hc]
    have e3 : (y + 1) * stride ≤ height * stride := Nat.mul_le_mul_right stride hy
    rw [Nat.succ_mul] at e3
    have e4 : stride * height = height * stride := Nat.mul_comm _ _
    have hu : u32 (y * stride) = y * stride := Nat.mod_eq_of_lt (by omega)
    rw [hu]
    have hc3 : c = 0 ∨ c = 1 ∨ c = 2 := by omega
    rcases hc3 with h | h | h <;> subst h <;> rfl
  · intro w2 h2 hz
    unfold FrameToBMP
    rw [if_pos hz]

theorem FrameToBMP_faithful_witness :
    (FrameToBMP (bytes [30, 20, 10, 255, 60, 50, 40, 255]) 2 1 8 []).2.length
        = 54 + bmpRowSize 2 * 1 ∧
      rd (FrameToBMP (bytes [30, 20, 10, 255, 60, 50, 40, 255]) 2 1 8 []).2
          (54 + 0 * bmpRowSize 2 + 3 * 1 + 2)
        = rd (bytes [30, 20, 10, 255, 60, 50, 40, 255]) (0 * 8 + 4 * 1 + 2) :=
  ⟨(FrameToBMP_faithful (bytes [30, 20, 10, 255, 60, 50, 40, 255]) 2 1 8 [] (by decide)
      (by decide) (by decide) (by decide)).2.1,
    (FrameToBMP_faithful (bytes [30, 20, 10, 255, 60, 50, 40, 255]) 2 1 8 [] (by decide)
      (by decide) (by decide) (by decide)).2.2.2.2.2.1 1 0 2 (by decide) (by decide)
      (by decide)⟩
/-! ## Accuracy of the rounding function -/

theorem bitLenAux_zero (fuel : Nat) : bitLenAux fuel 0 = 0 := by
  cases fuel <;> simp [bitLenAux]

theorem bitLenAux_spec (fuel : Nat) : ∀ n, n ≤ fuel →
    n < 2 ^ bitLenAux fuel n ∧ (0 < n → 2 ^ bitLenAux fuel n ≤ 2 * n) := by
  induction fuel with
  | zero =>
    intro n hn
    have h0 : n = 0 := by omega
    subst h0
    exact ⟨by simp [bitLenAux], fun h => absurd h (by omega)⟩
  | succ fuel ih =>
    intro n hn
    by_cases h0 : n = 0
    · subst h0
      exact ⟨by simp [bitLenAux], fun h => absurd h (by omega)⟩
    · have e : bitLenAux (fuel + 1) n = bitLenAux fuel (n / 2) + 1 := by
        simp [bitLenAux, h0]
      obtain ⟨h1, h2⟩ := ih (n / 2) (by omega)
      rw [e, pow_succ]
      constructor
      · omega
      · intro _
        by_cases h3 : n / 2 = 0
        · rw [h3, bitLenAux_zero]
          simp
          omega
        · have := h2 (by omega)
          omega

theorem bitLen_spec (n : Nat) :
    n < 2 ^ bitLen n ∧ (0 < n → 2 ^ bitLen n ≤ 2 * n) :=
  bitLenAux_spec n n (le_refl n)

theorem floorLog2_le (n d : Nat) (hn : 0 < n) (hd : 0 < d) :
    (2 : ℚ) ^ (floorLog2 n d) ≤ (n : ℚ) / d := by
  obtain ⟨n1, n2⟩ := bitLen_spec n
  obtain ⟨d1, _⟩ := bitLen_spec d
  have n3 := n2 hn
  have hdq : (0 : ℚ) < d := by exact_mod_cast hd
  rw [le_div_iff₀ hdq]
  unfold floorLog2
  dsimp only
  by_cases hk : (0 : Int) ≤ (bitLen n : Int) - (bitLen d : Int)
  · rw [if_pos hk]
    obtain ⟨a, ha⟩ : ∃ a : Nat, (bitLen n : Int) - (bitLen d : Int) = a :=
      ⟨((bitLen n : Int) - (bitLen d : Int)).toNat, (Int.toNat_of_nonneg hk).symm⟩
    have hbn : bitLen n = bitLen d + a := by omega
    rw [ha, Int.toNat_natCast]
    by_cases ht : d * 2 ^ a ≤ n
    · rw [if_pos ht, zpow_natCast]
      have : ((d * 2 ^ a : Nat) : ℚ) ≤ n := by exact_mod_cast ht
      push_cast at this
      linarith
    · rw [if_neg ht, zpow_sub_one₀ (by norm_num), zpow_natCast]
      have h5 : d * 2 ^ a < 2 * n := by
        have : d * 2 ^ a < 2 ^ bitLen d * 2 ^ a :=
          Nat.mul_lt_mul_of_pos_right d1 (by positivity)
        rw [← pow_add, ← hbn] at this
        omega
      have : ((d * 2 ^ a : Nat) : ℚ) < ((2 * n : Nat) : ℚ) := by exact_mod_cast h5
      push_cast at this
      have h6 : (0 : ℚ) < 2 ^ a := by positivity
      rw [show (2 : ℚ) ^ a * 2⁻¹ * d = (d * 2 ^ a) / 2 by ring]
      linarith
  · rw [if_neg hk]
    obtain ⟨a, ha⟩ : ∃ a : Nat, -((bitLen n : Int) - (bitLen d : Int)) = a :=
      ⟨(-((bitLen n : Int) - (bitLen d : Int))).toNat,
        (Int.toNat_of_nonneg (by omega)).symm⟩
    have hbd : bitLen d = bitLen n + a := by omega
    have hk2 : (bitLen n : Int) - (bitLen d : Int) = -(a : Int) := by omega
    rw [ha, Int.toNat_natCast, hk2]
    have h6 : (0 : ℚ) < 2 ^ a := by positivity
    by_cases ht : d ≤ n * 2 ^ a
    · rw [if_pos ht, zpow_neg, zpow_natCast]
      have : ((d : Nat) : ℚ) ≤ ((n * 2 ^ a : Nat) : ℚ) := by exact_mod_cast ht
      push_cast at this
      rw [inv_mul_le_iff₀ h6]
      linarith
    · rw [if_neg ht, zpow_sub_one₀ (by norm_num), zpow_neg, zpow_natCast]
      have h5 : d < 2 * (n * 2 ^ a) := by
        have : 2 ^ bitLen n * 2 ^ a ≤ (2 * n) * 2 ^ a := Nat.mul_le_mul_right _ n3
        rw [← pow_add, ← hbd] at this
        have e : 2 * n * 2 ^ a = 2 * (n * 2 ^ a) := by ring
        omega
      have : ((d : Nat) : ℚ) < ((2 * (n * 2 ^ a) : Nat) : ℚ) := by exact_mod_cast h5
      push_cast at this
      rw [show ((2 : ℚ) ^ a)⁻¹ * 2⁻¹ * d = d / (2 * 2 ^ a) by rw [div_eq_mul_inv, mul_inv]; ring]
      rw [div_le_iff₀ (by positivity)]
      linarith

theorem roundNearestEven_spec (N D : Nat) (hD : 0 < D) :
    |((roundNearestEven N D : Nat) : ℚ) - (N : ℚ) / D| ≤ 1 / 2 := by
  have hN : N = D * (N / D) + N % D := (Nat.div_add_mod N D).symm
  have hr : N % D < D := Nat.mod_lt N hD
  have hDq : (0 : ℚ) < D := by exact_mod_cast hD
  have key : 2 * N ≤ 2 * (roundNearestEven N D * D) + D ∧
      2 * (roundNearestEven N D * D) ≤ 2 * N + D := by
    have e1 : (N / D + 1) * D = D * (N / D) + D := by ring
    have e2 : N / D * D = D * (N / D) := by ring
    unfold roundNearestEven
    dsimp only
    split_ifs <;> omega
  have k1 : (2 * (N : ℚ)) ≤ 2 * ((roundNearestEven N D : Nat) * D) + D := by
    exact_mod_cast key.1
  have k2 : (2 * (((roundNearestEven N D : Nat) : ℚ) * D)) ≤ 2 * N + D := by
    exact_mod_cast key.2
  have h1 : (N : ℚ) / D ≤ ((roundNearestEven N D : Nat) : ℚ) + 1 / 2 := by
    rw [div_le_iff₀ hDq]
    linarith
  have h2 : ((roundNearestEven N D : Nat) : ℚ) - 1 / 2 ≤ (N : ℚ) / D := by
    rw [le_div_iff₀ hDq]
    linarith
  rw [abs_le]
  constructor <;> linarith

theorem scaleb_eq (m : Nat) (e : Int) : scaleb m e = (m : ℚ) * (2 : ℚ) ^ e := by
  unfold scaleb
  by_cases h : 0 ≤ e
  · rw [if_pos h]
    obtain ⟨a, ha⟩ : ∃ a : Nat, e = a := ⟨e.toNat, (Int.toNat_of_nonneg h).symm⟩
    rw [ha, Int.toNat_natCast, zpow_natCast]
    push_cast
    ring
  · rw [if_neg h]
    obtain ⟨a, ha⟩ : ∃ a : Nat, -e = a := ⟨(-e).toNat, (Int.toNat_of_nonneg (by omega)).symm⟩
    have he : e = -(a : Int) := by omega
    rw [ha, Int.toNat_natCast, he, zpow_neg, zpow_natCast, Rat.mkRat_eq_div]
    push_cast
    rw [div_eq_mul_inv]

theorem roundPos32_mantissa (n d : Nat) (hd : 0 < d) (ue : Int) :
    |(((if 0 ≤ ue then roundNearestEven n (d * 2 ^ ue.toNat)
          else roundNearestEven (n * 2 ^ (-ue).toNat) d : Nat) : ℚ)) * (2 : ℚ) ^ ue
        - (n : ℚ) / d| ≤ (2 : ℚ) ^ ue / 2 := by
  have hdq : (0 : ℚ) < d := by exact_mod_cast hd
  have hp : (0 : ℚ) < (2 : ℚ) ^ ue := by positivity
  by_cases h : 0 ≤ ue
  · rw [if_pos h]
    obtain ⟨a, ha⟩ : ∃ a : Nat, ue = a := ⟨ue.toNat, (Int.toNat_of_nonneg h).symm⟩
    rw [ha, Int.toNat_natCast, zpow_natCast]
    have hp2 : (0 : ℚ) < (2 : ℚ) ^ a := by positivity
    have := roundNearestEven_spec n (d * 2 ^ a) (by positivity)
    push_cast at this
    have e : (n : ℚ) / d = (n : ℚ) / (d * 2 ^ a) * 2 ^ a := by
      field_simp
      ring
    rw [e, ← sub_mul, abs_mul, abs_of_pos hp2]
    calc _ ≤ 1 / 2 * (2 : ℚ) ^ a := mul_le_mul_of_nonneg_right this hp2.le
      _ = _ := by ring
  · rw [if_neg h]
    obtain ⟨a, ha⟩ : ∃ a : Nat, -ue = a := ⟨(-ue).toNat, (Int.toNat_of_nonneg (by omega)).symm⟩
    have he : ue = -(a : Int) := by omega
    rw [ha, Int.toNat_natCast, he, zpow_neg, zpow_natCast]
    have hp2 : (0 : ℚ) < (2 : ℚ) ^ a := by positivity
    have := roundNearestEven_spec (n * 2 ^ a) d hd
    push_cast at this
    have e : (n : ℚ) / d = (n : ℚ) * 2 ^ a / d * ((2 : ℚ) ^ a)⁻¹ := by
      field_simp
      ring
    rw [e, ← sub_mul, abs_mul, abs_of_pos (inv_pos.mpr hp2)]
    calc _ ≤ 1 / 2 * ((2 : ℚ) ^ a)⁻¹ := mul_le_mul_of_nonneg_right this (inv_pos.mpr hp2).le
      _ = _ := by ring

theorem roundPos32_shape (n d : Nat) :
    binary32.roundPos n d
      = (if 128 < max (floorLog2 n d - 23) (-149) then none
        else if 2 ^ (128 - max (floorLog2 n d - 23) (-149)).toNat
            ≤ (if 0 ≤ max (floorLog2 n d - 23) (-149)
                then roundNearestEven n (d * 2 ^ (max (floorLog2 n d - 23) (-149)).toNat)
                else roundNearestEven (n * 2 ^ (-(max (floorLog2 n d - 23) (-149))).toNat) d)
          then none
        else some (scaleb
          (if 0 ≤ max (floorLog2 n d - 23) (-149)
            then roundNearestEven n (d * 2 ^ (max (floorLog2 n d - 23) (-149)).toNat)
            else roundNearestEven (n * 2 ^ (-(max (floorLog2 n d - 23) (-149))).toNat) d)
          (max (floorLog2 n d - 23) (-149)))) := by
  unfold Fmt.roundPos binary32
  norm_num

theorem roundPos32_error (n d : Nat) (hn : 0 < n) (hd : 0 < d) (r : ℚ)
    (h : binary32.roundPos n d = some r) :
    0 ≤ r ∧ |r - (n : ℚ) / d| ≤ (n : ℚ) / d / 2 ^ 24 + 1 / 2 ^ 150 := by
  rw [roundPos32_shape] at h
  have he := floorLog2_le n d hn hd
  generalize floorLog2 n d = e at h he
  have hue : (2 : ℚ) ^ (max (e - 23) (-149)) / 2 ≤ (n : ℚ) / d / 2 ^ 24 + 1 / 2 ^ 150 := by
    have hq : (0 : ℚ) ≤ (n : ℚ) / d := by positivity
    rcases max_choice (e - 23) (-149) with hm | hm
    · rw [hm, zpow_sub₀ (by norm_num)]
      have : (2 : ℚ) ^ (23 : ℤ) = 2 ^ 23 := by norm_num
      rw [this]
      have h2 : (2 : ℚ) ^ e / 2 ^ 23 / 2 = (2 : ℚ) ^ e / 2 ^ 24 := by ring
      rw [h2]
      have h3 : (2 : ℚ) ^ e / 2 ^ 24 ≤ (n : ℚ) / d / 2 ^ 24 :=
        div_le_div_of_nonneg_right he (by positivity)
      have h4 : (0 : ℚ) ≤ 1 / 2 ^ 150 := by positivity
      linarith
    · rw [hm]
      have : (2 : ℚ) ^ (-149 : ℤ) / 2 = 1 / 2 ^ 150 := by
        rw [zpow_neg]
        norm_num
      rw [this]
      have h4 : (0 : ℚ) ≤ (n : ℚ) / d / 2 ^ 24 := by positivity
      linarith
  have hm := roundPos32_mantissa n d hd (max (e - 23) (-149))
  split_ifs at h <;> first
    | exact Option.noConfusion h
    | (have hr := Option.some.inj h
       rw [scaleb_eq] at hr
       rw [← hr]
       refine ⟨by positivity, ?_⟩
       first
         | (rw [if_pos (by assumption)] at hm; exact le_trans hm hue)
         | (rw [if_neg (by assumption)] at hm; exact le_trans hm hue))

theorem roundPos32_finite (n d : Nat) (hn : 0 < n) (hd : 0 < d)
    (hq : (n : ℚ) / d < 2 ^ 127) : ∃ r, binary32.roundPos n d = some r := by
  rw [roundPos32_shape]
  have he := floorLog2_le n d hn hd
  generalize floorLog2 n d = e at he ⊢
  have he2 : e < 127 := by
    have h1 : (2 : ℚ) ^ e < (2 : ℚ) ^ (127 : ℤ) := by
      have : (2 : ℚ) ^ (127 : ℤ) = 2 ^ 127 := by norm_num
      rw [this]
      exact lt_of_le_of_lt he hq
    exact (zpow_lt_zpow_iff_right₀ (by norm_num : (1 : ℚ) < 2)).mp h1
  have hu1 : max (e - 23) (-149) ≤ 103 := max_le (by omega) (by omega)
  have hm := roundPos32_mantissa n d hd (max (e - 23) (-149))
  generalize max (e - 23) (-149) = ue at hu1 hm ⊢
  generalize (if 0 ≤ ue then roundNearestEven n (d * 2 ^ ue.toNat)
    else roundNearestEven (n * 2 ^ (-ue).toNat) d) = m at hm ⊢
  rw [if_neg (by omega)]
  have hp : (0 : ℚ) < (2 : ℚ) ^ ue := by positivity
  have hm2 : (m : ℚ) * (2 : ℚ) ^ ue ≤ (n : ℚ) / d + (2 : ℚ) ^ ue / 2 := by
    have := (abs_le.mp hm).2
    linarith
  obtain ⟨a, ha⟩ : ∃ a : Nat, 128 - ue = a :=
    ⟨(128 - ue).toNat, (Int.toNat_of_nonneg (by omega)).symm⟩
  have hlt : m < 2 ^ a := by
    have h127 : (2 : ℚ) ^ (127 : ℕ) = (2 : ℚ) ^ ((a : ℤ) - 1) * (2 : ℚ) ^ ue := by
      rw [← zpow_add₀ (by norm_num : (2 : ℚ) ≠ 0), ← zpow_natCast]
      congr 1
      push_cast
      omega
    have h1a : (1 : ℚ) ≤ (2 : ℚ) ^ ((a : ℤ) - 1) :=
      one_le_zpow₀ (by norm_num) (by omega)
    have h3 : (m : ℚ) * (2 : ℚ) ^ ue < (2 : ℚ) ^ (a : ℤ) * (2 : ℚ) ^ ue := by
      have e2 : (2 : ℚ) ^ (a : ℤ) = 2 * (2 : ℚ) ^ ((a : ℤ) - 1) := by
        rw [zpow_sub_one₀ (by norm_num)]
        field_simp
      rw [e2]
      have hq2 : (n : ℚ) / d < (2 : ℚ) ^ ((a : ℤ) - 1) * (2 : ℚ) ^ ue := by
        rw [← h127]
        exact hq
      nlinarith
    have h4 : (m : ℚ) < (2 : ℚ) ^ (a : ℤ) := lt_of_mul_lt_mul_right h3 hp.le
    rw [zpow_natCast] at h4
    exact_mod_cast h4
  rw [ha, Int.toNat_natCast, if_neg (by omega)]
  exact ⟨_, rfl⟩

theorem round32_pos (q : ℚ) (hq : 0 < q) :
    binary32.round q = Flt.pinf ∨
      ∃ r, binary32.round q = Flt.fin r ∧ 0 ≤ r ∧ |r - q| ≤ q / 2 ^ 24 + 1 / 2 ^ 150 := by
  have hnum : 0 < q.num := Rat.num_pos.mpr hq
  have hn : 0 < q.num.toNat := by omega
  have hcast : ((q.num.toNat : ℕ) : ℚ) / (q.den : ℚ) = q := by
    have e : ((q.num.toNat : ℕ) : ℤ) = q.num := Int.toNat_of_nonneg hnum.le
    have e2 : ((q.num.toNat : ℕ) : ℚ) = ((q.num : ℤ) : ℚ) := by
      rw [← e]
      push_cast
      rfl
    rw [e2]
    exact Rat.num_div_den q
  unfold Fmt.round
  rw [if_neg (ne_of_gt hq), if_pos hq]
  cases hr : binary32.roundPos q.num.toNat q.den with
  | none => exact Or.inl rfl
  | some r =>
    right
    have := roundPos32_error _ _ hn q.den_pos r hr
    rw [hcast] at this
    exact ⟨r, rfl, this⟩

theorem round32_finite (q : ℚ) (hq : 0 < q) (hlt : q < 2 ^ 127) :
    ∃ r, binary32.round q = Flt.fin r ∧ 0 ≤ r ∧ |r - q| ≤ q / 2 ^ 24 + 1 / 2 ^ 150 := by
  have hnum : 0 < q.num := Rat.num_pos.mpr hq
  have hn : 0 < q.num.toNat := by omega
  have hcast : ((q.num.toNat : ℕ) : ℚ) / (q.den : ℚ) = q := by
    have e : ((q.num.toNat : ℕ) : ℤ) = q.num := Int.toNat_of_nonneg hnum.le
    have e2 : ((q.num.toNat : ℕ) : ℚ) = ((q.num : ℤ) : ℚ) := by
      rw [← e]
      push_cast
      rfl
    rw [e2]
    exact Rat.num_div_den q
  obtain ⟨r, hr⟩ := roundPos32_finite _ _ hn q.den_pos (by rw [hcast]; exact hlt)
  rcases round32_pos q hq with h | h
  · unfold Fmt.round at h
    rw [if_neg (ne_of_gt hq), if_pos hq, hr] at h
    exact Flt.noConfusion h
  · exact h

theorem round32_zero : binary32.round 0 = Flt.fin 0 := by
  unfold Fmt.round
  rw [if_pos rfl]


theorem round32_bounds (q : ℚ) (hq : 0 ≤ q) (hlt : q < 2 ^ 127) :
    ∃ r, binary32.round q = Flt.fin r ∧ 0 ≤ r ∧ r ≤ q + q / 2 ^ 24 + 1 / 2 ^ 150 ∧
      q - q / 2 ^ 24 - 1 / 2 ^ 150 ≤ r := by
  rcases eq_or_lt_of_le hq with h0 | hpos
  · refine ⟨0, ?_, le_refl 0, ?_, ?_⟩
    · rw [← h0]
      exact round32_zero
    · rw [← h0]
      norm_num
    · rw [← h0]
      norm_num
  · obtain ⟨r, h1, h2, h3⟩ := round32_finite q hpos hlt
    have := abs_le.mp h3
    exact ⟨r, h1, h2, by linarith [this.2], by linarith [this.1]⟩

theorem f32_nat_bounds (n : Nat) (hn : n < 4294967296) :
    ∃ a : ℚ, f32 (n : ℚ) = Flt.fin a ∧ 0 ≤ a ∧ a ≤ (n : ℚ) + (n : ℚ) / 2 ^ 24 + 1 / 2 ^ 150 ∧
      (n : ℚ) - (n : ℚ) / 2 ^ 24 - 1 / 2 ^ 150 ≤ a := by
  have h1 : (n : ℚ) < 4294967296 := by exact_mod_cast hn
  exact round32_bounds (n : ℚ) (Nat.cast_nonneg n) (by
    have : (4294967296 : ℚ) < 2 ^ 127 := by norm_num
    linarith)

theorem truncNat_le (t : ℚ) (b : Nat) (h : t < (b : ℚ) + 1) : (Flt.fin t).truncNat ≤ b := by
  show (if 0 ≤ t then (t.num / (t.den : Int)).toNat else 0) ≤ b
  split_ifs with h0
  · have hf : ⌊t⌋ = t.num / (t.den : Int) := Rat.floor_def' t
    rw [← hf]
    have h1 : ⌊t⌋ < (b : ℤ) + 1 := by
      have : (⌊t⌋ : ℚ) ≤ t := Int.floor_le t
      have h2 : (⌊t⌋ : ℚ) < ((b : ℤ) + 1 : ℤ) := by
        push_cast
        linarith
      exact_mod_cast h2
    omega
  · exact Nat.zero_le b

theorem fdiv_fin (a b : ℚ) (hb : b ≠ 0) :
    fdiv (Flt.fin a) (Flt.fin b) = binary32.round (a / b) := by
  show (if b = 0 then (if a = 0 then Flt.nan else Flt.infOfSign (decide (0 < a)))
    else binary32.round (a / b)) = _
  rw [if_neg hb]

/-! ## Full desaturation -/

theorem round_int_510 : ∀ k : Fin 511, binary32.round ((k.val : ℚ)) = Flt.fin (k.val : ℚ) := by
  decide!

theorem round_int_signed : ∀ k : Fin 511,
    binary32.round ((k.val : ℚ) - 255) = Flt.fin ((k.val : ℚ) - 255) := by
  decide!

theorem finishChannel_half : ∀ k : Fin 511,
    finishChannel (Flt.fin 0) (Flt.fin 1) (Flt.fin ((k.val : ℚ) / 2)) = byteOfNat (k.val / 2) := by
  decide!

theorem round32_nat (k : Nat) (hk : k ≤ 510) : binary32.round (k : ℚ) = Flt.fin (k : ℚ) :=
  round_int_510 ⟨k, by omega⟩

theorem stdMax_fin (a b : ℚ) : Flt.stdMax (Flt.fin a) (Flt.fin b) = Flt.fin (max a b) := by
  unfold Flt.stdMax Flt.lt
  by_cases h : a < b
  · simp [h, max_eq_right h.le]
  · simp [h, max_eq_left (not_lt.mp h)]

theorem stdMin_fin (a b : ℚ) : Flt.stdMin (Flt.fin a) (Flt.fin b) = Flt.fin (min a b) := by
  unfold Flt.stdMin Flt.lt
  by_cases h : b < a
  · simp [h, min_eq_right h.le]
  · simp [h, min_eq_left (not_lt.mp h)]

theorem fmul_zero_right (t : ℚ) : fmul (Flt.fin t) (Flt.fin 0) = Flt.fin 0 := by
  show binary32.round (t * 0) = _
  rw [mul_zero, round32_zero]

theorem fdiv_pos_finite (a b : ℚ) (ha : 0 < a) (ha2 : a ≤ 255) (hb : 1 ≤ b) :
    ∃ t, fdiv (Flt.fin a) (Flt.fin b) = Flt.fin t := by
  have hb0 : b ≠ 0 := by linarith
  have hq : 0 < a / b := by positivity
  have hlt : a / b < 2 ^ 127 := by
    have : a / b ≤ 255 := by
      rw [div_le_iff₀ (by linarith)]
      nlinarith
    have : (255 : ℚ) < 2 ^ 127 := by norm_num
    linarith
  obtain ⟨r, hr, _⟩ := round32_finite (a / b) hq hlt
  exact ⟨r, by rw [fdiv_fin a b hb0, hr]⟩

theorem round_half_510 (k : Nat) (hk : k ≤ 510) :
    binary32.round ((k : ℚ) / 2) = Flt.fin ((k : ℚ) / 2) :=
  round_quarter _ ⟨2 * k, by omega, by push_cast; ring⟩

theorem saturate_zero_core (M m : Nat) (hmM : m ≤ M) (hM : M ≤ 255) (hne : M ≠ m)
    (x : Nat) (hx : x ≤ 255) :
    Flt.ne (Flt.fin (M : ℚ)) (Flt.fin (m : ℚ)) = true ∧
    fdiv (fadd (Flt.fin (M : ℚ)) (Flt.fin (m : ℚ))) (f32 2) = Flt.fin (((M + m : ℕ) : ℚ) / 2) ∧
    Flt.stdMin (f32 1) (Flt.stdMax (f32 0)
      (fmul (if Flt.le (Flt.fin (((M + m : ℕ) : ℚ) / 2)) (f32 (255 / 2))
          then fdiv (fsub (Flt.fin (M : ℚ)) (Flt.fin (m : ℚ)))
            (fadd (Flt.fin (M : ℚ)) (Flt.fin (m : ℚ)))
          else fdiv (fsub (Flt.fin (M : ℚ)) (Flt.fin (m : ℚ)))
            (fsub (fsub (f32 510) (Flt.fin (M : ℚ))) (Flt.fin (m : ℚ))))
        (Flt.fin 0))) = Flt.fin 0 ∧
    fmul (Flt.fin (((M + m : ℕ) : ℚ) / 2)) (fsub (f32 1) (Flt.fin 0))
      = Flt.fin (((M + m : ℕ) : ℚ) / 2) ∧
    fmul (Flt.fin (((M + m : ℕ) : ℚ) / 2)) (fadd (f32 1) (Flt.fin 0))
      = Flt.fin (((M + m : ℕ) : ℚ) / 2) ∧
    fadd (Flt.fin (((M + m : ℕ) : ℚ) / 2))
      (fdiv (fmul (fsub (Flt.fin (x : ℚ)) (Flt.fin (m : ℚ)))
          (fsub (Flt.fin (((M + m : ℕ) : ℚ) / 2)) (Flt.fin (((M + m : ℕ) : ℚ) / 2))))
        (fsub (Flt.fin (M : ℚ)) (Flt.fin (m : ℚ))))
      = Flt.fin (((M + m : ℕ) : ℚ) / 2) := by
  have hMq : (M : ℚ) ≠ (m : ℚ) := by exact_mod_cast hne
  have F1 : fadd (Flt.fin (M : ℚ)) (Flt.fin (m : ℚ)) = Flt.fin ((M + m : ℕ) : ℚ) := by
    show binary32.round ((M : ℚ) + (m : ℚ)) = _
    rw [← Nat.cast_add]
    exact round32_nat _ (by omega)
  have F2 : fdiv (Flt.fin ((M + m : ℕ) : ℚ)) (f32 2) = Flt.fin (((M + m : ℕ) : ℚ) / 2) := by
    rw [f32_two, fdiv_fin _ _ (by norm_num)]
    exact round_half_510 _ (by omega)
  have F3 : fsub (Flt.fin (M : ℚ)) (Flt.fin (m : ℚ)) = Flt.fin ((M - m : ℕ) : ℚ) := by
    show binary32.round ((M : ℚ) + -(m : ℚ)) = _
    have e : (M : ℚ) + -(m : ℚ) = ((M - m : ℕ) : ℚ) := by
      rw [Nat.cast_sub hmM]
      ring
    rw [e]
    exact round32_nat _ (by omega)
  have F4a : fsub (fsub (f32 510) (Flt.fin (M : ℚ))) (Flt.fin (m : ℚ))
      = Flt.fin ((510 - M - m : ℕ) : ℚ) := by
    have e0 : f32 510 = Flt.fin ((510 : ℕ) : ℚ) := by decide!
    have e1 : fsub (Flt.fin ((510 : ℕ) : ℚ)) (Flt.fin (M : ℚ))
        = Flt.fin ((510 - M : ℕ) : ℚ) := by
      show binary32.round (((510 : ℕ) : ℚ) + -(M : ℚ)) = _
      have e : ((510 : ℕ) : ℚ) + -(M : ℚ) = ((510 - M : ℕ) : ℚ) := by
        rw [Nat.cast_sub (by omega)]
        ring
      rw [e]
      exact round32_nat _ (by omega)
    rw [e0, e1]
    show binary32.round (((510 - M : ℕ) : ℚ) + -(m : ℚ)) = _
    have e : ((510 - M : ℕ) : ℚ) + -(m : ℚ) = ((510 - M - m : ℕ) : ℚ) := by
      rw [Nat.cast_sub (show m ≤ 510 - M by omega)]
      ring
    rw [e]
    exact round32_nat _ (by omega)
  have hdpos : (0 : ℚ) < ((M - m : ℕ) : ℚ) := by
    have : 0 < M - m := by omega
    exact_mod_cast this
  have hdle : ((M - m : ℕ) : ℚ) ≤ 255 := by
    have : M - m ≤ 255 := by omega
    exact_mod_cast this
  have F4 : ∃ t, (if Flt.le (Flt.fin (((M + m : ℕ) : ℚ) / 2)) (f32 (255 / 2))
          then fdiv (fsub (Flt.fin (M : ℚ)) (Flt.fin (m : ℚ)))
            (fadd (Flt.fin (M : ℚ)) (Flt.fin (m : ℚ)))
          else fdiv (fsub (Flt.fin (M : ℚ)) (Flt.fin (m : ℚ)))
            (fsub (fsub (f32 510) (Flt.fin (M : ℚ))) (Flt.fin (m : ℚ)))) = Flt.fin t := by
    rw [F3, F1, F4a]
    split_ifs
    · exact fdiv_pos_finite _ _ hdpos hdle (by
        have : 1 ≤ M + m := by omega
        exact_mod_cast this)
    · exact fdiv_pos_finite _ _ hdpos hdle (by
        have : 1 ≤ 510 - M - m := by omega
        exact_mod_cast this)
  obtain ⟨t, ht⟩ := F4
  have F6 : Flt.stdMin (f32 1) (Flt.stdMax (f32 0) (Flt.fin 0)) = Flt.fin 0 := by decide!
  have F7 : fsub (f32 1) (Flt.fin 0) = Flt.fin 1 := by decide!
  have F7b : fadd (f32 1) (Flt.fin 0) = Flt.fin 1 := by decide!
  have F8 : fmul (Flt.fin (((M + m : ℕ) : ℚ) / 2)) (Flt.fin 1)
      = Flt.fin (((M + m : ℕ) : ℚ) / 2) := by
    show binary32.round (((M + m : ℕ) : ℚ) / 2 * 1) = _
    rw [mul_one]
    exact round_half_510 _ (by omega)
  have F9 : fsub (Flt.fin (((M + m : ℕ) : ℚ) / 2)) (Flt.fin (((M + m : ℕ) : ℚ) / 2))
      = Flt.fin 0 := by
    show binary32.round (((M + m : ℕ) : ℚ) / 2 + -(((M + m : ℕ) : ℚ) / 2)) = _
    rw [add_neg_cancel]
    exact round32_zero
  have F10 : fsub (Flt.fin (x : ℚ)) (Flt.fin (m : ℚ)) = Flt.fin ((x : ℚ) - (m : ℚ)) := by
    show binary32.round ((x : ℚ) + -(m : ℚ)) = _
    have e : (x : ℚ) + -(m : ℚ) = ((x + 255 - m : ℕ) : ℚ) - 255 := by
      rw [Nat.cast_sub (by omega)]
      push_cast
      ring
    have e2 : (x : ℚ) - (m : ℚ) = ((x + 255 - m : ℕ) : ℚ) - 255 := by
      rw [← e]
      ring
    rw [e, e2]
    exact round_int_signed ⟨x + 255 - m, by omega⟩
  have F12 : fdiv (Flt.fin 0) (Flt.fin ((M - m : ℕ) : ℚ)) = Flt.fin 0 := by
    rw [fdiv_fin _ _ (ne_of_gt hdpos), zero_div]
    exact round32_zero
  have F13 : fadd (Flt.fin (((M + m : ℕ) : ℚ) / 2)) (Flt.fin 0)
      = Flt.fin (((M + m : ℕ) : ℚ) / 2) := by
    show binary32.round (((M + m : ℕ) : ℚ) / 2 + 0) = _
    rw [add_zero]
    exact round_half_510 _ (by omega)
  refine ⟨?_, ?_, ?_, ?_, ?_, ?_⟩
  · simp [Flt.ne, Flt.eq, hMq]
  · rw [F1, F2]
  · rw [ht, fmul_zero_right, F6]
  · rw [F7, F8]
  · rw [F7b, F8]
  · rw [F9, F10, fmul_zero_right, F3, F12, F13]

theorem saturatePixel_zero (xb xg xr : Nat) (hb : xb ≤ 255) (hg : xg ≤ 255) (hr : xr ≤ 255) :
    saturatePixel (Flt.fin 0) (Flt.fin (xb : ℚ)) (Flt.fin (xg : ℚ)) (Flt.fin (xr : ℚ))
      = (Flt.fin (((max (max xr xg) xb + min (min xr xg) xb : ℕ) : ℚ) / 2),
         Flt.fin (((max (max xr xg) xb + min (min xr xg) xb : ℕ) : ℚ) / 2),
         Flt.fin (((max (max xr xg) xb + min (min xr xg) xb : ℕ) : ℚ) / 2)) := by
  unfold saturatePixel
  dsimp only
  rw [stdMax_fin, stdMax_fin, stdMin_fin, stdMin_fin, ← Nat.cast_max, ← Nat.cast_max,
    ← Nat.cast_min, ← Nat.cast_min]
  have hM1 : max (max xr xg) xb ≤ 255 := by omega
  have hM2 : xr ≤ max (max xr xg) xb ∧ xg ≤ max (max xr xg) xb ∧ xb ≤ max (max xr xg) xb := by
    omega
  have hm2 : min (min xr xg) xb ≤ xr ∧ min (min xr xg) xb ≤ xg ∧ min (min xr xg) xb ≤ xb := by
    omega
  generalize max (max xr xg) xb = M at hM1 hM2 ⊢
  generalize min (min xr xg) xb = m at hm2 ⊢
  by_cases hMm : M = m
  · have e1 : Flt.ne (Flt.fin (M : ℚ)) (Flt.fin (m : ℚ)) = false := by
      simp [Flt.ne, Flt.eq, hMm]
    rw [e1]
    have eb : xb = m := by omega
    have eg : xg = m := by omega
    have er : xr = m := by omega
    have ev : (((M + m : ℕ) : ℚ) / 2) = (m : ℚ) := by
      rw [hMm]
      push_cast
      ring
    rw [ev, eb, eg, er]
    rfl
  · obtain ⟨c1, c2, c3, c4, c5, c6b⟩ := saturate_zero_core M m (by omega) hM1 hMm xb hb
    obtain ⟨_, _, _, _, _, c6g⟩ := saturate_zero_core M m (by omega) hM1 hMm xg hg
    obtain ⟨_, _, _, _, _, c6r⟩ := saturate_zero_core M m (by omega) hM1 hMm xr hr
    rw [c1]
    simp only [c2, c3, c4, c5, c6b, c6g, c6r]
    split_ifs <;> rfl

theorem tonePixel_desaturate (L : LibM) (pb pg pr : Byte) :
    tonePixel (fmul (Flt.fin 0) (f32 255)) (fadd (Flt.fin 0) (f32 1))
        (fadd (Flt.fin (-1)) (f32 1)) (L.powf (f32 2) (Flt.fin 0)) (Flt.fin 1) pb pg pr
      = (byteOfNat (midGray pb pg pr), byteOfNat (midGray pb pg pr),
          byteOfNat (midGray pb pg pr)) := by
  have e1 : fmul (Flt.fin 0) (f32 255) = Flt.fin 0 := by decide!
  have e2 : fadd (Flt.fin 0) (f32 1) = Flt.fin 1 := by decide!
  have e3 : fadd (Flt.fin (-1)) (f32 1) = Flt.fin 0 := by decide!
  have e4 : fmul (Flt.fin 1) (Flt.fin 1) = Flt.fin 1 := by decide!
  have e5 : Flt.ne (Flt.fin 0) (f32 1) = true := by decide!
  have e6 : ∀ v : Byte, fmul (Flt.ofByte v) (Flt.fin 1) = Flt.fin ((v.val : ℕ) : ℚ) := by
    intro v
    show binary32.round (((v.val : ℕ) : ℚ) * 1) = _
    rw [mul_one]
    exact round32_nat _ (by have := v.isLt; omega)
  have hb := pb.isLt
  have hg := pg.isLt
  have hr := pr.isLt
  unfold tonePixel
  dsimp only
  rw [e1, e2, e3, L.powf_zero, e4, e5, if_pos rfl, e6, e6, e6,
    saturatePixel_zero _ _ _ (by omega) (by omega) (by omega)]
  dsimp only
  have hk : max (max pr.val pg.val) pb.val + min (min pr.val pg.val) pb.val ≤ 510 := by omega
  have := finishChannel_half ⟨_, Nat.lt_succ_of_le hk⟩
  dsimp only at this
  rw [this]
  rfl

/-- C30: with saturation -1, brightness, contrast and exposure 0, gain 1, no filter and zoom
1.0, `ApplyImageAdjustmentsSoftware` returns true and gives every pixel of the frame B, G
and R bytes all equal to floor((max(R,G,B) + min(R,G,B)) / 2) of the input pixel, the alpha
byte being unchanged. -/
theorem ApplyImageAdjustmentsSoftware_full_desaturation (L : LibM) (s : CameraManager)
    (data : Buf) (width height stride : Nat)
    (hl : FrameLayout data width height stride)
    (hz : s.current_zoom_level_ = Flt.fin 1)
    (hsat : s.current_adjustments_.saturation = Flt.fin (-1))
    (hbr : s.current_adjustments_.brightness = Flt.fin 0)
    (hco : s.current_adjustments_.contrast = Flt.fin 0)
    (hex : s.current_adjustments_.exposure = Flt.fin 0)
    (hga : s.current_adjustments_.gain = Flt.fin 1)
    (hf : s.current_adjustments_.filter = "")
    (x y : Nat) (hx : x < width) (hy : y < height) :
    (ApplyImageAdjustmentsSoftware L s data width height stride).1 = true ∧
    (∀ c, c < 3 →
      (rd (ApplyImageAdjustmentsSoftware L s data width height stride).2
          (y * stride + 4 * x + c)).val
        = midGray (rd data (y * stride + 4 * x)) (rd data (y * stride + 4 * x + 1))
            (rd data (y * stride + 4 * x + 2))) ∧
    rd (ApplyImageAdjustmentsSoftware L s data width height stride).2 (y * stride + 4 * x + 3)
      = rd data (y * stride + 4 * x + 3) := by
  obtain ⟨hw, hh, hs4, hlen, hsz⟩ := hl
  have hzoom : Flt.lt (f64 (101 / 100)) (Flt.fin 1) = false := by decide!
  have hnot : Flt.eq (Flt.fin (-1)) (f32 0) = false := by decide!
  have hrun : ApplyImageAdjustmentsSoftware L s data width height stride
      = (true, forEachPixel (applyAt (tonePixel (fmul (Flt.fin 0) (f32 255))
          (fadd (Flt.fin 0) (f32 1)) (fadd (Flt.fin (-1)) (f32 1))
          (L.powf (f32 2) (Flt.fin 0)) (Flt.fin 1))) width height stride data) := by
    unfold ApplyImageAdjustmentsSoftware
    rw [if_neg (by omega), hz, hzoom]
    simp [hsat, hbr, hco, hex, hga, hf, hnot, toneAt_eq]
  rw [hrun]
  refine ⟨rfl, ?_, ?_⟩
  · intro c hc
    show (rd (forEachPixel _ width height stride data) _).val = _
    rw [forEachPixel_pixel _ width stride height data hs4 hlen hsz x y c hx hy hc,
      tonePixel_desaturate]
    have hlt : midGray (rd data (y * stride + 4 * x)) (rd data (y * stride + 4 * x + 1))
        (rd data (y * stride + 4 * x + 2)) < 256 := by
      have h0 := (rd data (y * stride + 4 * x)).isLt
      have h1 := (rd data (y * stride + 4 * x + 1)).isLt
      have h2 := (rd data (y * stride + 4 * x + 2)).isLt
      unfold midGray
      omega
    have hc3 : c = 0 ∨ c = 1 ∨ c = 2 := by omega
    rcases hc3 with h | h | h <;> subst h <;> exact Nat.mod_eq_of_lt hlt
  · show rd (forEachPixel _ width height stride data) _ = _
    exact forEachPixel_alpha _ width stride height data hs4 hsz x y hx hy

theorem ApplyImageAdjustmentsSoftware_full_desaturation_witness :
    (rd (ApplyImageAdjustmentsSoftware LibM.sample desaturatingManager
        (bytes [30, 20, 10, 255]) 1 1 4).2 (0 * 4 + 4 * 0 + 3))
      = rd (bytes [30, 20, 10, 255]) (0 * 4 + 4 * 0 + 3) ∧
    (rd (ApplyImageAdjustmentsSoftware LibM.sample desaturatingManager
        (bytes [30, 20, 10, 255]) 1 1 4).2 (0 * 4 + 4 * 0 + 0)).val
      = midGray (rd (bytes [30, 20, 10, 255]) (0 * 4 + 4 * 0))
          (rd (bytes [30, 20, 10, 255]) (0 * 4 + 4 * 0 + 1))
          (rd (bytes [30, 20, 10, 255]) (0 * 4 + 4 * 0 + 2)) :=
  ⟨(ApplyImageAdjustmentsSoftware_full_desaturation LibM.sample desaturatingManager
      (bytes [30, 20, 10, 255]) 1 1 4 (by decide) rfl rfl rfl rfl rfl rfl rfl 0 0
      (by decide) (by decide)).2.2,
    (ApplyImageAdjustmentsSoftware_full_desaturation LibM.sample desaturatingManager
      (bytes [30, 20, 10, 255]) 1 1 4 (by decide) rfl rfl rfl rfl rfl rfl rfl 0 0
      (by decide) (by decide)).2.1 0 (by decide)⟩
/-! ## The crop rectangle stays inside the frame -/

theorem f64_zoom_threshold :
    f64 (101 / 100) = Flt.fin (4548635623644201 / 4503599627370496) := by
  decide!

theorem cropRaw_le (z : Flt) (hz : Flt.lt (f64 (101 / 100)) z = true) (w : Nat)
    (hw : 1 ≤ w) (hw2 : w < 4294967296) :
    (fdiv (f32 (w : ℚ)) (Flt.cast binary32 z)).truncNat ≤ w := by
  obtain ⟨a, ha, ha0, ha1, ha2⟩ := f32_nat_bounds w hw2
  have hwq : (1 : ℚ) ≤ (w : ℚ) := by exact_mod_cast hw
  have hwq2 : (w : ℚ) < 4294967296 := by exact_mod_cast hw2
  have e24 : (2 : ℚ) ^ 24 = 16777216 := by norm_num
  have hδ : (1 : ℚ) / 2 ^ 150 ≤ 1 / 1000000 := by
    rw [div_le_div_iff₀ (by positivity) (by positivity)]
    norm_num
  have hδ0 : (0 : ℚ) < 1 / 2 ^ 150 := by positivity
  rw [e24] at ha1 ha2
  rw [ha]
  have hinf : (fdiv (Flt.fin a) Flt.pinf).truncNat ≤ w := by
    show (Flt.fin 0).truncNat ≤ w
    exact truncNat_le 0 w (by linarith)
  rw [f64_zoom_threshold] at hz
  cases z with
  | nan => exact Bool.noConfusion hz
  | ninf => exact Bool.noConfusion hz
  | pinf => exact hinf
  | fin q =>
    have hq : (4548635623644201 / 4503599627370496 : ℚ) < q := of_decide_eq_true hz
    have hq1 : (101 / 100 : ℚ) < q := by
      have : (101 / 100 : ℚ) ≤ 4548635623644201 / 4503599627370496 := by norm_num
      linarith
    show (fdiv (Flt.fin a) (binary32.round q)).truncNat ≤ w
    rcases round32_pos q (by linarith) with hp | ⟨r, hr, hr0, hr1⟩
    · rw [hp]
      exact hinf
    · rw [hr]
      rw [e24] at hr1
      have hr2 := (abs_le.mp hr1).1
      have hrge : (1005 / 1000 : ℚ) ≤ r := by linarith
      have hrpos : (0 : ℚ) < r := by linarith
      rw [fdiv_fin a r (ne_of_gt hrpos)]
      have hdiv : a / r ≤ a * (1000 / 1005) := by
        rw [div_le_iff₀ hrpos]
        nlinarith
      have hdiv0 : 0 ≤ a / r := by positivity
      obtain ⟨t, ht, ht0, ht1, _⟩ := round32_bounds (a / r) hdiv0 (by
        have : (2 : ℚ) ^ 33 < 2 ^ 127 := by norm_num
        have : (2 : ℚ) ^ 33 = 8589934592 := by norm_num
        linarith)
      rw [e24] at ht1
      rw [ht]
      apply truncNat_le
      linarith

theorem two_pow_33_lt : (8589934592 : ℚ) < 2 ^ 127 := by norm_num

theorem zoomSource_bound (w x cx cw : Nat) (hw : 1 ≤ w) (hw2 : w < 1073741824) (hx : x < w)
    (hc : cx + cw ≤ w) :
    (fadd (f32 (cx : ℚ)) (fmul (fdiv (f32 (x : ℚ)) (f32 (w : ℚ))) (f32 (cw : ℚ)))).truncNat
      < 2147483648 := by
  have e24 : (2 : ℚ) ^ 24 = 16777216 := by norm_num
  have hδ : (1 : ℚ) / 2 ^ 150 ≤ 1 / 1000000 := by
    rw [div_le_div_iff₀ (by positivity) (by positivity)]
    norm_num
  have hδ0 : (0 : ℚ) < 1 / 2 ^ 150 := by positivity
  have hwq : (1 : ℚ) ≤ (w : ℚ) := by exact_mod_cast hw
  have hwq2 : (w : ℚ) < 1073741824 := by exact_mod_cast hw2
  have hxq : (x : ℚ) < (w : ℚ) := by exact_mod_cast hx
  have hxq0 : (0 : ℚ) ≤ (x : ℚ) := Nat.cast_nonneg x
  have hcq : (cx : ℚ) + (cw : ℚ) ≤ (w : ℚ) := by exact_mod_cast hc
  have hcx0 : (0 : ℚ) ≤ (cx : ℚ) := Nat.cast_nonneg cx
  have hcw0 : (0 : ℚ) ≤ (cw : ℚ) := Nat.cast_nonneg cw
  obtain ⟨a1, h1, h10, h11, _⟩ := f32_nat_bounds x (by omega)
  obtain ⟨a2, h2, h20, _, h22⟩ := f32_nat_bounds w (by omega)
  obtain ⟨a3, h3, h30, h31, _⟩ := f32_nat_bounds cw (by omega)
  obtain ⟨a4, h4, h40, h41, _⟩ := f32_nat_bounds cx (by omega)
  rw [e24] at h11 h22 h31 h41
  have ha2 : (0 : ℚ) < a2 := by linarith
  have hd0 : 0 ≤ a1 / a2 := by positivity
  have hd1 : a1 / a2 ≤ 101 / 100 := by
    rw [div_le_iff₀ ha2]
    linarith
  have hd2 : a1 / a2 < 8589934592 := by linarith
  obtain ⟨r1, hr1, hr10, hr11, _⟩ := round32_bounds (a1 / a2) hd0 (lt_trans hd2 two_pow_33_lt)
  rw [e24] at hr11
  have hr12 : r1 ≤ 102 / 100 := by linarith
  have hp0 : 0 ≤ r1 * a3 := by positivity
  have hp1 : r1 * a3 ≤ 102 / 100 * a3 := mul_le_mul_of_nonneg_right hr12 h30
  have hp2 : r1 * a3 < 8589934592 := by linarith
  obtain ⟨p, hp, hp00, hp11, _⟩ := round32_bounds (r1 * a3) hp0 (lt_trans hp2 two_pow_33_lt)
  rw [e24] at hp11
  have hs0 : 0 ≤ a4 + p := by positivity
  have hs2 : a4 + p < 8589934592 := by linarith
  obtain ⟨s, hs, hs00, hs11, _⟩ := round32_bounds (a4 + p) hs0 (lt_trans hs2 two_pow_33_lt)
  rw [e24] at hs11
  rw [h1, h2, h3, h4, fdiv_fin a1 a2 (ne_of_gt ha2), hr1]
  have e1 : fmul (Flt.fin r1) (Flt.fin a3) = Flt.fin p := hp
  rw [e1]
  have e2 : fadd (Flt.fin a4) (Flt.fin p) = Flt.fin s := hs
  rw [e2]
  have := truncNat_le s 2147483647 (by
    push_cast
    linarith)
  omega

theorem cropRect_inside (z : Flt) (hz : Flt.lt (f64 (101 / 100)) z = true) (w h : Nat)
    (hw : 1 ≤ w) (hw2 : w < 4294967296) (hh : 1 ≤ h) (hh2 : h < 4294967296) :
    u32 (fdiv (f32 (w : ℚ)) (Flt.cast binary32 z)).truncNat ≤ w ∧
    u32 (fdiv (f32 (h : ℚ)) (Flt.cast binary32 z)).truncNat ≤ h ∧
    (cropRect z w h).2.2.1 ≤ w ∧ (cropRect z w h).2.2.2 ≤ h ∧
    (cropRect z w h).1 + (cropRect z w h).2.2.1 ≤ w ∧
    (cropRect z w h).2.1 + (cropRect z w h).2.2.2 ≤ h := by
  have h1 := cropRaw_le z hz w hw hw2
  have h2 := cropRaw_le z hz h hh hh2
  unfold cropRect
  dsimp only
  generalize (fdiv (f32 (w : ℚ)) (Flt.cast binary32 z)).truncNat = rw at h1 ⊢
  generalize (fdiv (f32 (h : ℚ)) (Flt.cast binary32 z)).truncNat = rh at h2 ⊢
  have e1 : u32 rw = rw := Nat.mod_eq_of_lt (by omega)
  have e2 : u32 rh = rh := Nat.mod_eq_of_lt (by omega)
  rw [e1, e2]
  unfold u32 u32sub
  refine ⟨h1, h2, ?_, ?_, ?_, ?_⟩ <;> split_ifs <;> omega

theorem zoomIndex_bound (stride h w sx sy a b c : Nat) (hs : 4 * w ≤ stride)
    (g1 : sx + 1 < w) (g2 : sy + 2 ≤ h) (ha : a ≤ sy + 1)
    (hb : b ≤ sx + 1) (hc : c ≤ 3) : u32 (u32 (a * stride + b * 4) + c) < stride * h := by
  have m0 : a * stride ≤ (sy + 1) * stride := Nat.mul_le_mul_right stride ha
  have m1 : (sy + 2) * stride ≤ h * stride := Nat.mul_le_mul_right stride g2
  have m2 : (sy + 2) * stride = sy * stride + 2 * stride := by ring
  have m3 : (sy + 1) * stride = sy * stride + stride := by ring
  have m4 : stride * h = h * stride := Nat.mul_comm _ _
  unfold u32
  omega

theorem zoomReads_in_bounds (w h stride cx cy cw ch y x : Nat) (hw : 1 ≤ w) (hh : 1 ≤ h)
    (hs : 4 * w ≤ stride) (hk : stride * h < 4294967296) (hx : x < w) (hy : y < h)
    (hcx : cx + cw ≤ w) (hcy : cy + ch ≤ h) :
    ∀ i, i ∈ zoomReads w h stride cx cy cw ch y x → i < stride * h := by
  have hstride : stride ≤ stride * h := Nat.le_mul_of_pos_right _ hh
  have hh3 : 4 * h ≤ stride * h := Nat.mul_le_mul_right h (by omega)
  have hsx := zoomSource_bound w x cx cw hw (by omega) hx hcx
  have hsy := zoomSource_bound h y cy ch hh (by omega) hy hcy
  unfold zoomReads
  dsimp only
  generalize (fadd (f32 (cx : ℚ)) (fmul (fdiv (f32 (x : ℚ)) (f32 (w : ℚ)))
    (f32 (cw : ℚ)))).truncNat = sx at hsx ⊢
  generalize (fadd (f32 (cy : ℚ)) (fmul (fdiv (f32 (y : ℚ)) (f32 (h : ℚ)))
    (f32 (ch : ℚ)))).truncNat = sy at hsy ⊢
  have e1 : u32 sx = sx := Nat.mod_eq_of_lt (by omega)
  have e2 : u32 sy = sy := Nat.mod_eq_of_lt (by omega)
  have e3 : u32 (sx + 1) = sx + 1 := Nat.mod_eq_of_lt (by omega)
  have e4 : u32 (sy + 1) = sy + 1 := Nat.mod_eq_of_lt (by omega)
  rw [e1, e2, e3, e4]
  intro i hi
  by_cases g : w ≤ sx + 1 ∨ h ≤ sy + 1
  · rw [if_pos g] at hi
    exact absurd hi (List.not_mem_nil i)
  · rw [if_neg g] at hi
    have g1 : sx + 1 < w := by omega
    have g2 : sy + 2 ≤ h := by omega
    have key : ∀ a b c, a ≤ sy + 1 → b ≤ sx + 1 → c ≤ 3 →
        u32 (u32 (a * stride + b * 4) + c) < stride * h :=
      fun a b c ha hb hc => zoomIndex_bound stride h w sx sy a b c hs g1 g2 ha hb hc
    simp only [List.mem_cons, List.mem_singleton, List.not_mem_nil, or_false] at hi
    rcases hi with h | h | h | h | h | h | h | h | h | h | h | h | h <;> rw [h] <;>
      exact key _ _ _ (by omega) (by omega) (by omega)

theorem zoomWrites_in_bounds (w h stride y x : Nat) (hs : 4 * w ≤ stride)
    (hk : stride * h < 4294967296) (hx : x < w) (hy : y < h) :
    ∀ i, i ∈ zoomWrites stride y x → i < stride * h := by
  have m1 : (y + 1) * stride ≤ h * stride := Nat.mul_le_mul_right stride hy
  have m3 : (y + 1) * stride = y * stride + stride := by ring
  have m4 : stride * h = h * stride := Nat.mul_comm _ _
  intro i hi
  unfold zoomWrites at hi
  simp only [List.mem_cons, List.mem_singleton, List.not_mem_nil, or_false] at hi
  unfold u32 at hi
  omega

theorem zoomReads_nil_iff (temp : Buf) (w h stride cx cy cw ch y x : Nat) :
    zoomReads w h stride cx cy cw ch y x = [] ↔
      zoomSample temp w h stride cx cy cw ch y x = none := by
  unfold zoomReads zoomSample
  dsimp only
  split_ifs <;> simp

/-- C28: for a frame with width and height at least 1, rows at least 4*width bytes apart and
stride*height below 2^32, and every zoom level that enters the zoom stage (level > 1.01),
the crop widths subtracted from the frame size do not exceed it (no unsigned underflow), the
crop rectangle lies inside the frame, every offset the loop reads from the copy is below
its size stride*height, and every offset it writes is below stride*height and inside the
frame buffer. -/
theorem zoomStage_indices_in_bounds (z : Flt) (hz : Flt.lt (f64 (101 / 100)) z = true)
    (data : Buf) (width height stride : Nat) (hl : FrameLayout data width height stride)
    (x y : Nat) (hx : x < width) (hy : y < height) :
    u32 (fdiv (f32 (width : ℚ)) (Flt.cast binary32 z)).truncNat ≤ width ∧
    u32 (fdiv (f32 (height : ℚ)) (Flt.cast binary32 z)).truncNat ≤ height ∧
    (cropRect z width height).2.2.1 ≤ width ∧ (cropRect z width height).2.2.2 ≤ height ∧
    (cropRect z width height).1 + (cropRect z width height).2.2.1 ≤ width ∧
    (cropRect z width height).2.1 + (cropRect z width height).2.2.2 ≤ height ∧
    (∀ i, i ∈ zoomReads width height stride (cropRect z width height).1
        (cropRect z width height).2.1 (cropRect z width height).2.2.1
        (cropRect z width height).2.2.2 y x → i < u32 (stride * height)) ∧
    (∀ i, i ∈ zoomWrites stride y x → i < stride * height ∧ i < data.length) := by
  obtain ⟨hw, hh, hs, hlen, hk⟩ := hl
  have hstride : 4 * height ≤ stride * height := Nat.mul_le_mul_right height (by omega)
  have hw4 : 4 * width ≤ stride * height :=
    le_trans hs (Nat.le_mul_of_pos_right _ hh)
  obtain ⟨c1, c2, c3, c4, c5, c6⟩ :=
    cropRect_inside z hz width height hw (by omega) hh (by omega)
  have hsz : u32 (stride * height) = stride * height := Nat.mod_eq_of_lt hk
  refine ⟨c1, c2, c3, c4, c5, c6, ?_, ?_⟩
  · rw [hsz]
    exact zoomReads_in_bounds width height stride _ _ _ _ y x hw hh hs hk hx hy c5 c6
  · intro i hi
    have := zoomWrites_in_bounds width height stride y x hs hk hx hy i hi
    exact ⟨this, lt_of_lt_of_le this hlen⟩

theorem zoomStage_indices_in_bounds_witness :
    (cropRect (Flt.fin 2) 2 2).1 + (cropRect (Flt.fin 2) 2 2).2.2.1 ≤ 2 ∧
    (∀ i, i ∈ zoomReads 2 2 8 (cropRect (Flt.fin 2) 2 2).1 (cropRect (Flt.fin 2) 2 2).2.1
        (cropRect (Flt.fin 2) 2 2).2.2.1 (cropRect (Flt.fin 2) 2 2).2.2.2 1 1 →
      i < u32 (8 * 2)) :=
  ⟨(zoomStage_indices_in_bounds (Flt.fin 2) (by decide!)
      (bytes [1, 2, 3, 4, 5, 6, 7, 8, 9, 10, 11, 12, 13, 14, 15, 16]) 2 2 8 (by decide) 1 1
      (by decide) (by decide)).2.2.2.2.1,
    (zoomStage_indices_in_bounds (Flt.fin 2) (by decide!)
      (bytes [1, 2, 3, 4, 5, 6, 7, 8, 9, 10, 11, 12, 13, 14, 15, 16]) 2 2 8 (by decide) 1 1
      (by decide) (by decide)).2.2.2.2.2.2.1⟩
/-! ## The bounds guard in exact arithmetic -/

theorem exactSource_lt (z : ℚ) (w : Nat) (hz : 101 / 100 < z) (hzw : z ≤ (w : ℚ)) (x : Nat)
    (hx : x < w) :
    ⌊(((if w < (w - ⌊(w : ℚ) / z⌋.toNat) / 2
            + (if ⌊(w : ℚ) / z⌋.toNat < 1 then 1 else ⌊(w : ℚ) / z⌋.toNat)
          then w - (if ⌊(w : ℚ) / z⌋.toNat < 1 then 1 else ⌊(w : ℚ) / z⌋.toNat)
          else (w - ⌊(w : ℚ) / z⌋.toNat) / 2 : ℕ) : ℚ)
        + ((x : ℚ) / (w : ℚ))
          * ((if ⌊(w : ℚ) / z⌋.toNat < 1 then 1 else ⌊(w : ℚ) / z⌋.toNat : ℕ) : ℚ))⌋.toNat + 1
      < w := by
  have hz0 : (0 : ℚ) < z := by linarith
  have hwq : (0 : ℚ) < (w : ℚ) := by linarith
  have h1 : (1 : ℚ) ≤ (w : ℚ) / z := by
    rw [le_div_iff₀ hz0]
    linarith
  have h2 : (w : ℚ) / z < (w : ℚ) := by
    rw [div_lt_iff₀ hz0]
    nlinarith
  have hf1 : (1 : ℤ) ≤ ⌊(w : ℚ) / z⌋ := Int.le_floor.mpr (by exact_mod_cast h1)
  have hf2 : ⌊(w : ℚ) / z⌋ < (w : ℤ) := Int.floor_lt.mpr (by exact_mod_cast h2)
  obtain ⟨cw, hcw⟩ : ∃ cw : ℕ, ⌊(w : ℚ) / z⌋ = (cw : ℤ) :=
    ⟨⌊(w : ℚ) / z⌋.toNat, (Int.toNat_of_nonneg (by omega)).symm⟩
  rw [hcw, Int.toNat_natCast]
  have c1 : 1 ≤ cw := by omega
  have c2 : cw < w := by omega
  simp only [if_neg (show ¬ cw < 1 by omega)]
  rw [if_neg (by omega)]
  have hxw : (x : ℚ) / (w : ℚ) < 1 := by
    rw [div_lt_one hwq]
    exact_mod_cast hx
  have hx0 : (0 : ℚ) ≤ (x : ℚ) / (w : ℚ) := by positivity
  have hcwq : (0 : ℚ) < (cw : ℚ) := by exact_mod_cast c1
  have hsum : (w - cw) / 2 + cw + 1 ≤ w := by omega
  have hsumq : (((w - cw) / 2 : ℕ) : ℚ) + (cw : ℚ) + 1 ≤ (w : ℚ) := by exact_mod_cast hsum
  have hsrc : (((w - cw) / 2 : ℕ) : ℚ) + (x : ℚ) / (w : ℚ) * (cw : ℚ) < (w : ℚ) - 1 := by
    nlinarith
  have hsrc0 : (0 : ℚ) ≤ (((w - cw) / 2 : ℕ) : ℚ) + (x : ℚ) / (w : ℚ) * (cw : ℚ) := by
    positivity
  have hfl : ⌊(((w - cw) / 2 : ℕ) : ℚ) + (x : ℚ) / (w : ℚ) * (cw : ℚ)⌋ < (w : ℤ) - 1 :=
    Int.floor_lt.mpr (by push_cast; linarith)
  have hfl0 : 0 ≤ ⌊(((w - cw) / 2 : ℕ) : ℚ) + (x : ℚ) / (w : ℚ) * (cw : ℚ)⌋ :=
    Int.floor_nonneg.mpr hsrc0
  omega

/-- C27: in exact arithmetic, for every zoom z with 1.01 < z <= min(width, height), the
bounds guard of the zoom loop fires for no destination pixel: floor(src_x) + 1 < width and
floor(src_y) + 1 < height for every (x, y) of the frame. -/
theorem zoomSkipsExact_never (z : ℚ) (width height : Nat) (hz : 101 / 100 < z)
    (hzw : z ≤ (width : ℚ)) (hzh : z ≤ (height : ℚ)) (x y : Nat) (hx : x < width)
    (hy : y < height) :
    ⌊(zoomSourceExact z width height y x).1⌋.toNat + 1 < width ∧
    ⌊(zoomSourceExact z width height y x).2⌋.toNat + 1 < height ∧
    zoomSkipsExact z width height y x = false := by
  have h1 : ⌊(zoomSourceExact z width height y x).1⌋.toNat + 1 < width :=
    exactSource_lt z width hz hzw x hx
  have h2 : ⌊(zoomSourceExact z width height y x).2⌋.toNat + 1 < height :=
    exactSource_lt z height hz hzh y hy
  refine ⟨h1, h2, ?_⟩
  unfold zoomSkipsExact
  dsimp only
  exact decide_eq_false (by omega)

theorem zoomSkipsExact_never_witness :
    zoomSkipsExact 2 640 480 479 639 = false :=
  (zoomSkipsExact_never 2 640 480 (by norm_num) (by norm_num) (by norm_num) 639 479
    (by decide) (by decide)).2.2

end camera_access
